import Mathlib

/-!
# Splitwise expense manager: embedding of `main.go`

Amounts are `float64` in the source. In the main development they are taken
as exact rationals (`ℚ`): its statements are about the arithmetic of the
algorithm, not about rounding, infinities or NaN. The statements that do
depend on rounding, overflow or NaN are made over a second embedding, the
namespace `Float64` at the end of the definitions, in which the amounts are
`float64` values (`F64`) with the IEEE 754 operations.

Split objects are reached through pointers in the source (`[]Split` holds
pointers to `EqualSplit`, `ExactSplit` or `PercentSplit` structs which
`SetAmount` mutates in place, and a recorded expense keeps the caller's
pointers). The embedding therefore carries an explicit store of split
objects, `Heap`, and a list of splits is a list of addresses into it.

Go maps are association lists with first-match lookup (`GoMap`). Reading a
missing key gives the zero value, writing into a missing (nil) inner map
stops the program, as in Go.
-/

namespace Splitwise

/-! ## Go maps keyed by strings -/

/-- A Go `map[string]V`, as an association list. -/
abbrev GoMap (V : Type) := List (String × V)

/-- Read `m[key]` with the comma-ok form: `none` when the key is absent. -/
def GoMap.read {V : Type} : GoMap V → String → Option V
  | [], _ => none
  | (k, v) :: m, key => if k = key then some v else GoMap.read m key

/-- Assign `m[key] = val`: overwrite the entry when the key is present, add one otherwise. -/
def GoMap.write {V : Type} : GoMap V → String → V → GoMap V
  | [], key, val => [(key, val)]
  | (k, v) :: m, key, val =>
    if k = key then (key, val) :: m else (k, v) :: GoMap.write m key val

/-- Whether `key` has an entry in `m`. -/
def GoMap.has {V : Type} (m : GoMap V) (key : String) : Bool :=
  (GoMap.read m key).isSome

/-! ## Users and splits -/

/-- The source's `User` struct. -/
structure User where
  ID : String
  Name : String
deriving DecidableEq, Repr

/-- The source's `NewUser`. -/
def NewUser (id name : String) : User := { ID := id, Name := name }

/-- The three implementations of the `Split` interface. `user` is the `*User`
field (`none` is a nil pointer); `amount` is the `Amount` field, which for an
`ExactSplit` is the caller-declared amount as well as the resolved one. -/
inductive Split where
  | EqualSplit (user : Option User) (amount : ℚ)
  | ExactSplit (user : Option User) (amount : ℚ)
  | PercentSplit (user : Option User) (percent : ℚ) (amount : ℚ)
deriving DecidableEq, Repr

/-- Method `GetAmount` of the three split types. -/
def Split.GetAmount : Split → ℚ
  | .EqualSplit _ amount => amount
  | .ExactSplit _ amount => amount
  | .PercentSplit _ _ amount => amount

/-- Method `SetAmount` of the three split types. -/
def Split.SetAmount : Split → ℚ → Split
  | .EqualSplit user _, amount => .EqualSplit user amount
  | .ExactSplit user _, amount => .ExactSplit user amount
  | .PercentSplit user percent _, amount => .PercentSplit user percent amount

/-- Method `GetUser` of the three split types. -/
def Split.GetUser : Split → Option User
  | .EqualSplit user _ => user
  | .ExactSplit user _ => user
  | .PercentSplit user _ _ => user

/-- Type test `split.(*EqualSplit)`. -/
def Split.isEqualSplit : Split → Bool
  | .EqualSplit _ _ => true
  | _ => false

/-- Type test `split.(*ExactSplit)`. -/
def Split.isExactSplit : Split → Bool
  | .ExactSplit _ _ => true
  | _ => false

/-- Type test `split.(*PercentSplit)`. -/
def Split.isPercentSplit : Split → Bool
  | .PercentSplit _ _ _ => true
  | _ => false

/-- Address of a split object. -/
abbrev Addr := Nat

/-- The store of split objects: what each pointer points to. -/
abbrev Heap := Addr → Split

/-- Store `s` at address `a`. -/
def Heap.store (heap : Heap) (a : Addr) (s : Split) : Heap :=
  fun b => if b = a then s else heap b

/-! ## Expenses -/

/-- The source's `ExpenseMetadata` struct. -/
structure ExpenseMetadata where
  Name : String
deriving DecidableEq, Repr

/-- The three implementations of the `Expense` interface, each with the fields
`Amount`, `PaidBy`, `Splits`, `Metadata`. -/
inductive Expense where
  | EqualExpense (Amount : ℚ) (PaidBy : Option User) (Splits : List Addr)
      (Metadata : Option ExpenseMetadata)
  | ExactExpense (Amount : ℚ) (PaidBy : Option User) (Splits : List Addr)
      (Metadata : Option ExpenseMetadata)
  | PercentExpense (Amount : ℚ) (PaidBy : Option User) (Splits : List Addr)
      (Metadata : Option ExpenseMetadata)
deriving DecidableEq, Repr

/-- Method `GetAmount` of the three expense types. -/
def Expense.GetAmount : Expense → ℚ
  | .EqualExpense amount _ _ _ => amount
  | .ExactExpense amount _ _ _ => amount
  | .PercentExpense amount _ _ _ => amount

/-- Method `GetSplits` of the three expense types. -/
def Expense.GetSplits : Expense → List Addr
  | .EqualExpense _ _ splits _ => splits
  | .ExactExpense _ _ splits _ => splits
  | .PercentExpense _ _ splits _ => splits

/-- Method `GetPaidBy` of the three expense types. -/
def Expense.GetPaidBy : Expense → Option User
  | .EqualExpense _ paidBy _ _ => paidBy
  | .ExactExpense _ paidBy _ _ => paidBy
  | .PercentExpense _ paidBy _ _ => paidBy

/-- The loop `sumSplitAmount += exactSplit.Amount` over the splits that are
`ExactSplit` values, starting from `0.0`, the amounts taken as exact
rationals. `Float64.sumExactAmount` is the same loop with `float64` additions,
which round and so depend on the order of the list. -/
def sumExactAmount (heap : Heap) (splits : List Addr) : ℚ :=
  splits.foldl
    (fun sumSplitAmount a =>
      match heap a with
      | .ExactSplit _ amount => sumSplitAmount + amount
      | _ => sumSplitAmount)
    0

/-- The loop `sumSplitPercent += percentSplit.Percent` over the splits that are
`PercentSplit` values, starting from `0.0`. -/
def sumPercent (heap : Heap) (splits : List Addr) : ℚ :=
  splits.foldl
    (fun sumSplitPercent a =>
      match heap a with
      | .PercentSplit _ percent _ => sumSplitPercent + percent
      | _ => sumSplitPercent)
    0

/-- Method `Validate` of the three expense types. -/
def Expense.Validate (heap : Heap) : Expense → Bool
  | .EqualExpense _ _ splits _ => splits.all (fun a => (heap a).isEqualSplit)
  | .ExactExpense amount _ splits _ => decide (amount = sumExactAmount heap splits)
  | .PercentExpense _ _ splits _ => decide ((100 : ℚ) = sumPercent heap splits)

/-- The loop `split.SetAmount(splitAmount)` of the EQUAL case. -/
def setAmounts (splitAmount : ℚ) (heap : Heap) (splits : List Addr) : Heap :=
  splits.foldl (fun h a => Heap.store h a ((h a).SetAmount splitAmount)) heap

/-- The loop of the PERCENT case: a `PercentSplit` gets
`amount * Percent / 100`, any other split is left alone. The amounts are taken
as exact rationals; `Float64.setPercentAmounts` has the `float64` expression,
which rounds and can overflow. -/
def setPercentAmounts (amount : ℚ) (heap : Heap) (splits : List Addr) : Heap :=
  splits.foldl
    (fun h a =>
      match h a with
      | .PercentSplit _ percent _ => Heap.store h a ((h a).SetAmount (amount * percent / 100))
      | _ => h)
    heap

/-- `ExpenseService.CreateExpense`. Returns the store after the call and the
expense (`none` is the nil return). In the EQUAL case `amount / 0` is computed
for an empty list but never used, so its value does not matter. -/
def CreateExpense (heap : Heap) (expenseType : String) (amount : ℚ) (paidBy : Option User)
    (splits : List Addr) (metadata : Option ExpenseMetadata) : Heap × Option Expense :=
  if expenseType = "EQUAL" then
    let totalSplits := splits.length
    let splitAmount := amount / (totalSplits : ℚ)
    (setAmounts splitAmount heap splits, some (.EqualExpense amount paidBy splits metadata))
  else if expenseType = "EXACT" then
    let totalAmount := amount
    let sumSplitAmount := sumExactAmount heap splits
    if totalAmount ≠ sumSplitAmount then (heap, none)
    else (heap, some (.ExactExpense amount paidBy splits metadata))
  else if expenseType = "PERCENT" then
    (setPercentAmounts amount heap splits, some (.PercentExpense amount paidBy splits metadata))
  else (heap, none)

/-! ## The expense manager -/

/-- The source's `ExpenseManager` struct. -/
structure ExpenseManager where
  Expenses : List Expense
  UserMap : GoMap User
  BalanceSheet : GoMap (GoMap ℚ)
deriving DecidableEq, Repr

/-- The source's `NewExpenseManager`. -/
def NewExpenseManager : ExpenseManager :=
  { Expenses := [], UserMap := [], BalanceSheet := [] }

/-- `ExpenseManager.AddUser`: register the user and give it a new, empty ledger row. -/
def AddUser (em : ExpenseManager) (user : User) : ExpenseManager :=
  { em with
    UserMap := GoMap.write em.UserMap user.ID user
    BalanceSheet := GoMap.write em.BalanceSheet user.ID [] }

/-- How a call ended: normally, at a nil pointer dereference, or at an
assignment into a nil map. -/
inductive Status where
  | done
  | nilDereference
  | nilMapWrite
deriving DecidableEq, Repr

/-- Read `BalanceSheet[a][b]` as Go does: a missing row or entry reads as 0. -/
def cell (sheet : GoMap (GoMap ℚ)) (a b : String) : ℚ :=
  match GoMap.read sheet a with
  | none => 0
  | some row => (GoMap.read row b).getD 0

/-- The statement `BalanceSheet[a][b] += delta` (`-=` with `delta` negated):
`none` when row `a` is missing, which in Go is a write into a nil map. The
cells are exact rationals; `Float64.updateCell` has the `float64` cells, in
which `-=` and `+=` can leave an infinity or NaN. -/
def addToCell (sheet : GoMap (GoMap ℚ)) (a b : String) (delta : ℚ) : Option (GoMap (GoMap ℚ)) :=
  match GoMap.read sheet a with
  | none => none
  | some row => some (GoMap.write sheet a (GoMap.write row b ((GoMap.read row b).getD 0 + delta)))

/-- The balance update loop of `AddExpense` over the splits of the expense.
Returns the ledger at the point where the loop ended and how it ended. -/
def updateBalances (heap : Heap) (paidBy : Option User) :
    List Addr → GoMap (GoMap ℚ) → GoMap (GoMap ℚ) × Status
  | [], sheet => (sheet, .done)
  | a :: rest, sheet =>
    let splitAmount := (heap a).GetAmount
    match paidBy with
    | none => (sheet, .nilDereference)
    | some p =>
      let payer := p.ID
      match (heap a).GetUser with
      | none => (sheet, .nilDereference)
      | some r =>
        let receiver := r.ID
        match addToCell sheet payer receiver (-splitAmount) with
        | none => (sheet, .nilMapWrite)
        | some sheet1 =>
          match addToCell sheet1 receiver payer splitAmount with
          | none => (sheet1, .nilMapWrite)
          | some sheet2 => updateBalances heap paidBy rest sheet2

/-- State of the program after a call: the manager, the split objects, and how
the call ended. -/
structure Outcome where
  em : ExpenseManager
  heap : Heap
  status : Status

/-- `ExpenseManager.AddExpense`, up to the console summary it prints at the
end, which reads the manager and writes nothing to it and is given separately
as `PrintEventSummary`. `metadata.Name` is evaluated for that call, so a nil
`metadata` stops the program after the ledger has been updated. -/
def AddExpense (em : ExpenseManager) (heap : Heap) (expenseType : String) (amount : ℚ)
    (paidBy : String) (splits : List Addr) (metadata : Option ExpenseMetadata) : Outcome :=
  match CreateExpense heap expenseType amount (GoMap.read em.UserMap paidBy) splits metadata with
  | (heap1, none) => { em := em, heap := heap1, status := .done }
  | (heap1, some expense) =>
    let expenses := em.Expenses ++ [expense]
    match updateBalances heap1 expense.GetPaidBy expense.GetSplits em.BalanceSheet with
    | (sheet, .done) =>
      { em := { em with Expenses := expenses, BalanceSheet := sheet }
        heap := heap1
        status := match metadata with
          | none => .nilDereference
          | some _ => .done }
    | (sheet, status) =>
      { em := { em with Expenses := expenses, BalanceSheet := sheet }
        heap := heap1
        status := status }

/-! ## Reporting -/

/-- A line `"<debtor> owes <creditor>: <amount>"` of the console report. -/
structure Owes where
  debtor : String
  creditor : String
  amount : ℚ
deriving DecidableEq, Repr

/-- `ExpenseManager.PrintBalance`: the lines it prints, `none` when one of the
two ids has no user in `UserMap` (the nil dereference of `.Name`). The amount
is an exact rational, so it is negative, positive or zero;
`Float64.PrintBalance` has the `float64` amount, which can also be NaN and
then matches neither branch. -/
def PrintBalance (em : ExpenseManager) (user1 user2 : String) (amount : ℚ) :
    Option (List Owes) :=
  match GoMap.read em.UserMap user1 with
  | none => none
  | some u1 =>
    match GoMap.read em.UserMap user2 with
    | none => none
    | some u2 =>
      let user1Name := u1.Name
      let user2Name := u2.Name
      if amount < 0 then
        some [{ debtor := user1Name, creditor := user2Name, amount := -amount }]
      else if amount > 0 then
        some [{ debtor := user2Name, creditor := user1Name, amount := amount }]
      else some []

/-- What `PrintBalance` prints for the cells of the ledger, each cell taken
once, row after row. `ShowBalance`, `ShowBalances` and `PrintEventSummary`
print lines of this list only. -/
def cellLines (em : ExpenseManager) : List Owes :=
  em.BalanceSheet.flatMap (fun userRow =>
    userRow.2.flatMap (fun entry =>
      (PrintBalance em userRow.1 entry.1 entry.2).getD []))

/-- What the program writes to the console, line by line: the header of
`PrintEventSummary`, the header of `ShowBalances`, a line of `PrintBalance`,
and the line `No balances`. -/
inductive Printed where
  | eventHeader (eventName : String)
  | overallHeader
  | owes (line : Owes)
  | noBalances
deriving DecidableEq, Repr

/-- The cells `(user, otherUser, amount)` of a ledger, row after row in the
stored order. Go visits the entries of a map in an unspecified order: the
report functions below take the cells in the order one run of the loops visits
them, and the statements about them range over the permutations of this list,
which include every order the nested loops can produce. -/
def visitOrder (sheet : GoMap (GoMap ℚ)) : List (String × String × ℚ) :=
  sheet.flatMap (fun userRow => userRow.2.map (fun entry => (userRow.1, entry.1, entry.2)))

/-- The nested loops of `PrintEventSummary` and `ShowBalances` over the cells
in visiting order. `printed` holds the keys set to true in the `printed` map,
`isEmpty` is the flag of `ShowBalances`. Returns the lines printed and the
flag, `none` when `PrintBalance` stops at a nil dereference. -/
def summaryLoop (em : ExpenseManager) :
    List (String × String × ℚ) → List String → Bool → Option (List Owes × Bool)
  | [], _, isEmpty => some ([], isEmpty)
  | (user, otherUser, amount) :: rest, printed, isEmpty =>
    if amount ≠ 0 ∧ (user ++ otherUser) ∉ printed then
      match PrintBalance em user otherUser amount with
      | none => none
      | some lines =>
        match summaryLoop em rest ((otherUser ++ user) :: (user ++ otherUser) :: printed)
            false with
        | none => none
        | some (more, flag) => some (lines ++ more, flag)
    else summaryLoop em rest printed isEmpty

/-- `ExpenseManager.PrintEventSummary`, visiting the cells in the order `visit`. -/
def PrintEventSummary (em : ExpenseManager) (eventName : String)
    (visit : List (String × String × ℚ)) : Option (List Printed) :=
  match summaryLoop em visit [] true with
  | none => none
  | some (lines, _) => some (.eventHeader eventName :: lines.map .owes)

/-- `ExpenseManager.ShowBalances`, visiting the cells in the order `visit`. -/
def ShowBalances (em : ExpenseManager) (visit : List (String × String × ℚ)) :
    Option (List Printed) :=
  match summaryLoop em visit [] true with
  | none => none
  | some (lines, isEmpty) =>
    some (.overallHeader :: (lines.map .owes ++ if isEmpty then [.noBalances] else []))

/-- The loop of `ShowBalance` over the entries of the row in visiting order. -/
def showBalanceLoop (em : ExpenseManager) (userId : String) :
    List (String × ℚ) → Bool → Option (List Owes × Bool)
  | [], isEmpty => some ([], isEmpty)
  | (user, amount) :: rest, isEmpty =>
    if amount ≠ 0 then
      match PrintBalance em userId user amount with
      | none => none
      | some lines =>
        match showBalanceLoop em userId rest false with
        | none => none
        | some (more, flag) => some (lines ++ more, flag)
    else showBalanceLoop em userId rest isEmpty

/-- `ExpenseManager.ShowBalance`, visiting the entries of
`em.BalanceSheet[userId]` in the order `visit`. -/
def ShowBalance (em : ExpenseManager) (userId : String) (visit : List (String × ℚ)) :
    Option (List Printed) :=
  match showBalanceLoop em userId visit true with
  | none => none
  | some (lines, isEmpty) => some (lines.map .owes ++ if isEmpty then [.noBalances] else [])

/-- The entries of the row `em.BalanceSheet[userId]`; a missing row is a nil
map, over which `range` does not iterate. -/
def rowOf (sheet : GoMap (GoMap ℚ)) (userId : String) : GoMap ℚ :=
  (GoMap.read sheet userId).getD []

/-! ## Sequences of calls -/

/-- A call a client makes on the manager. -/
inductive Call where
  | AddUser (user : User)
  | AddExpense (expenseType : String) (amount : ℚ) (paidBy : String) (splits : List Addr)
      (metadata : Option ExpenseMetadata)

/-- The program right after `NewExpenseManager()`, with the split objects the
client will pass in `heap`. -/
def start (heap : Heap) : Outcome :=
  { em := NewExpenseManager, heap := heap, status := .done }

/-- One call. A program that has stopped makes no further call. -/
def step (w : Outcome) (c : Call) : Outcome :=
  match w.status with
  | .done =>
    match c with
    | .AddUser user => { w with em := AddUser w.em user }
    | .AddExpense expenseType amount paidBy splits metadata =>
      AddExpense w.em w.heap expenseType amount paidBy splits metadata
  | _ => w

/-- A sequence of calls, in order. -/
def run (w : Outcome) (calls : List Call) : Outcome :=
  calls.foldl step w

/-- A condition on a call, checked in the state the call is made in, holds for
every call of the sequence. -/
def holdsAlong (ok : Outcome → Call → Bool) : Outcome → List Call → Bool
  | _, [] => true
  | w, c :: calls => ok w c && holdsAlong ok (step w c) calls

/-- The payer id and the id of every split's user are keys of `UserMap`; no
split has a nil user. -/
def registered (em : ExpenseManager) (heap : Heap) (paidBy : String) (splits : List Addr) : Bool :=
  GoMap.has em.UserMap paidBy &&
    splits.all (fun a =>
      match (heap a).GetUser with
      | some r => GoMap.has em.UserMap r.ID
      | none => false)

/-- Payer and split participants of an `AddExpense` call are registered when the call is made. -/
def Call.participantsRegistered (w : Outcome) : Call → Bool
  | .AddUser _ => true
  | .AddExpense _ _ paidBy splits _ => registered w.em w.heap paidBy splits

/-- An `AddUser` call registers an id that is not registered yet. -/
def Call.firstRegistration (w : Outcome) : Call → Bool
  | .AddUser user => !GoMap.has w.em.UserMap user.ID
  | .AddExpense _ _ _ _ _ => true

/-! ## Notions used by the statements -/

/-- Users and ledger rows go together, and every user is filed under its own id. -/
structure Consistent (em : ExpenseManager) : Prop where
  keys : ∀ k, GoMap.has em.BalanceSheet k = GoMap.has em.UserMap k
  ids : ∀ k u, GoMap.read em.UserMap k = some u → u.ID = k

/-- What the two ledger statements of the loop body add to `BalanceSheet[x][y]`
for the split at address `a` of an expense paid by `payer`. -/
def contribution (heap : Heap) (payer : String) (a : Addr) (x y : String) : ℚ :=
  match (heap a).GetUser with
  | none => 0
  | some r =>
    (if x = payer ∧ y = r.ID then -(heap a).GetAmount else 0) +
      (if x = r.ID ∧ y = payer then (heap a).GetAmount else 0)

/-- Sum of the entries of one ledger row. -/
def rowSum (row : GoMap ℚ) : ℚ :=
  (row.map Prod.snd).sum

/-- Sum of all ledger cells, over all rows and columns. -/
def grandSum (sheet : GoMap (GoMap ℚ)) : ℚ :=
  (sheet.map (fun e => rowSum e.2)).sum

/-- Anti-symmetry of a ledger, a missing entry read as 0. -/
def AntiSymmetric (sheet : GoMap (GoMap ℚ)) : Prop :=
  ∀ A B : String, cell sheet A B = -cell sheet B A

/-- A manager on which the given users have been registered, in order, and
nothing else has happened. -/
def registerAll (users : List User) : ExpenseManager :=
  users.foldl AddUser NewExpenseManager

/-- The id of the user of the split at address `a`, `none` for a nil user. -/
def participant (heap : Heap) (a : Addr) : Option String :=
  (heap a).GetUser.map User.ID

/-- A split after one pass of the PERCENT loop body over it. -/
def resolvePercent (amount : ℚ) : Split → Split
  | .PercentSplit user percent _ => .PercentSplit user percent (amount * percent / 100)
  | s => s

/-- The call is an `AddExpense` call. -/
def Call.isAddExpense : Call → Bool
  | .AddUser _ => false
  | .AddExpense _ _ _ _ _ => true

/-- The program after the given users have been registered and before any
expense, with the split objects the client will pass in `heap`. -/
def afterRegistration (users : List User) (heap : Heap) : Outcome :=
  { em := registerAll users, heap := heap, status := .done }

/-- Payer and split participants of an `AddExpense` call are registered in `em`. -/
def Call.registeredIn (em : ExpenseManager) (heap : Heap) : Call → Bool
  | .AddUser _ => true
  | .AddExpense _ _ paidBy splits _ => registered em heap paidBy splits

/-- Replay of recorded expenses on a ledger: the body of the balance update
loop of `AddExpense` for every split of every expense, in order, reading the
split objects as they are in `heap`. -/
def replay (heap : Heap) : List Expense → GoMap (GoMap ℚ) → GoMap (GoMap ℚ) × Status
  | [], sheet => (sheet, .done)
  | e :: es, sheet =>
    match updateBalances heap e.GetPaidBy e.GetSplits sheet with
    | (sheet1, .done) => replay heap es sheet1
    | stopped => stopped

/-- No split object passed to an `AddExpense` call is held by an expense
recorded before the call. -/
def Call.splitsNotRecorded (w : Outcome) : Call → Bool
  | .AddUser _ => true
  | .AddExpense _ _ _ splits _ =>
    splits.all (fun a => w.em.Expenses.all (fun e => !e.GetSplits.contains a))

/-- In a closed ledger every key of every row has a row of its own. -/
def SheetClosed (sheet : GoMap (GoMap ℚ)) : Prop :=
  ∀ userRow ∈ sheet, ∀ entry ∈ userRow.2, GoMap.has sheet entry.1 = true

/-- The name `PrintBalance` prints for an id (the empty string stands for an
id without user, for which `PrintBalance` prints nothing at all). -/
def nameOf (em : ExpenseManager) (id : String) : String :=
  ((GoMap.read em.UserMap id).map User.Name).getD ""

/-- The report line for one entry `(counterpart, amount)` of the row of
`userId`: the sign of the amount decides who is named as owing. -/
def counterpartLine (em : ExpenseManager) (userId : String) (entry : String × ℚ) : Owes :=
  if entry.2 < 0 then
    { debtor := nameOf em userId, creditor := nameOf em entry.1, amount := -entry.2 }
  else
    { debtor := nameOf em entry.1, creditor := nameOf em userId, amount := entry.2 }

/-- No key occurs twice among the rows, nor inside a row. -/
def KeysUnique (sheet : GoMap (GoMap ℚ)) : Prop :=
  (sheet.map Prod.fst).Nodup ∧ ∀ userRow ∈ sheet, (userRow.2.map Prod.fst).Nodup

/-- The sum over all `i` of `BalanceSheet[A][i]`. -/
def rowTotal (sheet : GoMap (GoMap ℚ)) (A : String) : ℚ :=
  rowSum (rowOf sheet A)

/-- For one expense paid by `paidBy` over `splits`, with the resolved amounts
as `heap` holds them: when `A` is the payer, the total of the resolved amounts
of the splits of participants other than `A`; otherwise 0. -/
def paidForOthers (heap : Heap) (A : String) (paidBy : Option User) (splits : List Addr) : ℚ :=
  if paidBy.map User.ID = some A then
    ((splits.filter (fun a => decide (participant heap a ≠ some A))).map
      (fun a => (heap a).GetAmount)).sum
  else 0

/-- For one expense paid by `paidBy` over `splits`, with the resolved amounts
as `heap` holds them: when `A` is not the payer, the total of the resolved
amounts of the splits of `A`; otherwise 0. -/
def paidByOthers (heap : Heap) (A : String) (paidBy : Option User) (splits : List Addr) : ℚ :=
  if paidBy.map User.ID = some A then 0
  else
    ((splits.filter (fun a => decide (participant heap a = some A))).map
      (fun a => (heap a).GetAmount)).sum

/-- The expense a call records, with the split objects as they are right after
`CreateExpense` has resolved the amounts; `none` for a call that records
nothing. -/
def Call.recorded (w : Outcome) : Call → Option (Heap × Expense)
  | .AddUser _ => none
  | .AddExpense expenseType amount paidBy splits metadata =>
    match w.status with
    | .done =>
      match CreateExpense w.heap expenseType amount (GoMap.read w.em.UserMap paidBy) splits
          metadata with
      | (heap1, some e) => some (heap1, e)
      | (_, none) => none
    | _ => none

/-- X of the row-sum identity: over the expenses recorded by the calls, the
total of the resolved amounts of other participants' splits in the expenses
paid by `A`. -/
def totalPaidForOthers (A : String) : Outcome → List Call → ℚ
  | _, [] => 0
  | w, c :: calls =>
    (match c.recorded w with
      | some (heap1, e) => paidForOthers heap1 A e.GetPaidBy e.GetSplits
      | none => 0) + totalPaidForOthers A (step w c) calls

/-- Y of the row-sum identity: over the expenses recorded by the calls, the
total of the resolved amounts of the splits of `A` in the expenses paid by
others. -/
def totalPaidByOthers (A : String) : Outcome → List Call → ℚ
  | _, [] => 0
  | w, c :: calls =>
    (match c.recorded w with
      | some (heap1, e) => paidByOthers heap1 A e.GetPaidBy e.GetSplits
      | none => 0) + totalPaidByOthers A (step w c) calls

/-- What the two ledger statements of the loop body add to the row of `x` for
the split at address `a` of an expense paid by `payer`. -/
def rowContribution (heap : Heap) (payer : String) (a : Addr) (x : String) : ℚ :=
  match (heap a).GetUser with
  | none => 0
  | some r =>
    (if x = payer then -(heap a).GetAmount else 0) + (if x = r.ID then (heap a).GetAmount else 0)

/-- Whether the two ledger statements of the loop body, run for the split at
address `a` of an expense paid by `payer`, assign to `BalanceSheet[x][y]`. -/
def assigns (heap : Heap) (payer : String) (a : Addr) (x y : String) : Bool :=
  match (heap a).GetUser with
  | none => false
  | some r =>
    (decide (x = payer) && decide (y = r.ID)) || (decide (x = r.ID) && decide (y = payer))

/-- The call is an `AddExpense` call paid by `A` with a split whose user has
the id `A`, the split objects read in the state the call is made in. -/
def Call.paysOwnSplit (A : String) (w : Outcome) : Call → Bool
  | .AddUser _ => false
  | .AddExpense _ _ paidBy splits _ =>
    decide (paidBy = A) && splits.any (fun a => decide (participant w.heap a = some A))

/-- No call of the sequence is an expense paid by `A` with a split for `A`. -/
def noOwnSplit (A : String) (w : Outcome) (calls : List Call) : Bool :=
  holdsAlong (fun v c => !c.paysOwnSplit A v) w calls

/-! ## Sample data: the users and calls of `main` and of the tests -/

/-- User 1 of `main`. -/
def alice : User := NewUser "1" "Alice"

/-- User 2 of `main`. -/
def bob : User := NewUser "2" "Bob"

/-- User 3 of `main`. -/
def charlie : User := NewUser "3" "Charlie"

/-- Split objects for the samples: addresses 0, 1, 2 hold `EqualSplit` values
for Alice, Bob and Charlie, addresses 3 and 4 `PercentSplit` values of 50
percent for Alice and Bob, addresses 5 and 6 `PercentSplit` values of 30
percent for Alice and Bob, addresses 7, 8, 9 `ExactSplit` values of 50 for
Alice, Bob and Charlie. -/
def sampleHeap : Heap := fun a =>
  match a with
  | 0 => .EqualSplit (some alice) 0
  | 1 => .EqualSplit (some bob) 0
  | 2 => .EqualSplit (some charlie) 0
  | 3 => .PercentSplit (some alice) 50 0
  | 4 => .PercentSplit (some bob) 50 0
  | 5 => .PercentSplit (some alice) 30 0
  | 6 => .PercentSplit (some bob) 30 0
  | 7 => .ExactSplit (some alice) 50
  | 8 => .ExactSplit (some bob) 50
  | _ => .ExactSplit (some charlie) 50

/-- The manager of `main` and of the tests after the three `AddUser` calls. -/
def threeUsers : ExpenseManager :=
  AddUser (AddUser (AddUser NewExpenseManager alice) bob) charlie

/-- Register Alice and Bob, record 90 paid by Alice for Bob alone, then
register Alice a second time. -/
def reRegistrationCalls : List Call :=
  [.AddUser alice, .AddUser bob,
   .AddExpense "EQUAL" 90 "1" [1] (some { Name := "Dinner" }),
   .AddUser alice]

/-- Register Alice and Bob, then record 90 paid by Alice for Bob alone. -/
def oneExpenseCalls : List Call :=
  [.AddUser alice, .AddUser bob,
   .AddExpense "EQUAL" 90 "1" [1] (some { Name := "Dinner" })]

/-- The `Dinner` expense of `main` and of `TestEqualExpense`: 90 paid by Alice,
one `EqualSplit` for each of Alice, Bob and Charlie. -/
def dinner : Outcome :=
  AddExpense threeUsers sampleHeap "EQUAL" 90 "1" [0, 1, 2] (some { Name := "Dinner" })

/-- The manager after `AddUser` for Alice and Bob. -/
def twoUsers : ExpenseManager :=
  AddUser (AddUser NewExpenseManager alice) bob

/-- A percent expense of 50 paid by Alice with 30 percent for Alice and 30
percent for Bob. -/
def sixtyPercent : Outcome :=
  AddExpense twoUsers sampleHeap "PERCENT" 50 "1" [5, 6] (some { Name := "Breakfast" })

/-- The first three expenses of `main`: Dinner, Cruise and Breakfast. -/
def mainCalls : List Call :=
  [.AddExpense "EQUAL" 90 "1" [0, 1, 2] (some { Name := "Dinner" }),
   .AddExpense "EXACT" 150 "2" [7, 8, 9] (some { Name := "Cruise" }),
   .AddExpense "PERCENT" 50 "1" [3, 4] (some { Name := "Breakfast" })]

/-- Two expenses paid by Alice for Bob, 90 and then 30, both called with the
same `EqualSplit` object (address 1). -/
def sharedSplitCalls : List Call :=
  [.AddExpense "EQUAL" 90 "1" [1] (some { Name := "Dinner" }),
   .AddExpense "EQUAL" 30 "1" [1] (some { Name := "Lunch" })]

/-- An EQUAL expense of 90 with no splits, paid by the id "9", which is not
registered on the manager of `main`. -/
def unknownPayerNoSplits : Outcome :=
  AddExpense threeUsers sampleHeap "EQUAL" 90 "9" [] (some { Name := "Dinner" })

/-- The `Dinner` expense of `main` with the payer id "9", which is not registered. -/
def unknownPayerDinner : Outcome :=
  AddExpense threeUsers sampleHeap "EQUAL" 90 "9" [0, 1, 2] (some { Name := "Dinner" })

/-- Four users whose ids are "1", "11", "111" and "1111". -/
def ann : User := NewUser "1" "Ann"

/-- See `ann`. -/
def ben : User := NewUser "11" "Ben"

/-- See `ann`. -/
def cleo : User := NewUser "111" "Cleo"

/-- See `ann`. -/
def dan : User := NewUser "1111" "Dan"

/-- Split objects for `collisionCalls`: an `EqualSplit` for Dan at address 0,
`EqualSplit` values for Cleo elsewhere. -/
def collisionHeap : Heap := fun a =>
  match a with
  | 0 => .EqualSplit (some dan) 0
  | _ => .EqualSplit (some cleo) 0

/-- Register Ann, Ben, Cleo and Dan, then record 10 paid by Ann for Dan and 20
paid by Ben for Cleo. -/
def collisionCalls : List Call :=
  [.AddUser ann, .AddUser ben, .AddUser cleo, .AddUser dan,
   .AddExpense "EQUAL" 10 "1" [0] (some { Name := "Dinner" }),
   .AddExpense "EQUAL" 20 "11" [1] (some { Name := "Lunch" })]

/-- The manager after `collisionCalls`. -/
def collisionManager : ExpenseManager :=
  (run (start collisionHeap) collisionCalls).em

/-- The three registrations and the `Dinner` expense of `main`. -/
def dinnerCalls : List Call :=
  [.AddUser alice, .AddUser bob, .AddUser charlie,
   .AddExpense "EQUAL" 90 "1" [0, 1, 2] (some { Name := "Dinner" })]

/-- The `Cruise` expense of `TestExactExpense` on a manager with the three
users registered and nothing else: 150 paid by Bob, exact splits of 50 for
Alice, Bob and Charlie. -/
def cruise : Outcome :=
  AddExpense threeUsers sampleHeap "EXACT" 150 "2" [7, 8, 9] (some { Name := "Cruise" })

/-- The three registrations of `main`. -/
def registrationCalls : List Call :=
  [.AddUser alice, .AddUser bob, .AddUser charlie]

/-! ## float64 arithmetic

The statements that depend on how `float64` rounds, overflows or produces NaN
are made over the definitions of this section and the next one, in which the
amounts are `float64` values and every operation of the source is the IEEE 754
operation, rounding to the nearest value with ties to the even significand. -/

/-- A `float64` value. A finite value is given by the rational number it
denotes, so `+0` and `-0` are one value: the two compare equal, the program
prints no zero amount, and its only divisors are `float64(len(splits))` and
`100`, never a negative zero. -/
inductive F64 where
  | finite (q : ℚ)
  | posInf
  | negInf
  | nan
deriving DecidableEq

/-- The number of binary digits of `n`, by repeated halving; `fuel` bounds the
number of halvings and `n` itself is enough. -/
def F64.bitLength : Nat → Nat → Nat
  | 0, _ => 0
  | fuel + 1, n => if n = 0 then 0 else F64.bitLength fuel (n / 2) + 1

/-- The integer `k` with `2 ^ k ≤ a < 2 ^ (k + 1)`, for `0 < a`. The bit
lengths of numerator and denominator give it up to one. -/
def F64.floorLog2 (a : ℚ) : ℤ :=
  let k : ℤ := (F64.bitLength a.num.natAbs a.num.natAbs : ℤ) - (F64.bitLength a.den a.den : ℤ)
  if (2 : ℚ) ^ k ≤ a then k else k - 1

/-- The integer nearest to `q`, the even one of the two when `q` is half way. -/
def F64.nearestEven (q : ℚ) : ℤ :=
  let f := ⌊q⌋
  if q - f < 1 / 2 then f
  else if 1 / 2 < q - f then f + 1
  else if f % 2 = 0 then f
  else f + 1

/-- The `float64` value nearest to the rational `q`: a significand of 53 bits,
the least exponent `-1074` (subnormal values included), ties to the even
significand, and an infinity once the rounded magnitude reaches `2 ^ 1024`. -/
def F64.round (q : ℚ) : F64 :=
  if q = 0 then .finite 0
  else
    let e : ℤ := max (F64.floorLog2 |q| - 52) (-1074)
    let significand : ℤ := F64.nearestEven (|q| / (2 : ℚ) ^ e)
    let magnitude : ℚ := (significand : ℚ) * (2 : ℚ) ^ e
    if (2 : ℚ) ^ (1024 : ℤ) ≤ magnitude then (if 0 < q then .posInf else .negInf)
    else .finite (if 0 < q then magnitude else -magnitude)

/-- The conversion `float64(n)` of an integer. -/
def F64.ofNat (n : Nat) : F64 :=
  F64.round (n : ℚ)

/-- Unary minus. -/
def F64.neg : F64 → F64
  | .finite q => .finite (-q)
  | .posInf => .negInf
  | .negInf => .posInf
  | .nan => .nan

/-- The operator `+` on `float64`. -/
def F64.add : F64 → F64 → F64
  | .nan, _ => .nan
  | _, .nan => .nan
  | .finite x, .finite y => F64.round (x + y)
  | .posInf, .negInf => .nan
  | .negInf, .posInf => .nan
  | .posInf, _ => .posInf
  | _, .posInf => .posInf
  | .negInf, _ => .negInf
  | _, .negInf => .negInf

/-- The operator `-` on `float64`. -/
def F64.sub (x y : F64) : F64 :=
  F64.add x (F64.neg y)

/-- An infinity with the sign of `positive`. -/
def F64.infinity (positive : Bool) : F64 :=
  if positive then .posInf else .negInf

/-- The operator `*` on `float64`. -/
def F64.mul : F64 → F64 → F64
  | .nan, _ => .nan
  | _, .nan => .nan
  | .finite x, .finite y => F64.round (x * y)
  | .finite x, .posInf => if x = 0 then .nan else F64.infinity (decide (0 < x))
  | .finite x, .negInf => if x = 0 then .nan else F64.infinity (decide (x < 0))
  | .posInf, .finite y => if y = 0 then .nan else F64.infinity (decide (0 < y))
  | .negInf, .finite y => if y = 0 then .nan else F64.infinity (decide (y < 0))
  | .posInf, .posInf => .posInf
  | .posInf, .negInf => .negInf
  | .negInf, .posInf => .negInf
  | .negInf, .negInf => .posInf

/-- The operator `/` on `float64`. A zero divisor is `+0`, see `F64`. -/
def F64.div : F64 → F64 → F64
  | .nan, _ => .nan
  | _, .nan => .nan
  | .finite x, .finite y =>
    if y = 0 then (if x = 0 then .nan else F64.infinity (decide (0 < x)))
    else F64.round (x / y)
  | .finite _, .posInf => .finite 0
  | .finite _, .negInf => .finite 0
  | .posInf, .finite y => F64.infinity (decide (0 ≤ y))
  | .negInf, .finite y => F64.infinity (decide (y < 0))
  | _, _ => .nan

/-- The operator `==` on `float64`: NaN equals nothing, itself included. -/
def F64.equal : F64 → F64 → Bool
  | .finite x, .finite y => decide (x = y)
  | .posInf, .posInf => true
  | .negInf, .negInf => true
  | _, _ => false

/-- The operator `!=` on `float64`. -/
def F64.notEqual (x y : F64) : Bool :=
  !F64.equal x y

/-- The operator `<` on `float64`: false when either side is NaN. -/
def F64.less : F64 → F64 → Bool
  | .nan, _ => false
  | _, .nan => false
  | .finite x, .finite y => decide (x < y)
  | .negInf, .negInf => false
  | .negInf, _ => true
  | _, .negInf => false
  | .posInf, _ => false
  | .finite _, .posInf => true

/-- The operator `>` on `float64`. -/
def F64.greater (x y : F64) : Bool :=
  F64.less y x

/-! ## The program with `float64` amounts

The types and functions of `main.go` once more, in the namespace `Float64`,
with the amounts as `F64` values: same control flow as above, the arithmetic
and the comparisons being those of `float64`. -/

namespace Float64

/-- The three implementations of the `Split` interface, with `float64` fields. -/
inductive Split where
  | EqualSplit (user : Option User) (amount : F64)
  | ExactSplit (user : Option User) (amount : F64)
  | PercentSplit (user : Option User) (percent : F64) (amount : F64)
deriving DecidableEq

/-- Method `GetAmount` of the three split types. -/
def Split.GetAmount : Split → F64
  | .EqualSplit _ amount => amount
  | .ExactSplit _ amount => amount
  | .PercentSplit _ _ amount => amount

/-- Method `SetAmount` of the three split types. -/
def Split.SetAmount : Split → F64 → Split
  | .EqualSplit user _, amount => .EqualSplit user amount
  | .ExactSplit user _, amount => .ExactSplit user amount
  | .PercentSplit user percent _, amount => .PercentSplit user percent amount

/-- Method `GetUser` of the three split types. -/
def Split.GetUser : Split → Option User
  | .EqualSplit user _ => user
  | .ExactSplit user _ => user
  | .PercentSplit user _ _ => user

/-- Type test `split.(*EqualSplit)`. -/
def Split.isEqualSplit : Split → Bool
  | .EqualSplit _ _ => true
  | _ => false

/-- Type test `split.(*ExactSplit)`. -/
def Split.isExactSplit : Split → Bool
  | .ExactSplit _ _ => true
  | _ => false

/-- The store of split objects: what each pointer points to. -/
abbrev Heap := Addr → Split

/-- Store `s` at address `a`. -/
def Heap.store (heap : Heap) (a : Addr) (s : Split) : Heap :=
  fun b => if b = a then s else heap b

/-- The three implementations of the `Expense` interface. -/
inductive Expense where
  | EqualExpense (Amount : F64) (PaidBy : Option User) (Splits : List Addr)
      (Metadata : Option ExpenseMetadata)
  | ExactExpense (Amount : F64) (PaidBy : Option User) (Splits : List Addr)
      (Metadata : Option ExpenseMetadata)
  | PercentExpense (Amount : F64) (PaidBy : Option User) (Splits : List Addr)
      (Metadata : Option ExpenseMetadata)
deriving DecidableEq

/-- Method `GetSplits` of the three expense types. -/
def Expense.GetSplits : Expense → List Addr
  | .EqualExpense _ _ splits _ => splits
  | .ExactExpense _ _ splits _ => splits
  | .PercentExpense _ _ splits _ => splits

/-- Method `GetPaidBy` of the three expense types. -/
def Expense.GetPaidBy : Expense → Option User
  | .EqualExpense _ paidBy _ _ => paidBy
  | .ExactExpense _ paidBy _ _ => paidBy
  | .PercentExpense _ paidBy _ _ => paidBy

/-- The loop `sumSplitAmount += exactSplit.Amount` over the splits that are
`ExactSplit` values, starting from `0.0`: one `float64` addition per split, in
the order of the list. -/
def sumExactAmount (heap : Heap) (splits : List Addr) : F64 :=
  splits.foldl
    (fun sumSplitAmount a =>
      match heap a with
      | .ExactSplit _ amount => F64.add sumSplitAmount amount
      | _ => sumSplitAmount)
    (.finite 0)

/-- The loop `sumSplitPercent += percentSplit.Percent` over the splits that are
`PercentSplit` values, starting from `0.0`. -/
def sumPercent (heap : Heap) (splits : List Addr) : F64 :=
  splits.foldl
    (fun sumSplitPercent a =>
      match heap a with
      | .PercentSplit _ percent _ => F64.add sumSplitPercent percent
      | _ => sumSplitPercent)
    (.finite 0)

/-- Method `Validate` of the three expense types. -/
def Expense.Validate (heap : Heap) : Expense → Bool
  | .EqualExpense _ _ splits _ => splits.all (fun a => (heap a).isEqualSplit)
  | .ExactExpense amount _ splits _ => !F64.notEqual amount (sumExactAmount heap splits)
  | .PercentExpense _ _ splits _ => !F64.notEqual (.finite 100) (sumPercent heap splits)

/-- The loop `split.SetAmount(splitAmount)` of the EQUAL case. -/
def setAmounts (splitAmount : F64) (heap : Heap) (splits : List Addr) : Heap :=
  splits.foldl (fun h a => Heap.store h a ((h a).SetAmount splitAmount)) heap

/-- The loop of the PERCENT case: a `PercentSplit` gets
`amount * Percent / 100`, the product rounded before the division. -/
def setPercentAmounts (amount : F64) (heap : Heap) (splits : List Addr) : Heap :=
  splits.foldl
    (fun h a =>
      match h a with
      | .PercentSplit _ percent _ =>
        Heap.store h a ((h a).SetAmount (F64.div (F64.mul amount percent) (.finite 100)))
      | _ => h)
    heap

/-- `ExpenseService.CreateExpense`. Returns the store after the call and the
expense (`none` is the nil return). -/
def CreateExpense (heap : Heap) (expenseType : String) (amount : F64) (paidBy : Option User)
    (splits : List Addr) (metadata : Option ExpenseMetadata) : Heap × Option Expense :=
  if expenseType = "EQUAL" then
    let totalSplits := splits.length
    let splitAmount := F64.div amount (F64.ofNat totalSplits)
    (setAmounts splitAmount heap splits, some (.EqualExpense amount paidBy splits metadata))
  else if expenseType = "EXACT" then
    let totalAmount := amount
    let sumSplitAmount := sumExactAmount heap splits
    if F64.notEqual totalAmount sumSplitAmount then (heap, none)
    else (heap, some (.ExactExpense amount paidBy splits metadata))
  else if expenseType = "PERCENT" then
    (setPercentAmounts amount heap splits, some (.PercentExpense amount paidBy splits metadata))
  else (heap, none)

/-- The source's `ExpenseManager` struct. -/
structure ExpenseManager where
  Expenses : List Expense
  UserMap : GoMap User
  BalanceSheet : GoMap (GoMap F64)
deriving DecidableEq

/-- The source's `NewExpenseManager`. -/
def NewExpenseManager : ExpenseManager :=
  { Expenses := [], UserMap := [], BalanceSheet := [] }

/-- `ExpenseManager.AddUser`: register the user and give it a new, empty ledger row. -/
def AddUser (em : ExpenseManager) (user : User) : ExpenseManager :=
  { em with
    UserMap := GoMap.write em.UserMap user.ID user
    BalanceSheet := GoMap.write em.BalanceSheet user.ID [] }

/-- Read `BalanceSheet[a][b]` as Go does: a missing row or entry reads as 0. -/
def cell (sheet : GoMap (GoMap F64)) (a b : String) : F64 :=
  match GoMap.read sheet a with
  | none => .finite 0
  | some row => (GoMap.read row b).getD (.finite 0)

/-- The statements `BalanceSheet[a][b] -= splitAmount` and
`BalanceSheet[a][b] += splitAmount`, with `update` the operation on the old
value: `none` when row `a` is missing, which in Go is a write into a nil map. -/
def updateCell (sheet : GoMap (GoMap F64)) (a b : String) (update : F64 → F64) :
    Option (GoMap (GoMap F64)) :=
  match GoMap.read sheet a with
  | none => none
  | some row =>
    some (GoMap.write sheet a (GoMap.write row b (update ((GoMap.read row b).getD (.finite 0)))))

/-- The balance update loop of `AddExpense` over the splits of the expense.
Returns the ledger at the point where the loop ended and how it ended. -/
def updateBalances (heap : Heap) (paidBy : Option User) :
    List Addr → GoMap (GoMap F64) → GoMap (GoMap F64) × Status
  | [], sheet => (sheet, .done)
  | a :: rest, sheet =>
    let splitAmount := (heap a).GetAmount
    match paidBy with
    | none => (sheet, .nilDereference)
    | some p =>
      let payer := p.ID
      match (heap a).GetUser with
      | none => (sheet, .nilDereference)
      | some r =>
        let receiver := r.ID
        match updateCell sheet payer receiver (fun old => F64.sub old splitAmount) with
        | none => (sheet, .nilMapWrite)
        | some sheet1 =>
          match updateCell sheet1 receiver payer (fun old => F64.add old splitAmount) with
          | none => (sheet1, .nilMapWrite)
          | some sheet2 => updateBalances heap paidBy rest sheet2

/-- State of the program after a call: the manager, the split objects, and how
the call ended. -/
structure Outcome where
  em : ExpenseManager
  heap : Heap
  status : Status

/-- `ExpenseManager.AddExpense`, up to the console summary it prints at the end. -/
def AddExpense (em : ExpenseManager) (heap : Heap) (expenseType : String) (amount : F64)
    (paidBy : String) (splits : List Addr) (metadata : Option ExpenseMetadata) : Outcome :=
  match CreateExpense heap expenseType amount (GoMap.read em.UserMap paidBy) splits metadata with
  | (heap1, none) => { em := em, heap := heap1, status := .done }
  | (heap1, some expense) =>
    let expenses := em.Expenses ++ [expense]
    match updateBalances heap1 expense.GetPaidBy expense.GetSplits em.BalanceSheet with
    | (sheet, .done) =>
      { em := { em with Expenses := expenses, BalanceSheet := sheet }
        heap := heap1
        status := match metadata with
          | none => .nilDereference
          | some _ => .done }
    | (sheet, status) =>
      { em := { em with Expenses := expenses, BalanceSheet := sheet }
        heap := heap1
        status := status }

/-- A line `"<debtor> owes <creditor>: <amount>"` of the console report. -/
structure Owes where
  debtor : String
  creditor : String
  amount : F64
deriving DecidableEq

/-- `ExpenseManager.PrintBalance`: the lines it prints, `none` when one of the
two ids has no user in `UserMap` (the nil dereference of `.Name`). -/
def PrintBalance (em : ExpenseManager) (user1 user2 : String) (amount : F64) :
    Option (List Owes) :=
  match GoMap.read em.UserMap user1 with
  | none => none
  | some u1 =>
    match GoMap.read em.UserMap user2 with
    | none => none
    | some u2 =>
      let user1Name := u1.Name
      let user2Name := u2.Name
      if F64.less amount (.finite 0) then
        some [{ debtor := user1Name, creditor := user2Name, amount := F64.neg amount }]
      else if F64.greater amount (.finite 0) then
        some [{ debtor := user2Name, creditor := user1Name, amount := amount }]
      else some []

/-- What `ShowBalance` writes to the console, line by line: a line of
`PrintBalance`, or the line `No balances`. -/
inductive Printed where
  | owes (line : Owes)
  | noBalances
deriving DecidableEq

/-- The loop of `ShowBalance` over the entries of the row in visiting order. -/
def showBalanceLoop (em : ExpenseManager) (userId : String) :
    List (String × F64) → Bool → Option (List Owes × Bool)
  | [], isEmpty => some ([], isEmpty)
  | (user, amount) :: rest, isEmpty =>
    if F64.notEqual amount (.finite 0) then
      match PrintBalance em userId user amount with
      | none => none
      | some lines =>
        match showBalanceLoop em userId rest false with
        | none => none
        | some (more, flag) => some (lines ++ more, flag)
    else showBalanceLoop em userId rest isEmpty

/-- `ExpenseManager.ShowBalance`, visiting the entries of
`em.BalanceSheet[userId]` in the order `visit`. -/
def ShowBalance (em : ExpenseManager) (userId : String) (visit : List (String × F64)) :
    Option (List Printed) :=
  match showBalanceLoop em userId visit true with
  | none => none
  | some (lines, isEmpty) => some (lines.map .owes ++ if isEmpty then [.noBalances] else [])

/-- The entries of the row `em.BalanceSheet[userId]`. -/
def rowOf (sheet : GoMap (GoMap F64)) (userId : String) : GoMap F64 :=
  (GoMap.read sheet userId).getD []

/-- The payer id and the id of every split's user are keys of `UserMap`; no
split has a nil user. -/
def registered (em : ExpenseManager) (heap : Heap) (paidBy : String) (splits : List Addr) : Bool :=
  GoMap.has em.UserMap paidBy &&
    splits.all (fun a =>
      match (heap a).GetUser with
      | some r => GoMap.has em.UserMap r.ID
      | none => false)

/-- Anti-symmetry of a ledger under the `float64` comparison `==`, a missing
entry read as 0. -/
def AntiSymmetric (sheet : GoMap (GoMap F64)) : Prop :=
  ∀ A B : String, F64.equal (cell sheet A B) (F64.neg (cell sheet B A)) = true

/-- The sum of the amounts of the splits as rational numbers, for splits whose
amounts are finite: what the declared amounts add up to before any rounding. -/
def declaredSum (heap : Heap) (splits : List Addr) : ℚ :=
  (splits.map (fun a =>
    match (heap a).GetAmount with
    | .finite q => q
    | _ => 0)).sum

/-- Split objects for the samples of this section: addresses 0 and 1 hold
`ExactSplit` values of 1e16 for Alice and of 1 for Bob, addresses 2, 3, 4
`ExactSplit` values of 1, 1e16 and 1 for Alice, Bob and Charlie, addresses 5
and 6 `PercentSplit` values of 50 percent for Alice and Bob, addresses 7, 8
and 9 `ExactSplit` values of 50 for Alice, Bob and Charlie. -/
def sampleHeap : Heap := fun a =>
  match a with
  | 0 => .ExactSplit (some alice) (.finite 10000000000000000)
  | 1 => .ExactSplit (some bob) (.finite 1)
  | 2 => .ExactSplit (some alice) (.finite 1)
  | 3 => .ExactSplit (some bob) (.finite 10000000000000000)
  | 4 => .ExactSplit (some charlie) (.finite 1)
  | 5 => .PercentSplit (some alice) (.finite 50) (.finite 0)
  | 6 => .PercentSplit (some bob) (.finite 50) (.finite 0)
  | 7 => .ExactSplit (some alice) (.finite 50)
  | 8 => .ExactSplit (some bob) (.finite 50)
  | _ => .ExactSplit (some charlie) (.finite 50)

/-- The manager after `AddUser` for Alice, Bob and Charlie. -/
def threeUsers : ExpenseManager :=
  AddUser (AddUser (AddUser NewExpenseManager alice) bob) charlie

/-- An EXACT expense of total 1e16 paid by Alice, with exact splits of 1e16
for Alice and of 1 for Bob. -/
def roundedExact : Outcome :=
  AddExpense threeUsers sampleHeap "EXACT" (.finite 10000000000000000) "1" [0, 1]
    (some { Name := "Cruise" })

/-- A PERCENT expense of total `2 ^ 1023` paid by Alice, with 50 percent for
Alice and no other split. -/
def hugePercentAlone : Outcome :=
  AddExpense threeUsers sampleHeap "PERCENT" (.finite (2 ^ 1023)) "1" [5]
    (some { Name := "Breakfast" })

/-- Two PERCENT expenses of total `2 ^ 1023`: the first paid by Alice with 50
percent for Bob, the second paid by Bob with 50 percent for Alice. -/
def hugePercentBothWays : Outcome :=
  AddExpense
    (AddExpense threeUsers sampleHeap "PERCENT" (.finite (2 ^ 1023)) "1" [6]
      (some { Name := "Breakfast" })).em
    (AddExpense threeUsers sampleHeap "PERCENT" (.finite (2 ^ 1023)) "1" [6]
      (some { Name := "Breakfast" })).heap
    "PERCENT" (.finite (2 ^ 1023)) "2" [5] (some { Name := "Lunch" })

end Float64

/-! ## Lemmas on maps and on the ledger -/

theorem GoMap.read_write {V : Type} (m : GoMap V) (k k' : String) (v : V) :
    GoMap.read (GoMap.write m k v) k' = if k = k' then some v else GoMap.read m k' := by
  induction m with
  | nil => simp [GoMap.write, GoMap.read]
  | cons e m ih =>
    obtain ⟨k0, v0⟩ := e
    by_cases h : k0 = k
    · subst h
      by_cases h' : k0 = k' <;> simp [GoMap.write, GoMap.read, h']
    · by_cases h' : k0 = k'
      · subst h'
        have h2 : ¬ k = k0 := fun e => h e.symm
        simp [GoMap.write, GoMap.read, h, h2]
      · simp [GoMap.write, GoMap.read, h, h', ih]

theorem GoMap.has_write {V : Type} (m : GoMap V) (k k' : String) (v : V) :
    GoMap.has (GoMap.write m k v) k' = (decide (k = k') || GoMap.has m k') := by
  unfold GoMap.has
  rw [GoMap.read_write]
  by_cases h : k = k' <;> simp [h]

theorem cell_write (sheet : GoMap (GoMap ℚ)) (a : String) (row : GoMap ℚ) (x y : String) :
    cell (GoMap.write sheet a row) x y =
      if a = x then (GoMap.read row y).getD 0 else cell sheet x y := by
  unfold cell
  rw [GoMap.read_write]
  by_cases h : a = x <;> simp [h]

theorem addToCell_of_has {sheet : GoMap (GoMap ℚ)} {a : String} (h : GoMap.has sheet a = true)
    (b : String) (delta : ℚ) : ∃ sheet1, addToCell sheet a b delta = some sheet1 := by
  unfold GoMap.has at h
  unfold addToCell
  cases hr : GoMap.read sheet a with
  | none => simp [hr] at h
  | some row => exact ⟨_, rfl⟩

theorem has_addToCell {sheet sheet1 : GoMap (GoMap ℚ)} {a b : String} {delta : ℚ}
    (h : addToCell sheet a b delta = some sheet1) (k : String) :
    GoMap.has sheet1 k = GoMap.has sheet k := by
  unfold addToCell at h
  cases hr : GoMap.read sheet a with
  | none => simp [hr] at h
  | some row =>
    simp only [hr, Option.some.injEq] at h
    subst h
    rw [GoMap.has_write]
    by_cases hk : a = k
    · subst hk
      simp [GoMap.has, hr]
    · simp [hk]

theorem cell_addToCell {sheet sheet1 : GoMap (GoMap ℚ)} {a b : String} {delta : ℚ}
    (h : addToCell sheet a b delta = some sheet1) (x y : String) :
    cell sheet1 x y = cell sheet x y + if x = a ∧ y = b then delta else 0 := by
  unfold addToCell at h
  cases hr : GoMap.read sheet a with
  | none => simp [hr] at h
  | some row =>
    simp only [hr, Option.some.injEq] at h
    subst h
    rw [cell_write]
    by_cases hx : a = x
    · subst hx
      rw [GoMap.read_write]
      by_cases hy : b = y
      · subst hy
        simp [cell, hr]
      · have hy2 : ¬ y = b := fun e => hy e.symm
        simp [cell, hr, hy, hy2]
    · have hx2 : ¬ x = a := fun e => hx e.symm
      simp [hx, hx2]

theorem contribution_antisymm (heap : Heap) (payer : String) (a : Addr) (x y : String) :
    contribution heap payer a x y = -contribution heap payer a y x := by
  unfold contribution
  cases (heap a).GetUser with
  | none => simp
  | some r =>
    have e1 : (y = payer ∧ x = r.ID) ↔ (x = r.ID ∧ y = payer) := and_comm
    have e2 : (y = r.ID ∧ x = payer) ↔ (x = payer ∧ y = r.ID) := and_comm
    simp only [e1, e2]
    split_ifs <;> ring

theorem sum_contribution_antisymm (heap : Heap) (payer : String) (splits : List Addr)
    (x y : String) :
    (splits.map (fun a => contribution heap payer a x y)).sum =
      -(splits.map (fun a => contribution heap payer a y x)).sum := by
  induction splits with
  | nil => simp
  | cons a rest ih =>
    simp only [List.map_cons, List.sum_cons, neg_add]
    rw [ih, contribution_antisymm heap payer a x y]

/-- With the payer's row and every split user's row present, the update loop
runs to its end, keeps the set of rows, and adds to each cell the
contributions of the splits. -/
theorem updateBalances_done (heap : Heap) (p : User) (splits : List Addr) :
    ∀ sheet : GoMap (GoMap ℚ), GoMap.has sheet p.ID = true →
      (∀ a ∈ splits, ∃ r, (heap a).GetUser = some r ∧ GoMap.has sheet r.ID = true) →
      ∃ sheet1, updateBalances heap (some p) splits sheet = (sheet1, Status.done) ∧
        (∀ k, GoMap.has sheet1 k = GoMap.has sheet k) ∧
        ∀ x y, cell sheet1 x y =
          cell sheet x y + (splits.map (fun a => contribution heap p.ID a x y)).sum := by
  induction splits with
  | nil =>
    intro sheet _ _
    exact ⟨sheet, rfl, fun _ => rfl, fun x y => by simp⟩
  | cons a rest ih =>
    intro sheet hp hs
    obtain ⟨r, hr, hrow⟩ := hs a (List.mem_cons_self a rest)
    obtain ⟨s1, h1⟩ := addToCell_of_has hp r.ID (-(heap a).GetAmount)
    have hk1 := has_addToCell h1
    have hrow1 : GoMap.has s1 r.ID = true := by rw [hk1]; exact hrow
    obtain ⟨s2, h2⟩ := addToCell_of_has hrow1 p.ID (heap a).GetAmount
    have hk2 := has_addToCell h2
    have hp2 : GoMap.has s2 p.ID = true := by rw [hk2, hk1]; exact hp
    have hs2 : ∀ b ∈ rest, ∃ r, (heap b).GetUser = some r ∧ GoMap.has s2 r.ID = true := by
      intro b hb
      obtain ⟨rb, hrb, hrowb⟩ := hs b (List.mem_cons_of_mem a hb)
      exact ⟨rb, hrb, by rw [hk2, hk1]; exact hrowb⟩
    obtain ⟨s3, h3, hk3, hc3⟩ := ih s2 hp2 hs2
    refine ⟨s3, ?_, ?_, ?_⟩
    · simp only [updateBalances, hr, h1, h2]
      exact h3
    · intro k
      rw [hk3, hk2, hk1]
    · intro x y
      rw [hc3, cell_addToCell h2, cell_addToCell h1]
      simp only [List.map_cons, List.sum_cons, contribution, hr]
      ring

/-! ## Lemmas on `CreateExpense` and `AddExpense` -/

theorem setAmounts_getUser (splitAmount : ℚ) (splits : List Addr) :
    ∀ (heap : Heap) (b : Addr),
      (setAmounts splitAmount heap splits b).GetUser = (heap b).GetUser := by
  induction splits with
  | nil => intro heap b; rfl
  | cons a rest ih =>
    intro heap b
    simp only [setAmounts, List.foldl_cons] at ih ⊢
    rw [ih]
    unfold Heap.store
    by_cases h : b = a
    · subst h
      cases hb : heap b <;> simp [Split.SetAmount, Split.GetUser]
    · simp [h]

theorem setPercentAmounts_getUser (amount : ℚ) (splits : List Addr) :
    ∀ (heap : Heap) (b : Addr),
      (setPercentAmounts amount heap splits b).GetUser = (heap b).GetUser := by
  induction splits with
  | nil => intro heap b; rfl
  | cons a rest ih =>
    intro heap b
    simp only [setPercentAmounts, List.foldl_cons] at ih ⊢
    rw [ih]
    cases ha : heap a with
    | EqualSplit u amt => rfl
    | ExactSplit u amt => rfl
    | PercentSplit u pc amt =>
      simp only
      unfold Heap.store
      by_cases h : b = a
      · subst h
        simp [ha, Split.SetAmount, Split.GetUser]
      · simp [h]

theorem CreateExpense_equal (heap : Heap) (amount : ℚ) (paidBy : Option User)
    (splits : List Addr) (metadata : Option ExpenseMetadata) :
    CreateExpense heap "EQUAL" amount paidBy splits metadata =
      (setAmounts (amount / (splits.length : ℚ)) heap splits,
        some (.EqualExpense amount paidBy splits metadata)) := by
  simp [CreateExpense]

theorem CreateExpense_exact (heap : Heap) (amount : ℚ) (paidBy : Option User)
    (splits : List Addr) (metadata : Option ExpenseMetadata) :
    CreateExpense heap "EXACT" amount paidBy splits metadata =
      if amount = sumExactAmount heap splits then
        (heap, some (.ExactExpense amount paidBy splits metadata))
      else (heap, none) := by
  have h : ¬ ("EXACT" = "EQUAL") := by decide
  by_cases hs : amount = sumExactAmount heap splits <;> simp [CreateExpense, h, hs]

theorem CreateExpense_percent (heap : Heap) (amount : ℚ) (paidBy : Option User)
    (splits : List Addr) (metadata : Option ExpenseMetadata) :
    CreateExpense heap "PERCENT" amount paidBy splits metadata =
      (setPercentAmounts amount heap splits,
        some (.PercentExpense amount paidBy splits metadata)) := by
  have h1 : ¬ ("PERCENT" = "EQUAL") := by decide
  have h2 : ¬ ("PERCENT" = "EXACT") := by decide
  simp [CreateExpense, h1, h2]

theorem CreateExpense_other (heap : Heap) (expenseType : String) (amount : ℚ)
    (paidBy : Option User) (splits : List Addr) (metadata : Option ExpenseMetadata)
    (h1 : expenseType ≠ "EQUAL") (h2 : expenseType ≠ "EXACT") (h3 : expenseType ≠ "PERCENT") :
    CreateExpense heap expenseType amount paidBy splits metadata = (heap, none) := by
  simp [CreateExpense, h1, h2, h3]

theorem CreateExpense_getUser (heap : Heap) (expenseType : String) (amount : ℚ)
    (paidBy : Option User) (splits : List Addr) (metadata : Option ExpenseMetadata) (b : Addr) :
    ((CreateExpense heap expenseType amount paidBy splits metadata).1 b).GetUser =
      (heap b).GetUser := by
  by_cases h1 : expenseType = "EQUAL"
  · subst h1
    rw [CreateExpense_equal]
    exact setAmounts_getUser _ _ _ _
  by_cases h2 : expenseType = "EXACT"
  · subst h2
    rw [CreateExpense_exact]
    split_ifs <;> rfl
  by_cases h3 : expenseType = "PERCENT"
  · subst h3
    rw [CreateExpense_percent]
    exact setPercentAmounts_getUser _ _ _ _
  rw [CreateExpense_other _ _ _ _ _ _ h1 h2 h3]

theorem CreateExpense_some {heap : Heap} {expenseType : String} {amount : ℚ}
    {paidBy : Option User} {splits : List Addr} {metadata : Option ExpenseMetadata}
    {e : Expense}
    (h : (CreateExpense heap expenseType amount paidBy splits metadata).2 = some e) :
    e.GetPaidBy = paidBy ∧ e.GetSplits = splits ∧ e.GetAmount = amount := by
  by_cases h1 : expenseType = "EQUAL"
  · subst h1
    rw [CreateExpense_equal] at h
    simp only [Option.some.injEq] at h
    subst h
    exact ⟨rfl, rfl, rfl⟩
  by_cases h2 : expenseType = "EXACT"
  · subst h2
    rw [CreateExpense_exact] at h
    split_ifs at h
    simp only [Option.some.injEq] at h
    subst h
    exact ⟨rfl, rfl, rfl⟩
  by_cases h3 : expenseType = "PERCENT"
  · subst h3
    rw [CreateExpense_percent] at h
    simp only [Option.some.injEq] at h
    subst h
    exact ⟨rfl, rfl, rfl⟩
  rw [CreateExpense_other _ _ _ _ _ _ h1 h2 h3] at h
  simp at h

theorem AddExpense_rejected {em : ExpenseManager} {heap : Heap} {expenseType : String}
    {amount : ℚ} {paidBy : String} {splits : List Addr} {metadata : Option ExpenseMetadata}
    (h : (CreateExpense heap expenseType amount (GoMap.read em.UserMap paidBy) splits
      metadata).2 = none) :
    AddExpense em heap expenseType amount paidBy splits metadata =
      { em := em
        heap := (CreateExpense heap expenseType amount (GoMap.read em.UserMap paidBy) splits
          metadata).1
        status := .done } := by
  unfold AddExpense
  cases hc : CreateExpense heap expenseType amount (GoMap.read em.UserMap paidBy) splits
    metadata with
  | mk heap1 oe =>
    rw [hc] at h
    simp only at h
    subst h
    rfl

theorem AddExpense_accepted {em : ExpenseManager} {heap : Heap} {expenseType : String}
    {amount : ℚ} {paidBy : String} {splits : List Addr} {metadata : Option ExpenseMetadata}
    {e : Expense} {sheet1 : GoMap (GoMap ℚ)}
    (h : (CreateExpense heap expenseType amount (GoMap.read em.UserMap paidBy) splits
      metadata).2 = some e)
    (hu : updateBalances (CreateExpense heap expenseType amount (GoMap.read em.UserMap paidBy)
      splits metadata).1 e.GetPaidBy e.GetSplits em.BalanceSheet = (sheet1, Status.done)) :
    AddExpense em heap expenseType amount paidBy splits metadata =
      { em := { em with Expenses := em.Expenses ++ [e], BalanceSheet := sheet1 }
        heap := (CreateExpense heap expenseType amount (GoMap.read em.UserMap paidBy) splits
          metadata).1
        status := if metadata.isSome then .done else .nilDereference } := by
  unfold AddExpense
  cases hc : CreateExpense heap expenseType amount (GoMap.read em.UserMap paidBy) splits
    metadata with
  | mk heap1 oe =>
    rw [hc] at h hu
    simp only at h hu
    subst h
    cases metadata <;> simp [hu]

theorem registered_payer {em : ExpenseManager} {heap : Heap} {paidBy : String}
    {splits : List Addr} (hc : Consistent em) (hreg : registered em heap paidBy splits = true) :
    ∃ p, GoMap.read em.UserMap paidBy = some p ∧ p.ID = paidBy ∧
      GoMap.has em.BalanceSheet p.ID = true := by
  unfold registered at hreg
  rw [Bool.and_eq_true] at hreg
  have h1 := hreg.1
  unfold GoMap.has at h1
  cases hr : GoMap.read em.UserMap paidBy with
  | none => simp [hr] at h1
  | some p =>
    have hid := hc.ids paidBy p hr
    refine ⟨p, rfl, hid, ?_⟩
    rw [hid, hc.keys]
    exact hreg.1

theorem registered_splits {em : ExpenseManager} {heap : Heap} {paidBy : String}
    {splits : List Addr} (hc : Consistent em) (hreg : registered em heap paidBy splits = true) :
    ∀ a ∈ splits, ∃ r, (heap a).GetUser = some r ∧ GoMap.has em.BalanceSheet r.ID = true := by
  unfold registered at hreg
  rw [Bool.and_eq_true, List.all_eq_true] at hreg
  intro a ha
  have h2 := hreg.2 a ha
  cases hu : (heap a).GetUser with
  | none => simp [hu] at h2
  | some r =>
    simp only [hu] at h2
    exact ⟨r, rfl, by rw [hc.keys]; exact h2⟩

/-- What `AddExpense` does when the payer and the split users are registered:
either the expense is refused and the manager is as before, or it is appended
and every ledger cell gets the contributions of the splits. -/
theorem AddExpense_registered {em : ExpenseManager} {heap : Heap} (hc : Consistent em)
    (expenseType : String) (amount : ℚ) (paidBy : String) (splits : List Addr)
    (metadata : Option ExpenseMetadata) (hreg : registered em heap paidBy splits = true) :
    (AddExpense em heap expenseType amount paidBy splits metadata).heap =
        (CreateExpense heap expenseType amount (GoMap.read em.UserMap paidBy) splits
          metadata).1 ∧
      (AddExpense em heap expenseType amount paidBy splits metadata).em.UserMap = em.UserMap ∧
      (∀ k, GoMap.has (AddExpense em heap expenseType amount paidBy splits
          metadata).em.BalanceSheet k = GoMap.has em.BalanceSheet k) ∧
      (((CreateExpense heap expenseType amount (GoMap.read em.UserMap paidBy) splits
            metadata).2 = none ∧
          AddExpense em heap expenseType amount paidBy splits metadata =
            { em := em, heap := heap, status := .done }) ∨
        ∃ e, (CreateExpense heap expenseType amount (GoMap.read em.UserMap paidBy) splits
            metadata).2 = some e ∧
          (AddExpense em heap expenseType amount paidBy splits metadata).em.Expenses =
            em.Expenses ++ [e] ∧
          updateBalances (CreateExpense heap expenseType amount (GoMap.read em.UserMap paidBy)
              splits metadata).1 e.GetPaidBy e.GetSplits em.BalanceSheet =
            ((AddExpense em heap expenseType amount paidBy splits metadata).em.BalanceSheet,
              Status.done) ∧
          ∀ x y, cell (AddExpense em heap expenseType amount paidBy splits
              metadata).em.BalanceSheet x y =
            cell em.BalanceSheet x y +
              (splits.map (fun a => contribution (CreateExpense heap expenseType amount
                (GoMap.read em.UserMap paidBy) splits metadata).1 paidBy a x y)).sum) := by
  obtain ⟨p, hp, hid, hrow⟩ := registered_payer hc hreg
  have hs := registered_splits hc hreg
  cases h2 : (CreateExpense heap expenseType amount (GoMap.read em.UserMap paidBy) splits
    metadata).2 with
  | none =>
    have hout := AddExpense_rejected h2
    have hheap : (CreateExpense heap expenseType amount (GoMap.read em.UserMap paidBy) splits
        metadata).1 = heap := by
      by_cases h1 : expenseType = "EQUAL"
      · subst h1; rw [CreateExpense_equal] at h2; simp at h2
      by_cases h3 : expenseType = "EXACT"
      · subst h3
        rw [CreateExpense_exact] at h2 ⊢
        split_ifs at h2 ⊢
        rfl
      by_cases h4 : expenseType = "PERCENT"
      · subst h4; rw [CreateExpense_percent] at h2; simp at h2
      rw [CreateExpense_other _ _ _ _ _ _ h1 h3 h4]
    rw [hout]
    refine ⟨rfl, rfl, fun _ => rfl, Or.inl ⟨rfl, ?_⟩⟩
    rw [hheap]
  | some e =>
    obtain ⟨hpb, hsp, -⟩ := CreateExpense_some h2
    have hs1 : ∀ a ∈ splits, ∃ r,
        ((CreateExpense heap expenseType amount (GoMap.read em.UserMap paidBy) splits
          metadata).1 a).GetUser = some r ∧ GoMap.has em.BalanceSheet r.ID = true := by
      intro a ha
      rw [CreateExpense_getUser]
      exact hs a ha
    obtain ⟨sheet1, hu, hk, hcell⟩ := updateBalances_done _ p splits em.BalanceSheet hrow hs1
    have hu2 : updateBalances (CreateExpense heap expenseType amount
        (GoMap.read em.UserMap paidBy) splits metadata).1 e.GetPaidBy e.GetSplits
        em.BalanceSheet = (sheet1, Status.done) := by
      rw [hpb.trans hp, hsp]; exact hu
    have hout := AddExpense_accepted h2 hu2
    rw [hout]
    refine ⟨rfl, rfl, hk, Or.inr ⟨e, rfl, rfl, hu2, ?_⟩⟩
    intro x y
    have hxy := hcell x y
    rw [hid] at hxy
    exact hxy

/-! ## Invariants of the reachable states -/

theorem consistent_new : Consistent NewExpenseManager :=
  ⟨fun _ => rfl, fun k u h => by simp [NewExpenseManager, GoMap.read] at h⟩

theorem antisymmetric_new : AntiSymmetric NewExpenseManager.BalanceSheet := by
  intro A B
  simp [NewExpenseManager, cell, GoMap.read]

theorem AddUser_consistent {em : ExpenseManager} (hc : Consistent em) (user : User) :
    Consistent (AddUser em user) := by
  constructor
  · intro k
    simp only [AddUser, GoMap.has_write, hc.keys]
  · intro k u h
    simp only [AddUser, GoMap.read_write] at h
    by_cases hk : user.ID = k
    · simp only [hk, if_true, Option.some.injEq] at h
      rw [← h]; exact hk
    · simp only [hk, if_false] at h
      exact hc.ids k u h

theorem cell_of_not_has {sheet : GoMap (GoMap ℚ)} {a : String}
    (h : GoMap.has sheet a = false) (b : String) : cell sheet a b = 0 := by
  unfold GoMap.has at h
  unfold cell
  cases hr : GoMap.read sheet a with
  | none => rfl
  | some row => simp [hr] at h

theorem AddUser_antisymmetric {em : ExpenseManager} (hc : Consistent em)
    (ha : AntiSymmetric em.BalanceSheet) (user : User)
    (hfirst : GoMap.has em.UserMap user.ID = false) :
    AntiSymmetric (AddUser em user).BalanceSheet := by
  have hrow : GoMap.has em.BalanceSheet user.ID = false := by rw [hc.keys]; exact hfirst
  have hzero : ∀ b, cell em.BalanceSheet user.ID b = 0 := cell_of_not_has hrow
  have hcol : ∀ b, cell em.BalanceSheet b user.ID = 0 := by
    intro b
    rw [ha b user.ID, hzero b, neg_zero]
  intro A B
  simp only [AddUser, cell_write]
  by_cases h1 : user.ID = A <;> by_cases h2 : user.ID = B
  · subst h1
    subst h2
    simp [GoMap.read]
  · subst h1
    simp [h2, GoMap.read, hcol]
  · subst h2
    simp [h1, GoMap.read, hcol]
  · simp only [h1, h2, if_false]
    exact ha A B

theorem AddExpense_consistent {em : ExpenseManager} {heap : Heap} (hc : Consistent em)
    (expenseType : String) (amount : ℚ) (paidBy : String) (splits : List Addr)
    (metadata : Option ExpenseMetadata) (hreg : registered em heap paidBy splits = true) :
    Consistent (AddExpense em heap expenseType amount paidBy splits metadata).em := by
  obtain ⟨-, hum, hk, -⟩ := AddExpense_registered hc expenseType amount paidBy splits metadata hreg
  constructor
  · intro k
    rw [hk, hum]
    exact hc.keys k
  · intro k u h
    rw [hum] at h
    exact hc.ids k u h

theorem AddExpense_antisymmetric {em : ExpenseManager} {heap : Heap} (hc : Consistent em)
    (ha : AntiSymmetric em.BalanceSheet)
    (expenseType : String) (amount : ℚ) (paidBy : String) (splits : List Addr)
    (metadata : Option ExpenseMetadata) (hreg : registered em heap paidBy splits = true) :
    AntiSymmetric (AddExpense em heap expenseType amount paidBy splits
      metadata).em.BalanceSheet := by
  obtain ⟨-, -, -, h⟩ := AddExpense_registered hc expenseType amount paidBy splits metadata hreg
  rcases h with ⟨-, hout⟩ | ⟨e, -, -, -, hcell⟩
  · rw [hout]; exact ha
  · intro A B
    rw [hcell A B, hcell B A, ha A B, neg_add]
    rw [sum_contribution_antisymm]

theorem run_cons (w : Outcome) (c : Call) (calls : List Call) :
    run w (c :: calls) = run (step w c) calls := rfl

theorem step_addUser {w : Outcome} (h : w.status = Status.done) (user : User) :
    step w (.AddUser user) = { w with em := AddUser w.em user } := by
  unfold step
  rw [h]

theorem step_addExpense {w : Outcome} (h : w.status = Status.done) (expenseType : String)
    (amount : ℚ) (paidBy : String) (splits : List Addr) (metadata : Option ExpenseMetadata) :
    step w (.AddExpense expenseType amount paidBy splits metadata) =
      AddExpense w.em w.heap expenseType amount paidBy splits metadata := by
  unfold step
  rw [h]

theorem step_stopped {w : Outcome} (h : ¬ w.status = Status.done) (c : Call) :
    step w c = w := by
  unfold step
  cases hst : w.status with
  | done => exact absurd hst h
  | nilDereference => rfl
  | nilMapWrite => rfl

theorem step_consistent {w : Outcome} (hc : Consistent w.em) (c : Call)
    (hreg : c.participantsRegistered w = true) : Consistent (step w c).em := by
  unfold step
  cases hst : w.status with
  | done =>
    cases c with
    | AddUser user => exact AddUser_consistent hc user
    | AddExpense expenseType amount paidBy splits metadata =>
      simp only [Call.participantsRegistered] at hreg
      exact AddExpense_consistent hc _ _ _ _ _ hreg
  | nilDereference => exact hc
  | nilMapWrite => exact hc

/-- Induction over the calls of a run: a property kept by a first registration
and by an expense among registered participants holds at the end. -/
theorem run_preserves (P : Outcome → Prop)
    (hUser : ∀ (w : Outcome) (user : User), Consistent w.em → P w →
      GoMap.has w.em.UserMap user.ID = false → P { w with em := AddUser w.em user })
    (hExpense : ∀ (w : Outcome) (expenseType : String) (amount : ℚ) (paidBy : String)
      (splits : List Addr) (metadata : Option ExpenseMetadata), Consistent w.em → P w →
      registered w.em w.heap paidBy splits = true →
      P (AddExpense w.em w.heap expenseType amount paidBy splits metadata))
    (calls : List Call) :
    ∀ w : Outcome, Consistent w.em → P w →
      holdsAlong Call.participantsRegistered w calls = true →
      holdsAlong Call.firstRegistration w calls = true → P (run w calls) := by
  induction calls with
  | nil => intro w _ hP _ _; exact hP
  | cons c calls ih =>
    intro w hc hP hreg hfirst
    simp only [holdsAlong, Bool.and_eq_true] at hreg hfirst
    rw [run_cons]
    refine ih (step w c) (step_consistent hc c hreg.1) ?_ hreg.2 hfirst.2
    by_cases hst : w.status = Status.done
    · cases c with
      | AddUser user =>
        have hf := hfirst.1
        simp only [Call.firstRegistration, Bool.not_eq_true'] at hf
        rw [step_addUser hst]
        exact hUser w user hc hP hf
      | AddExpense expenseType amount paidBy splits metadata =>
        have hr := hreg.1
        simp only [Call.participantsRegistered] at hr
        rw [step_addExpense hst]
        exact hExpense w _ _ _ _ _ hc hP hr
    · rw [step_stopped hst]
      exact hP

/-! ## Evaluation of the samples -/

theorem run_reRegistrationCalls :
    (run (start sampleHeap) reRegistrationCalls).em.BalanceSheet =
      [("1", []), ("2", [("1", 90)])] := by
  simp [run, step, start, reRegistrationCalls, AddExpense, CreateExpense, AddUser,
    NewExpenseManager, GoMap.write, GoMap.read, alice, bob, NewUser, setAmounts, Heap.store,
    sampleHeap, Split.SetAmount, updateBalances, Expense.GetPaidBy, Expense.GetSplits,
    Split.GetAmount, Split.GetUser, addToCell]

theorem oneExpenseCalls_registered :
    holdsAlong Call.participantsRegistered (start sampleHeap) oneExpenseCalls = true := by
  simp [holdsAlong, Call.participantsRegistered, registered, GoMap.has, step, start,
    oneExpenseCalls, AddUser, NewExpenseManager, GoMap.write, GoMap.read, alice, bob, NewUser,
    sampleHeap, Split.GetUser]

theorem oneExpenseCalls_firstRegistration :
    holdsAlong Call.firstRegistration (start sampleHeap) oneExpenseCalls = true := by
  simp [holdsAlong, Call.firstRegistration, GoMap.has, step, start,
    oneExpenseCalls, AddUser, NewExpenseManager, GoMap.write, GoMap.read, alice, bob, NewUser]

theorem reRegistrationCalls_registered :
    holdsAlong Call.participantsRegistered (start sampleHeap) reRegistrationCalls = true := by
  simp [holdsAlong, Call.participantsRegistered, registered, GoMap.has, step, start,
    reRegistrationCalls, AddUser, NewExpenseManager, GoMap.write, GoMap.read, alice, bob,
    NewUser, sampleHeap, Split.GetUser]

/-! ## C1: anti-symmetry of the ledger -/

/-- C1, as stated, fails: the calls AddUser(Alice), AddUser(Bob),
AddExpense("EQUAL", 90, "1", [Bob]), AddUser(Alice) all have their payer and
split participants registered, and the second AddUser(Alice) replaces Alice's
row by an empty one, so that BalanceSheet["1"]["2"] reads 0 while
BalanceSheet["2"]["1"] is 90. -/
theorem antisymmetry_fails_after_reregistration :
    holdsAlong Call.participantsRegistered (start sampleHeap) reRegistrationCalls = true ∧
      cell (run (start sampleHeap) reRegistrationCalls).em.BalanceSheet "1" "2" = 0 ∧
      cell (run (start sampleHeap) reRegistrationCalls).em.BalanceSheet "2" "1" = 90 ∧
      ¬ (∀ A B : String,
        cell (run (start sampleHeap) reRegistrationCalls).em.BalanceSheet A B =
          -cell (run (start sampleHeap) reRegistrationCalls).em.BalanceSheet B A) := by
  refine ⟨reRegistrationCalls_registered, ?_, ?_, ?_⟩
  · rw [run_reRegistrationCalls]
    simp [cell, GoMap.read]
  · rw [run_reRegistrationCalls]
    simp [cell, GoMap.read]
  · intro h
    have h12 := h "1" "2"
    rw [run_reRegistrationCalls] at h12
    simp [cell, GoMap.read] at h12

/-- C1 (amended): in every state reached from NewExpenseManager by a sequence
of AddUser and AddExpense calls in which the payer and the split participants
of each expense are registered when it is added and no AddUser call registers
an id that is already registered, BalanceSheet[A][B] = -BalanceSheet[B][A] for
all ids A and B, a missing entry read as 0. -/
theorem antisymmetry_reachable (heap : Heap) (calls : List Call)
    (hreg : holdsAlong Call.participantsRegistered (start heap) calls = true)
    (hfirst : holdsAlong Call.firstRegistration (start heap) calls = true) (A B : String) :
    cell (run (start heap) calls).em.BalanceSheet A B =
      -cell (run (start heap) calls).em.BalanceSheet B A :=
  run_preserves (fun w => AntiSymmetric w.em.BalanceSheet)
    (fun _ user hc ha hf => AddUser_antisymmetric hc ha user hf)
    (fun _ _ _ _ _ _ hc ha hr => AddExpense_antisymmetric hc ha _ _ _ _ _ hr)
    calls (start heap) consistent_new antisymmetric_new hreg hfirst A B

/-- Instance of `antisymmetry_reachable`: Alice and Bob registered once, then 90
paid by Alice for Bob. -/
theorem antisymmetry_reachable_witness :
    holdsAlong Call.participantsRegistered (start sampleHeap) oneExpenseCalls = true ∧
      holdsAlong Call.firstRegistration (start sampleHeap) oneExpenseCalls = true ∧
      cell (run (start sampleHeap) oneExpenseCalls).em.BalanceSheet "1" "2" =
        -cell (run (start sampleHeap) oneExpenseCalls).em.BalanceSheet "2" "1" :=
  ⟨oneExpenseCalls_registered, oneExpenseCalls_firstRegistration,
    antisymmetry_reachable sampleHeap oneExpenseCalls oneExpenseCalls_registered
      oneExpenseCalls_firstRegistration "1" "2"⟩

/-! ## C2: the worked scenario -/

theorem dinner_sheet :
    dinner.em.BalanceSheet =
      [("1", [("1", 0), ("2", -30), ("3", -30)]), ("2", [("1", 30)]), ("3", [("1", 30)])] := by
  simp [dinner, threeUsers, AddExpense, CreateExpense, AddUser,
    NewExpenseManager, GoMap.write, GoMap.read, alice, bob, charlie, NewUser, setAmounts,
    Heap.store, sampleHeap, Split.SetAmount, updateBalances, Expense.GetPaidBy,
    Expense.GetSplits, Split.GetAmount, Split.GetUser, addToCell]
  norm_num

theorem dinner_userMap :
    dinner.em.UserMap = [("1", alice), ("2", bob), ("3", charlie)] := by
  simp [dinner, threeUsers, AddExpense, CreateExpense, AddUser,
    NewExpenseManager, GoMap.write, GoMap.read, alice, bob, charlie, NewUser, setAmounts,
    Heap.store, sampleHeap, Split.SetAmount, updateBalances, Expense.GetPaidBy,
    Expense.GetSplits, Split.GetAmount, Split.GetUser, addToCell]

/-- C2 on the code: after the EQUAL expense of 90 paid by Alice for Alice, Bob
and Charlie, the ledger holds -30 in Alice's row and +30 in Bob's and
Charlie's, and `PrintBalance` reads each of these cells as a debt of Alice:
"Alice owes Bob: 30" and "Alice owes Charlie: 30". No cell is reported as a
debt of Bob or of Charlie to Alice. -/
theorem dinner_reports_payer_as_debtor :
    cell dinner.em.BalanceSheet "1" "2" = -30 ∧
      cell dinner.em.BalanceSheet "2" "1" = 30 ∧
      PrintBalance dinner.em "1" "2" (-30) =
        some [{ debtor := "Alice", creditor := "Bob", amount := 30 }] ∧
      PrintBalance dinner.em "2" "1" 30 =
        some [{ debtor := "Alice", creditor := "Bob", amount := 30 }] ∧
      PrintBalance dinner.em "1" "3" (-30) =
        some [{ debtor := "Alice", creditor := "Charlie", amount := 30 }] ∧
      PrintBalance dinner.em "3" "1" 30 =
        some [{ debtor := "Alice", creditor := "Charlie", amount := 30 }] ∧
      cellLines dinner.em =
        [{ debtor := "Alice", creditor := "Bob", amount := 30 },
         { debtor := "Alice", creditor := "Charlie", amount := 30 },
         { debtor := "Alice", creditor := "Bob", amount := 30 },
         { debtor := "Alice", creditor := "Charlie", amount := 30 }] ∧
      ∀ line ∈ cellLines dinner.em, line.debtor = "Alice" ∧ line.creditor ≠ "Alice" := by
  have hlines : cellLines dinner.em =
      [{ debtor := "Alice", creditor := "Bob", amount := 30 },
       { debtor := "Alice", creditor := "Charlie", amount := 30 },
       { debtor := "Alice", creditor := "Bob", amount := 30 },
       { debtor := "Alice", creditor := "Charlie", amount := 30 }] := by
    unfold cellLines PrintBalance
    rw [dinner_sheet, dinner_userMap]
    simp [GoMap.read, alice, bob, charlie, NewUser]
    norm_num
  refine ⟨?_, ?_, ?_, ?_, ?_, ?_, hlines, ?_⟩
  · rw [dinner_sheet]
    simp [cell, GoMap.read]
  · rw [dinner_sheet]
    simp [cell, GoMap.read]
  · unfold PrintBalance
    rw [dinner_userMap]
    simp [GoMap.read, alice, bob, NewUser]
  · unfold PrintBalance
    rw [dinner_userMap]
    simp [GoMap.read, alice, bob, NewUser]
  · unfold PrintBalance
    rw [dinner_userMap]
    simp [GoMap.read, alice, charlie, NewUser]
  · unfold PrintBalance
    rw [dinner_userMap]
    simp [GoMap.read, alice, charlie, NewUser]
  · intro line hl
    rw [hlines] at hl
    simp only [List.mem_cons, List.mem_singleton, List.not_mem_nil, or_false] at hl
    rcases hl with h | h | h | h <;> subst h <;> simp

/-! ## C4: percent splits that do not sum to 100 -/

/-- C4 on the code: percentages 30 and 30 sum to 60, `PercentExpense.Validate`
is false for the expense, and yet `CreateExpense` returns it and `AddExpense`
records it: the expense is appended, the split amounts are overwritten with
15, and the ledger gets -15 and +15. -/
theorem percent_mismatch_is_recorded :
    sumPercent sampleHeap [5, 6] = 60 ∧
      (CreateExpense sampleHeap "PERCENT" 50 (some alice) [5, 6]
        (some { Name := "Breakfast" })).2 =
        some (.PercentExpense 50 (some alice) [5, 6] (some { Name := "Breakfast" })) ∧
      (Expense.PercentExpense 50 (some alice) [5, 6]
        (some { Name := "Breakfast" })).Validate sixtyPercent.heap = false ∧
      twoUsers.Expenses = [] ∧
      sixtyPercent.em.Expenses =
        [.PercentExpense 50 (some alice) [5, 6] (some { Name := "Breakfast" })] ∧
      twoUsers.BalanceSheet = [("1", []), ("2", [])] ∧
      sixtyPercent.em.BalanceSheet = [("1", [("1", 0), ("2", -15)]), ("2", [("1", 15)])] ∧
      (sampleHeap 6).GetAmount = 0 ∧
      (sixtyPercent.heap 6).GetAmount = 15 := by
  refine ⟨?_, ?_, ?_, ?_, ?_, ?_, ?_, ?_, ?_⟩
  · simp [sumPercent, sampleHeap]
    norm_num
  · rw [CreateExpense_percent]
  · simp [Expense.Validate, sumPercent, sixtyPercent, twoUsers, AddExpense, CreateExpense,
      AddUser, NewExpenseManager, GoMap.write, GoMap.read, alice, bob, NewUser,
      setPercentAmounts, Heap.store, sampleHeap, Split.SetAmount, updateBalances,
      Expense.GetPaidBy, Expense.GetSplits, Split.GetAmount, Split.GetUser, addToCell]
    norm_num
  · rfl
  · simp [sixtyPercent, twoUsers, AddExpense, CreateExpense,
      AddUser, NewExpenseManager, GoMap.write, GoMap.read, alice, bob, NewUser,
      setPercentAmounts, Heap.store, sampleHeap, Split.SetAmount, updateBalances,
      Expense.GetPaidBy, Expense.GetSplits, Split.GetAmount, Split.GetUser, addToCell]
  · simp [twoUsers, AddUser, NewExpenseManager, GoMap.write, alice, bob, NewUser]
  · simp [sixtyPercent, twoUsers, AddExpense, CreateExpense,
      AddUser, NewExpenseManager, GoMap.write, GoMap.read, alice, bob, NewUser,
      setPercentAmounts, Heap.store, sampleHeap, Split.SetAmount, updateBalances,
      Expense.GetPaidBy, Expense.GetSplits, Split.GetAmount, Split.GetUser, addToCell]
    norm_num
  · rfl
  · simp [sixtyPercent, twoUsers, AddExpense, CreateExpense,
      AddUser, NewExpenseManager, GoMap.write, GoMap.read, alice, bob, NewUser,
      setPercentAmounts, Heap.store, sampleHeap, Split.SetAmount, updateBalances,
      Expense.GetPaidBy, Expense.GetSplits, Split.GetAmount, Split.GetUser, addToCell]
    norm_num

/-! ## C5: equal splits -/

theorem SetAmount_SetAmount (s : Split) (x y : ℚ) :
    (s.SetAmount x).SetAmount y = s.SetAmount y := by
  cases s <;> rfl

theorem GetAmount_SetAmount (s : Split) (x : ℚ) : (s.SetAmount x).GetAmount = x := by
  cases s <;> rfl

/-- The loop of the EQUAL case sets the amount of exactly the listed split objects. -/
theorem setAmounts_apply (splitAmount : ℚ) (splits : List Addr) :
    ∀ (heap : Heap) (b : Addr),
      setAmounts splitAmount heap splits b =
        if b ∈ splits then (heap b).SetAmount splitAmount else heap b := by
  induction splits with
  | nil => intro heap b; simp [setAmounts]
  | cons a rest ih =>
    intro heap b
    simp only [setAmounts, List.foldl_cons] at ih ⊢
    rw [ih]
    unfold Heap.store
    by_cases hba : b = a
    · subst hba
      by_cases hbr : b ∈ rest <;> simp [hbr, SetAmount_SetAmount]
    · by_cases hbr : b ∈ rest <;> simp [hbr, hba]

/-- C5: for every amount T and every non-empty list of n splits (of any
kind), `CreateExpense("EQUAL", T, ...)` returns the `EqualExpense` with amount
T and the same list of n splits; every listed split object keeps its user and
kind and gets the amount T / n (division of rationals), no other split object
changes, and the resolved amounts of the list sum to T. -/
theorem equal_split_total (heap : Heap) (T : ℚ) (paidBy : Option User) (splits : List Addr)
    (metadata : Option ExpenseMetadata) (hne : splits ≠ []) :
    (CreateExpense heap "EQUAL" T paidBy splits metadata).2 =
        some (.EqualExpense T paidBy splits metadata) ∧
      (Expense.EqualExpense T paidBy splits metadata).GetAmount = T ∧
      (Expense.EqualExpense T paidBy splits metadata).GetSplits.length = splits.length ∧
      (∀ a ∈ splits, (CreateExpense heap "EQUAL" T paidBy splits metadata).1 a =
        (heap a).SetAmount (T / (splits.length : ℚ))) ∧
      (∀ a ∈ splits, ((CreateExpense heap "EQUAL" T paidBy splits metadata).1 a).GetAmount =
        T / (splits.length : ℚ)) ∧
      (∀ b, b ∉ splits → (CreateExpense heap "EQUAL" T paidBy splits metadata).1 b = heap b) ∧
      (splits.map (fun a =>
        ((CreateExpense heap "EQUAL" T paidBy splits metadata).1 a).GetAmount)).sum = T := by
  rw [CreateExpense_equal]
  have hset : ∀ a ∈ splits, setAmounts (T / (splits.length : ℚ)) heap splits a =
      (heap a).SetAmount (T / (splits.length : ℚ)) := by
    intro a ha
    rw [setAmounts_apply, if_pos ha]
  have hamt : ∀ a ∈ splits, (setAmounts (T / (splits.length : ℚ)) heap splits a).GetAmount =
      T / (splits.length : ℚ) := by
    intro a ha
    rw [hset a ha, GetAmount_SetAmount]
  refine ⟨rfl, rfl, rfl, hset, hamt, ?_, ?_⟩
  · intro b hb
    simp only
    rw [setAmounts_apply, if_neg hb]
  · have hmap : splits.map (fun a =>
        (setAmounts (T / (splits.length : ℚ)) heap splits a).GetAmount) =
        splits.map (fun _ => T / (splits.length : ℚ)) :=
      List.map_congr_left hamt
    simp only
    rw [hmap, List.map_const', List.sum_replicate, nsmul_eq_mul]
    have hlen : (splits.length : ℚ) ≠ 0 := by
      have : splits.length ≠ 0 := fun h => hne (List.length_eq_zero.mp h)
      exact_mod_cast this
    field_simp

/-- Instance of `equal_split_total`: 90 over the three splits of the `Dinner`
expense. -/
theorem equal_split_total_witness :
    [0, 1, 2] ≠ ([] : List Addr) ∧
      ((CreateExpense sampleHeap "EQUAL" 90 (some alice) [0, 1, 2] none).2 =
        some (.EqualExpense 90 (some alice) [0, 1, 2] none) ∧
      (Expense.EqualExpense 90 (some alice) [0, 1, 2] none).GetAmount = 90 ∧
      (Expense.EqualExpense 90 (some alice) [0, 1, 2] none).GetSplits.length =
        [0, 1, 2].length ∧
      (∀ a ∈ [0, 1, 2], (CreateExpense sampleHeap "EQUAL" 90 (some alice) [0, 1, 2] none).1 a =
        (sampleHeap a).SetAmount (90 / (([0, 1, 2] : List Addr).length : ℚ))) ∧
      (∀ a ∈ [0, 1, 2],
        ((CreateExpense sampleHeap "EQUAL" 90 (some alice) [0, 1, 2] none).1 a).GetAmount =
          90 / (([0, 1, 2] : List Addr).length : ℚ)) ∧
      (∀ b, b ∉ [0, 1, 2] →
        (CreateExpense sampleHeap "EQUAL" 90 (some alice) [0, 1, 2] none).1 b = sampleHeap b) ∧
      ([0, 1, 2].map (fun a =>
        ((CreateExpense sampleHeap "EQUAL" 90 (some alice) [0, 1, 2] none).1 a).GetAmount)).sum =
          90) :=
  ⟨by decide, equal_split_total sampleHeap 90 (some alice) [0, 1, 2] none (by decide)⟩

/-! ## C7: effect of a percent expense -/

theorem resolvePercent_idem (amount : ℚ) (s : Split) :
    resolvePercent amount (resolvePercent amount s) = resolvePercent amount s := by
  cases s <;> rfl

/-- The loop of the PERCENT case resolves exactly the listed split objects. -/
theorem setPercentAmounts_apply (amount : ℚ) (splits : List Addr) :
    ∀ (heap : Heap) (b : Addr),
      setPercentAmounts amount heap splits b =
        if b ∈ splits then resolvePercent amount (heap b) else heap b := by
  induction splits with
  | nil => intro heap b; simp [setPercentAmounts]
  | cons a rest ih =>
    intro heap b
    simp only [setPercentAmounts, List.foldl_cons] at ih ⊢
    rw [ih]
    have h1 : ∀ c, (match heap a with
        | .PercentSplit _ percent _ =>
          Heap.store heap a ((heap a).SetAmount (amount * percent / 100))
        | _ => heap) c = if c = a then resolvePercent amount (heap c) else heap c := by
      intro c
      by_cases hca : c = a
      · subst hca
        cases hs : heap c <;> simp [Heap.store, resolvePercent, Split.SetAmount, hs]
      · cases hs : heap a <;> simp [Heap.store, hca]
    rw [h1]
    by_cases hba : b = a
    · subst hba
      by_cases hbr : b ∈ rest <;> simp [hbr, resolvePercent_idem]
    · by_cases hbr : b ∈ rest <;> simp [hbr, hba]

theorem GoMap.mem_write {V : Type} (m : GoMap V) (k : String) (v : V) (e : String × V)
    (h : e ∈ GoMap.write m k v) : e ∈ m ∨ e = (k, v) := by
  induction m with
  | nil =>
    simp only [GoMap.write, List.mem_singleton] at h
    exact Or.inr h
  | cons e0 m ih =>
    obtain ⟨k0, v0⟩ := e0
    by_cases hk : k0 = k
    · simp only [GoMap.write, hk, if_true, List.mem_cons] at h
      rcases h with h | h
      · exact Or.inr h
      · exact Or.inl (List.mem_cons_of_mem _ h)
    · simp only [GoMap.write, hk, if_false, List.mem_cons] at h
      rcases h with h | h
      · exact Or.inl (h ▸ List.mem_cons_self _ _)
      · rcases ih h with h1 | h1
        · exact Or.inl (List.mem_cons_of_mem _ h1)
        · exact Or.inr h1

theorem GoMap.read_mem {V : Type} (m : GoMap V) (k : String) (v : V)
    (h : GoMap.read m k = some v) : (k, v) ∈ m := by
  induction m with
  | nil => simp [GoMap.read] at h
  | cons e0 m ih =>
    obtain ⟨k0, v0⟩ := e0
    by_cases hk : k0 = k
    · simp only [GoMap.read, hk, if_true, Option.some.injEq] at h
      rw [hk, h]
      exact List.mem_cons_self _ _
    · simp only [GoMap.read, hk, if_false] at h
      exact List.mem_cons_of_mem _ (ih h)

theorem registerAll_invariant (users : List User) :
    ∀ em : ExpenseManager, Consistent em → (∀ e ∈ em.BalanceSheet, e.2 = []) →
      Consistent (users.foldl AddUser em) ∧
        ∀ e ∈ (users.foldl AddUser em).BalanceSheet, e.2 = [] := by
  induction users with
  | nil => intro em hc he; exact ⟨hc, he⟩
  | cons u rest ih =>
    intro em hc he
    simp only [List.foldl_cons]
    apply ih (AddUser em u) (AddUser_consistent hc u)
    intro e hmem
    rcases GoMap.mem_write _ _ _ _ hmem with h | h
    · exact he e h
    · rw [h]

theorem registerAll_rows (users : List User) :
    ∀ e ∈ (registerAll users).BalanceSheet, e.2 = [] :=
  (registerAll_invariant users NewExpenseManager consistent_new
    (fun e h => by simp [NewExpenseManager] at h)).2

theorem registerAll_consistent (users : List User) : Consistent (registerAll users) :=
  (registerAll_invariant users NewExpenseManager consistent_new
    (fun e h => by simp [NewExpenseManager] at h)).1

theorem rowSum_write (row : GoMap ℚ) (k : String) (v : ℚ) :
    rowSum (GoMap.write row k v) = rowSum row - (GoMap.read row k).getD 0 + v := by
  induction row with
  | nil => simp [rowSum, GoMap.write, GoMap.read]
  | cons e row ih =>
    obtain ⟨k0, v0⟩ := e
    unfold rowSum at ih ⊢
    by_cases h : k0 = k
    · simp only [GoMap.write, GoMap.read, h, if_true, List.map_cons, List.sum_cons,
        Option.getD_some]
      ring
    · simp only [GoMap.write, GoMap.read, h, if_false, List.map_cons, List.sum_cons, ih]
      ring

theorem grandSum_write (sheet : GoMap (GoMap ℚ)) (a : String) (row row1 : GoMap ℚ)
    (h : GoMap.read sheet a = some row) :
    grandSum (GoMap.write sheet a row1) = grandSum sheet - rowSum row + rowSum row1 := by
  induction sheet with
  | nil => simp [GoMap.read] at h
  | cons e sheet ih =>
    obtain ⟨k0, r0⟩ := e
    unfold grandSum at ih ⊢
    by_cases hk : k0 = a
    · simp only [GoMap.read, hk, if_true, Option.some.injEq] at h
      subst h
      simp only [GoMap.write, hk, if_true, List.map_cons, List.sum_cons]
      ring
    · simp only [GoMap.read, hk, if_false] at h
      simp only [GoMap.write, hk, if_false, List.map_cons, List.sum_cons, ih h]
      ring

theorem grandSum_write_new (sheet : GoMap (GoMap ℚ)) (a : String) (row1 : GoMap ℚ)
    (h : GoMap.read sheet a = none) :
    grandSum (GoMap.write sheet a row1) = grandSum sheet + rowSum row1 := by
  induction sheet with
  | nil => simp [grandSum, GoMap.write]
  | cons e sheet ih =>
    obtain ⟨k0, r0⟩ := e
    unfold grandSum at ih ⊢
    by_cases hk : k0 = a
    · simp [GoMap.read, hk] at h
    · simp only [GoMap.read, hk, if_false] at h
      simp only [GoMap.write, hk, if_false, List.map_cons, List.sum_cons, ih h]
      ring

theorem grandSum_addToCell {sheet sheet1 : GoMap (GoMap ℚ)} {a b : String} {delta : ℚ}
    (h : addToCell sheet a b delta = some sheet1) :
    grandSum sheet1 = grandSum sheet + delta := by
  unfold addToCell at h
  cases hr : GoMap.read sheet a with
  | none => simp [hr] at h
  | some row =>
    simp only [hr, Option.some.injEq] at h
    subst h
    rw [grandSum_write sheet a row _ hr, rowSum_write]
    ring

/-- A completed run of the update loop leaves the sum of all cells as it was. -/
theorem updateBalances_grandSum (heap : Heap) (paidBy : Option User) (splits : List Addr) :
    ∀ sheet sheet1 : GoMap (GoMap ℚ),
      updateBalances heap paidBy splits sheet = (sheet1, Status.done) →
      grandSum sheet1 = grandSum sheet := by
  induction splits with
  | nil =>
    intro sheet sheet1 h
    simp only [updateBalances, Prod.mk.injEq] at h
    rw [← h.1]
  | cons a rest ih =>
    intro sheet sheet1 h
    unfold updateBalances at h
    cases hp : paidBy with
    | none => simp [hp] at h
    | some p =>
      cases hu : (heap a).GetUser with
      | none => simp [hp, hu] at h
      | some r =>
        cases h1 : addToCell sheet p.ID r.ID (-(heap a).GetAmount) with
        | none => simp [hp, hu, h1] at h
        | some s1 =>
          cases h2 : addToCell s1 r.ID p.ID (heap a).GetAmount with
          | none => simp [hp, hu, h1, h2] at h
          | some s2 =>
            simp only [hp, hu, h1, h2] at h
            rw [← hp] at h
            rw [ih s2 sheet1 h, grandSum_addToCell h2, grandSum_addToCell h1]
            ring

theorem grandSum_of_rows_empty (sheet : GoMap (GoMap ℚ)) (h : ∀ e ∈ sheet, e.2 = []) :
    grandSum sheet = 0 := by
  unfold grandSum
  apply List.sum_eq_zero
  intro x hx
  obtain ⟨e, he, rfl⟩ := List.mem_map.mp hx
  rw [h e he]
  rfl

theorem registerAll_grandSum (users : List User) :
    grandSum (registerAll users).BalanceSheet = 0 :=
  grandSum_of_rows_empty _ (registerAll_rows users)

theorem firstRegistration_of_isAddExpense (calls : List Call) :
    ∀ w : Outcome, calls.all Call.isAddExpense = true →
      holdsAlong Call.firstRegistration w calls = true := by
  induction calls with
  | nil => intro w _; rfl
  | cons c calls ih =>
    intro w h
    simp only [List.all_cons, Bool.and_eq_true] at h
    simp only [holdsAlong, Bool.and_eq_true]
    refine ⟨?_, ih _ h.2⟩
    cases c with
    | AddUser user => simp [Call.isAddExpense] at h
    | AddExpense expenseType amount paidBy splits metadata => rfl

theorem AddExpense_grandSum {em : ExpenseManager} {heap : Heap} (hc : Consistent em)
    (expenseType : String) (amount : ℚ) (paidBy : String) (splits : List Addr)
    (metadata : Option ExpenseMetadata) (hreg : registered em heap paidBy splits = true) :
    grandSum (AddExpense em heap expenseType amount paidBy splits metadata).em.BalanceSheet =
      grandSum em.BalanceSheet := by
  obtain ⟨-, -, -, h⟩ := AddExpense_registered hc expenseType amount paidBy splits metadata hreg
  rcases h with ⟨-, hout⟩ | ⟨e, -, -, hu, -⟩
  · rw [hout]
  · exact updateBalances_grandSum _ _ _ _ _ hu

theorem AddUser_grandSum {em : ExpenseManager} (hc : Consistent em) (user : User)
    (hfirst : GoMap.has em.UserMap user.ID = false) :
    grandSum (AddUser em user).BalanceSheet = grandSum em.BalanceSheet := by
  have hrow : GoMap.has em.BalanceSheet user.ID = false := by rw [hc.keys]; exact hfirst
  have hnone : GoMap.read em.BalanceSheet user.ID = none := by
    unfold GoMap.has at hrow
    cases hr : GoMap.read em.BalanceSheet user.ID with
    | none => rfl
    | some row => simp [hr] at hrow
  simp only [AddUser]
  rw [grandSum_write_new _ _ _ hnone]
  simp [rowSum]

theorem AddExpense_heap (em : ExpenseManager) (heap : Heap) (expenseType : String)
    (amount : ℚ) (paidBy : String) (splits : List Addr) (metadata : Option ExpenseMetadata) :
    (AddExpense em heap expenseType amount paidBy splits metadata).heap =
      (CreateExpense heap expenseType amount (GoMap.read em.UserMap paidBy) splits
        metadata).1 := by
  unfold AddExpense
  cases hc : CreateExpense heap expenseType amount (GoMap.read em.UserMap paidBy) splits
    metadata with
  | mk heap1 oe =>
    cases oe with
    | none => rfl
    | some e =>
      simp only
      cases hu : updateBalances heap1 e.GetPaidBy e.GetSplits em.BalanceSheet with
      | mk sheet st => cases st <;> rfl

theorem AddExpense_userMap (em : ExpenseManager) (heap : Heap) (expenseType : String)
    (amount : ℚ) (paidBy : String) (splits : List Addr) (metadata : Option ExpenseMetadata) :
    (AddExpense em heap expenseType amount paidBy splits metadata).em.UserMap = em.UserMap := by
  unfold AddExpense
  cases hc : CreateExpense heap expenseType amount (GoMap.read em.UserMap paidBy) splits
    metadata with
  | mk heap1 oe =>
    cases oe with
    | none => rfl
    | some e =>
      simp only
      cases hu : updateBalances heap1 e.GetPaidBy e.GetSplits em.BalanceSheet with
      | mk sheet st => cases st <;> rfl

theorem registered_congr {em em1 : ExpenseManager} {heap heap1 : Heap}
    (hum : em1.UserMap = em.UserMap) (hu : ∀ a, (heap1 a).GetUser = (heap a).GetUser)
    (paidBy : String) (splits : List Addr) :
    registered em1 heap1 paidBy splits = registered em heap paidBy splits := by
  unfold registered
  rw [hum]
  simp only [hu]

/-- In a sequence of expenses the registrations do not change, so it is enough
to check payers and participants against the manager the sequence starts from. -/
theorem holdsAlong_of_registeredIn (calls : List Call) :
    ∀ w : Outcome, calls.all Call.isAddExpense = true →
      calls.all (Call.registeredIn w.em w.heap) = true →
      holdsAlong Call.participantsRegistered w calls = true := by
  induction calls with
  | nil => intro w _ _; rfl
  | cons c calls ih =>
    intro w hexp hin
    simp only [List.all_cons, Bool.and_eq_true] at hexp hin
    simp only [holdsAlong, Bool.and_eq_true]
    cases c with
    | AddUser user => simp [Call.isAddExpense] at hexp
    | AddExpense expenseType amount paidBy splits metadata =>
      refine ⟨hin.1, ih _ hexp.2 ?_⟩
      by_cases hst : w.status = Status.done
      · rw [step_addExpense hst]
        rw [List.all_eq_true] at hin ⊢
        intro c hc
        have h := hin.2 c hc
        cases c with
        | AddUser user => rfl
        | AddExpense t2 a2 p2 s2 m2 =>
          simp only [Call.registeredIn] at h ⊢
          rw [registered_congr (AddExpense_userMap _ _ _ _ _ _ _) _ p2 s2]
          · exact h
          · intro a
            rw [AddExpense_heap, CreateExpense_getUser]
      · rw [step_stopped hst]
        exact hin.2

/-- C8: on a manager whose participants were registered before any expense,
after every sequence of AddExpense calls with registered payer and split
participants, the sum of all BalanceSheet cells over all rows and columns is
exactly 0. -/
theorem conservation (users : List User) (heap : Heap) (calls : List Call)
    (hexp : calls.all Call.isAddExpense = true)
    (hreg : holdsAlong Call.participantsRegistered (afterRegistration users heap) calls = true) :
    grandSum (run (afterRegistration users heap) calls).em.BalanceSheet = 0 := by
  apply run_preserves (fun w => grandSum w.em.BalanceSheet = 0) ?_ ?_ calls
    (afterRegistration users heap) (registerAll_consistent users) (registerAll_grandSum users)
    hreg (firstRegistration_of_isAddExpense calls _ hexp)
  · intro w user hc hP hf
    show grandSum (AddUser w.em user).BalanceSheet = 0
    rw [AddUser_grandSum hc user hf]
    exact hP
  · intro w expenseType amount paidBy splits metadata hc hP hr
    show grandSum (AddExpense w.em w.heap expenseType amount paidBy splits
      metadata).em.BalanceSheet = 0
    rw [AddExpense_grandSum hc _ _ _ _ _ hr]
    exact hP

theorem mainCalls_registeredIn :
    mainCalls.all (Call.registeredIn (afterRegistration [alice, bob, charlie] sampleHeap).em
      (afterRegistration [alice, bob, charlie] sampleHeap).heap) = true := by
  simp [mainCalls, Call.registeredIn, registered, GoMap.has, afterRegistration, registerAll,
    AddUser, NewExpenseManager, GoMap.write, GoMap.read, alice, bob, charlie, NewUser,
    sampleHeap, Split.GetUser]

theorem mainCalls_registered :
    holdsAlong Call.participantsRegistered
      (afterRegistration [alice, bob, charlie] sampleHeap) mainCalls = true :=
  holdsAlong_of_registeredIn mainCalls _ (by decide) mainCalls_registeredIn

/-- Instance of `conservation`: the Dinner, Cruise and Breakfast expenses of `main`. -/
theorem conservation_witness :
    mainCalls.all Call.isAddExpense = true ∧
      holdsAlong Call.participantsRegistered
        (afterRegistration [alice, bob, charlie] sampleHeap) mainCalls = true ∧
      grandSum (run (afterRegistration [alice, bob, charlie] sampleHeap)
        mainCalls).em.BalanceSheet = 0 :=
  ⟨by decide, mainCalls_registered,
    conservation [alice, bob, charlie] sampleHeap mainCalls (by decide) mainCalls_registered⟩

/-! ## C9: replay of the recorded expenses -/

theorem CreateExpense_frame (heap : Heap) (expenseType : String) (amount : ℚ)
    (paidBy : Option User) (splits : List Addr) (metadata : Option ExpenseMetadata) (b : Addr)
    (hb : b ∉ splits) :
    (CreateExpense heap expenseType amount paidBy splits metadata).1 b = heap b := by
  by_cases h1 : expenseType = "EQUAL"
  · subst h1
    rw [CreateExpense_equal]
    simp only
    rw [setAmounts_apply, if_neg hb]
  by_cases h2 : expenseType = "EXACT"
  · subst h2
    rw [CreateExpense_exact]
    split_ifs <;> rfl
  by_cases h3 : expenseType = "PERCENT"
  · subst h3
    rw [CreateExpense_percent]
    simp only
    rw [setPercentAmounts_apply, if_neg hb]
  rw [CreateExpense_other _ _ _ _ _ _ h1 h2 h3]

theorem updateBalances_congr {heap heap1 : Heap} (paidBy : Option User) (splits : List Addr)
    (h : ∀ a ∈ splits, heap1 a = heap a) :
    ∀ sheet, updateBalances heap1 paidBy splits sheet = updateBalances heap paidBy splits sheet := by
  induction splits with
  | nil => intro sheet; rfl
  | cons a rest ih =>
    intro sheet
    have ha := h a (List.mem_cons_self a rest)
    have hrest := ih (fun b hb => h b (List.mem_cons_of_mem a hb))
    simp only [updateBalances, ha, hrest]

theorem replay_congr {heap heap1 : Heap} (es : List Expense)
    (h : ∀ e ∈ es, ∀ a ∈ e.GetSplits, heap1 a = heap a) :
    ∀ sheet, replay heap1 es sheet = replay heap es sheet := by
  induction es with
  | nil => intro sheet; rfl
  | cons e es ih =>
    intro sheet
    have he := updateBalances_congr e.GetPaidBy e.GetSplits (h e (List.mem_cons_self e es)) sheet
    have hes := ih (fun e1 h1 => h e1 (List.mem_cons_of_mem e h1))
    simp only [replay, he, hes]

theorem replay_append (heap : Heap) (e : Expense) (es : List Expense) :
    ∀ sheet sheet1 sheet2 : GoMap (GoMap ℚ), replay heap es sheet = (sheet1, Status.done) →
      updateBalances heap e.GetPaidBy e.GetSplits sheet1 = (sheet2, Status.done) →
      replay heap (es ++ [e]) sheet = (sheet2, Status.done) := by
  induction es with
  | nil =>
    intro sheet sheet1 sheet2 h1 h2
    simp only [replay, Prod.mk.injEq, and_true] at h1
    subst h1
    simp only [List.nil_append, replay, h2]
  | cons e0 es ih =>
    intro sheet sheet1 sheet2 h1 h2
    simp only [List.cons_append, replay] at h1 ⊢
    cases hu : updateBalances heap e0.GetPaidBy e0.GetSplits sheet with
    | mk s0 st =>
      rw [hu] at h1
      cases st with
      | done =>
        simp only at h1 ⊢
        exact ih s0 sheet1 sheet2 h1 h2
      | nilDereference => simp at h1
      | nilMapWrite => simp at h1

theorem AddExpense_replay {em : ExpenseManager} {heap : Heap} (hc : Consistent em)
    (sheet0 : GoMap (GoMap ℚ))
    (hrep : replay heap em.Expenses sheet0 = (em.BalanceSheet, Status.done))
    (expenseType : String) (amount : ℚ) (paidBy : String) (splits : List Addr)
    (metadata : Option ExpenseMetadata) (hreg : registered em heap paidBy splits = true)
    (hnew : ∀ e ∈ em.Expenses, ∀ b ∈ e.GetSplits, b ∉ splits) :
    replay (AddExpense em heap expenseType amount paidBy splits metadata).heap
        (AddExpense em heap expenseType amount paidBy splits metadata).em.Expenses sheet0 =
      ((AddExpense em heap expenseType amount paidBy splits metadata).em.BalanceSheet,
        Status.done) := by
  obtain ⟨hheap, -, -, h⟩ := AddExpense_registered hc expenseType amount paidBy splits metadata hreg
  rcases h with ⟨-, hout⟩ | ⟨e, -, hexp, hu, -⟩
  · rw [hout]
    exact hrep
  · rw [hexp, hheap]
    refine replay_append _ e em.Expenses sheet0 em.BalanceSheet _ ?_ hu
    rw [replay_congr em.Expenses
      (fun e1 h1 b hb => CreateExpense_frame heap expenseType amount _ splits metadata b
        (hnew e1 h1 b hb))]
    exact hrep

theorem run_replay (sheet0 : GoMap (GoMap ℚ)) (calls : List Call) :
    ∀ w : Outcome, Consistent w.em →
      replay w.heap w.em.Expenses sheet0 = (w.em.BalanceSheet, Status.done) →
      calls.all Call.isAddExpense = true →
      holdsAlong Call.participantsRegistered w calls = true →
      holdsAlong Call.splitsNotRecorded w calls = true →
      replay (run w calls).heap (run w calls).em.Expenses sheet0 =
        ((run w calls).em.BalanceSheet, Status.done) := by
  induction calls with
  | nil => intro w _ hrep _ _ _; exact hrep
  | cons c calls ih =>
    intro w hc hrep hexp hreg hnew
    simp only [List.all_cons, Bool.and_eq_true] at hexp
    simp only [holdsAlong, Bool.and_eq_true] at hreg hnew
    rw [run_cons]
    refine ih (step w c) (step_consistent hc c hreg.1) ?_ hexp.2 hreg.2 hnew.2
    by_cases hst : w.status = Status.done
    · cases c with
      | AddUser user => simp [Call.isAddExpense] at hexp
      | AddExpense expenseType amount paidBy splits metadata =>
        rw [step_addExpense hst]
        have hr := hreg.1
        simp only [Call.participantsRegistered] at hr
        have hn := hnew.1
        simp only [Call.splitsNotRecorded, List.all_eq_true, Bool.not_eq_true'] at hn
        refine AddExpense_replay hc sheet0 hrep _ _ _ _ _ hr ?_
        intro e he b hb hbs
        have h1 := hn b hbs e he
        have h2 : e.GetSplits.contains b = true := List.elem_eq_true_of_mem hb
        rw [h2] at h1
        exact Bool.noConfusion h1
    · rw [step_stopped hst]
      exact hrep

/-- C9, as stated, fails: Alice and Bob are registered before any expense, and
two expenses of 90 and 30 paid by Alice are added with the same `EqualSplit`
object for Bob. The second call overwrites the amount of that object, which
the first recorded expense still points to, so replaying the two recorded
expenses from empty rows gives -60 and 60 where the ledger has -120 and 120. -/
theorem replay_differs_with_shared_split :
    sharedSplitCalls.all Call.isAddExpense = true ∧
      holdsAlong Call.participantsRegistered
        (afterRegistration [alice, bob] sampleHeap) sharedSplitCalls = true ∧
      (run (afterRegistration [alice, bob] sampleHeap) sharedSplitCalls).em.BalanceSheet =
        [("1", [("2", -120)]), ("2", [("1", 120)])] ∧
      replay (run (afterRegistration [alice, bob] sampleHeap) sharedSplitCalls).heap
          (run (afterRegistration [alice, bob] sampleHeap) sharedSplitCalls).em.Expenses
          (registerAll [alice, bob]).BalanceSheet =
        ([("1", [("2", -60)]), ("2", [("1", 60)])], Status.done) ∧
      replay (run (afterRegistration [alice, bob] sampleHeap) sharedSplitCalls).heap
          (run (afterRegistration [alice, bob] sampleHeap) sharedSplitCalls).em.Expenses
          (registerAll [alice, bob]).BalanceSheet ≠
        ((run (afterRegistration [alice, bob] sampleHeap) sharedSplitCalls).em.BalanceSheet,
          Status.done) := by
  have hsheet :
      (run (afterRegistration [alice, bob] sampleHeap) sharedSplitCalls).em.BalanceSheet =
        [("1", [("2", -120)]), ("2", [("1", 120)])] := by
    simp [run, step, afterRegistration, registerAll, sharedSplitCalls, AddExpense,
      CreateExpense, AddUser, NewExpenseManager, GoMap.write, GoMap.read, alice, bob, NewUser,
      setAmounts, Heap.store, sampleHeap, Split.SetAmount, updateBalances, Expense.GetPaidBy,
      Expense.GetSplits, Split.GetAmount, Split.GetUser, addToCell]
    norm_num
  have hreplay :
      replay (run (afterRegistration [alice, bob] sampleHeap) sharedSplitCalls).heap
          (run (afterRegistration [alice, bob] sampleHeap) sharedSplitCalls).em.Expenses
          (registerAll [alice, bob]).BalanceSheet =
        ([("1", [("2", -60)]), ("2", [("1", 60)])], Status.done) := by
    simp [replay, run, step, afterRegistration, registerAll, sharedSplitCalls, AddExpense,
      CreateExpense, AddUser, NewExpenseManager, GoMap.write, GoMap.read, alice, bob, NewUser,
      setAmounts, Heap.store, sampleHeap, Split.SetAmount, updateBalances, Expense.GetPaidBy,
      Expense.GetSplits, Split.GetAmount, Split.GetUser, addToCell]
    norm_num
  refine ⟨by decide, ?_, hsheet, hreplay, ?_⟩
  · apply holdsAlong_of_registeredIn _ _ (by decide)
    simp [sharedSplitCalls, Call.registeredIn, registered, GoMap.has, afterRegistration,
      registerAll, AddUser, NewExpenseManager, GoMap.write, GoMap.read, alice, bob, NewUser,
      sampleHeap, Split.GetUser]
  · rw [hreplay, hsheet]
    simp

theorem foldl_AddUser_expenses (users : List User) :
    ∀ em : ExpenseManager, (users.foldl AddUser em).Expenses = em.Expenses := by
  induction users with
  | nil => intro em; rfl
  | cons u rest ih =>
    intro em
    simp only [List.foldl_cons]
    rw [ih]
    rfl

theorem registerAll_expenses (users : List User) : (registerAll users).Expenses = [] :=
  foldl_AddUser_expenses users NewExpenseManager

theorem replay_afterRegistration (users : List User) (heap : Heap) :
    replay (afterRegistration users heap).heap (afterRegistration users heap).em.Expenses
        (registerAll users).BalanceSheet =
      ((afterRegistration users heap).em.BalanceSheet, Status.done) := by
  simp only [afterRegistration, registerAll_expenses, replay]

/-- C9 (amended): on a manager whose participants were registered before any
expense, after every sequence of AddExpense calls with registered payer and
split participants in which no call is passed a split object that a recorded
expense already holds, applying the per-split ledger update for every expense
in em.Expenses, in order, starting from the ledger with empty rows for the
registered participants, runs to its end and yields exactly the current
em.BalanceSheet. -/
theorem replay_reproduces_ledger (users : List User) (heap : Heap) (calls : List Call)
    (hexp : calls.all Call.isAddExpense = true)
    (hreg : holdsAlong Call.participantsRegistered (afterRegistration users heap) calls = true)
    (hnew : holdsAlong Call.splitsNotRecorded (afterRegistration users heap) calls = true) :
    replay (run (afterRegistration users heap) calls).heap
        (run (afterRegistration users heap) calls).em.Expenses
        (registerAll users).BalanceSheet =
      ((run (afterRegistration users heap) calls).em.BalanceSheet, Status.done) :=
  run_replay (registerAll users).BalanceSheet calls (afterRegistration users heap)
    (registerAll_consistent users) (replay_afterRegistration users heap) hexp hreg hnew

theorem mainCalls_splitsNotRecorded :
    holdsAlong Call.splitsNotRecorded
      (afterRegistration [alice, bob, charlie] sampleHeap) mainCalls = true := by
  have e : (150 : ℚ) = 50 + 50 + 50 := by norm_num
  simp [holdsAlong, Call.splitsNotRecorded, step, afterRegistration, registerAll, mainCalls,
    AddExpense, CreateExpense, AddUser, NewExpenseManager, GoMap.write, GoMap.read, alice, bob,
    charlie, NewUser, setAmounts, setPercentAmounts, sumExactAmount, Heap.store, sampleHeap,
    Split.SetAmount, updateBalances, Expense.GetPaidBy, Expense.GetSplits, Split.GetAmount,
    Split.GetUser, addToCell, ← e]

/-- Instance of `replay_reproduces_ledger`: the Dinner, Cruise and Breakfast
expenses of `main`, each with split objects of its own. -/
theorem replay_reproduces_ledger_witness :
    mainCalls.all Call.isAddExpense = true ∧
      holdsAlong Call.participantsRegistered
        (afterRegistration [alice, bob, charlie] sampleHeap) mainCalls = true ∧
      holdsAlong Call.splitsNotRecorded
        (afterRegistration [alice, bob, charlie] sampleHeap) mainCalls = true ∧
      replay (run (afterRegistration [alice, bob, charlie] sampleHeap) mainCalls).heap
          (run (afterRegistration [alice, bob, charlie] sampleHeap) mainCalls).em.Expenses
          (registerAll [alice, bob, charlie]).BalanceSheet =
        ((run (afterRegistration [alice, bob, charlie] sampleHeap) mainCalls).em.BalanceSheet,
          Status.done) :=
  ⟨by decide, mainCalls_registered, mainCalls_splitsNotRecorded,
    replay_reproduces_ledger [alice, bob, charlie] sampleHeap mainCalls (by decide)
      mainCalls_registered mainCalls_splitsNotRecorded⟩

/-! ## C10: degenerate input -/

theorem AddExpense_expenses {em : ExpenseManager} {heap : Heap} {expenseType : String}
    {amount : ℚ} {paidBy : String} {splits : List Addr} {metadata : Option ExpenseMetadata}
    {e : Expense}
    (h : (CreateExpense heap expenseType amount (GoMap.read em.UserMap paidBy) splits
      metadata).2 = some e) :
    (AddExpense em heap expenseType amount paidBy splits metadata).em.Expenses =
      em.Expenses ++ [e] := by
  unfold AddExpense
  cases hc : CreateExpense heap expenseType amount (GoMap.read em.UserMap paidBy) splits
    metadata with
  | mk heap1 oe =>
    rw [hc] at h
    simp only at h
    subst h
    simp only
    cases hu : updateBalances heap1 e.GetPaidBy e.GetSplits em.BalanceSheet with
    | mk sheet st => cases st <;> rfl

theorem CreateExpense_none_heap {heap : Heap} {expenseType : String} {amount : ℚ}
    {paidBy : Option User} {splits : List Addr} {metadata : Option ExpenseMetadata}
    (h : (CreateExpense heap expenseType amount paidBy splits metadata).2 = none) :
    (CreateExpense heap expenseType amount paidBy splits metadata).1 = heap := by
  by_cases h1 : expenseType = "EQUAL"
  · subst h1; rw [CreateExpense_equal] at h; simp at h
  by_cases h2 : expenseType = "EXACT"
  · subst h2
    rw [CreateExpense_exact] at h ⊢
    split_ifs at h ⊢
    rfl
  by_cases h3 : expenseType = "PERCENT"
  · subst h3; rw [CreateExpense_percent] at h; simp at h
  rw [CreateExpense_other _ _ _ _ _ _ h1 h2 h3]

/-- C10, as stated, fails: on the manager with Alice, Bob and Charlie
registered, an EQUAL expense with no splits, an EQUAL expense of total 0 with
no splits and an EXACT expense of total 0 with no splits are each appended to
Expenses, and an EQUAL expense of total -90 over three splits is appended and
written to the ledger. -/
theorem degenerate_input_is_recorded :
    threeUsers.Expenses = [] ∧
      (AddExpense threeUsers sampleHeap "EQUAL" 90 "1" [] (some { Name := "Dinner" })).em.Expenses =
        [.EqualExpense 90 (some alice) [] (some { Name := "Dinner" })] ∧
      (AddExpense threeUsers sampleHeap "EQUAL" 0 "1" [] (some { Name := "Dinner" })).em.Expenses =
        [.EqualExpense 0 (some alice) [] (some { Name := "Dinner" })] ∧
      (AddExpense threeUsers sampleHeap "EXACT" 0 "1" [] (some { Name := "Dinner" })).em.Expenses =
        [.ExactExpense 0 (some alice) [] (some { Name := "Dinner" })] ∧
      (AddExpense threeUsers sampleHeap "EQUAL" (-90) "1" [0, 1, 2]
          (some { Name := "Dinner" })).em.Expenses =
        [.EqualExpense (-90) (some alice) [0, 1, 2] (some { Name := "Dinner" })] ∧
      threeUsers.BalanceSheet = [("1", []), ("2", []), ("3", [])] ∧
      (AddExpense threeUsers sampleHeap "EQUAL" (-90) "1" [0, 1, 2]
          (some { Name := "Dinner" })).em.BalanceSheet =
        [("1", [("1", 0), ("2", 30), ("3", 30)]), ("2", [("1", -30)]), ("3", [("1", -30)])] := by
  have hum : GoMap.read threeUsers.UserMap "1" = some alice := by
    simp [threeUsers, AddUser, NewExpenseManager, GoMap.write, GoMap.read, alice, bob, charlie,
      NewUser]
  refine ⟨rfl, ?_, ?_, ?_, ?_, ?_, ?_⟩
  · exact @AddExpense_expenses threeUsers sampleHeap "EQUAL" 90 "1" [] _ _
      (by rw [CreateExpense_equal, hum])
  · exact @AddExpense_expenses threeUsers sampleHeap "EQUAL" 0 "1" [] _ _
      (by rw [CreateExpense_equal, hum])
  · exact @AddExpense_expenses threeUsers sampleHeap "EXACT" 0 "1" [] _ _
      (by rw [CreateExpense_exact, hum]; simp [sumExactAmount])
  · exact @AddExpense_expenses threeUsers sampleHeap "EQUAL" (-90) "1" [0, 1, 2] _ _
      (by rw [CreateExpense_equal, hum])
  · simp [threeUsers, AddUser, NewExpenseManager, GoMap.write, alice, bob, charlie, NewUser]
  · simp [threeUsers, AddExpense, CreateExpense, AddUser,
      NewExpenseManager, GoMap.write, GoMap.read, alice, bob, charlie, NewUser, setAmounts,
      Heap.store, sampleHeap, Split.SetAmount, updateBalances, Expense.GetPaidBy,
      Expense.GetSplits, Split.GetAmount, Split.GetUser, addToCell]
    norm_num

/-- C10 (amended): `AddExpense` has no check for degenerate input as such. In
every state, a call with an empty list of splits leaves BalanceSheet
unchanged, whatever its type; an EXACT call with an empty list of splits and a
total other than 0 is rejected with no effect, and so is every call whose type
is none of EQUAL, EXACT and PERCENT; but every EQUAL call over a list of
`EqualSplit` values appends its `EqualExpense` to Expenses, whatever the total
and the length of the list, the empty list and the totals that are zero or
negative included. -/
theorem equal_call_accepts_degenerate_input (em : ExpenseManager) (heap : Heap)
    (expenseType : String) (amount : ℚ) (paidBy : String) (splits : List Addr)
    (metadata : Option ExpenseMetadata) :
    (AddExpense em heap expenseType amount paidBy [] metadata).em.BalanceSheet =
        em.BalanceSheet ∧
      (amount ≠ 0 →
        AddExpense em heap "EXACT" amount paidBy [] metadata =
          { em := em, heap := heap, status := .done }) ∧
      (expenseType ≠ "EQUAL" → expenseType ≠ "EXACT" → expenseType ≠ "PERCENT" →
        AddExpense em heap expenseType amount paidBy splits metadata =
          { em := em, heap := heap, status := .done }) ∧
      ((∀ a ∈ splits, (heap a).isEqualSplit = true) →
        (AddExpense em heap "EQUAL" amount paidBy splits metadata).em.Expenses =
          em.Expenses ++
            [.EqualExpense amount (GoMap.read em.UserMap paidBy) splits metadata]) := by
  refine ⟨?_, ?_, ?_, ?_⟩
  · cases h : (CreateExpense heap expenseType amount (GoMap.read em.UserMap paidBy) []
      metadata).2 with
    | none => rw [AddExpense_rejected h]
    | some e =>
      have hs := (CreateExpense_some h).2.1
      have hu : updateBalances (CreateExpense heap expenseType amount
          (GoMap.read em.UserMap paidBy) [] metadata).1 e.GetPaidBy e.GetSplits
          em.BalanceSheet = (em.BalanceSheet, Status.done) := by
        rw [hs]
        rfl
      rw [AddExpense_accepted h hu]
  · intro hne
    have h : (CreateExpense heap "EXACT" amount (GoMap.read em.UserMap paidBy) []
        metadata).2 = none := by
      rw [CreateExpense_exact]
      have h0 : sumExactAmount heap [] = 0 := rfl
      rw [h0, if_neg hne]
    rw [AddExpense_rejected h, CreateExpense_none_heap h]
  · intro h1 h2 h3
    have h : (CreateExpense heap expenseType amount (GoMap.read em.UserMap paidBy) splits
        metadata).2 = none := by
      rw [CreateExpense_other _ _ _ _ _ _ h1 h2 h3]
    rw [AddExpense_rejected h, CreateExpense_none_heap h]
  · intro _
    exact AddExpense_expenses (by rw [CreateExpense_equal])

/-- Instance of `equal_call_accepts_degenerate_input` on the manager of `main`
after the three registrations: an EXACT call of total 90 with no splits and a
call of the unknown type "SHARE" are rejected with no effect, and an EQUAL
call of total -90 over the three `EqualSplit` values of `main` is appended. -/
theorem equal_call_accepts_degenerate_input_witness :
    (90 : ℚ) ≠ 0 ∧
      AddExpense threeUsers sampleHeap "EXACT" 90 "1" [] (some { Name := "Dinner" }) =
        { em := threeUsers, heap := sampleHeap, status := .done } ∧
      "SHARE" ≠ "EQUAL" ∧ "SHARE" ≠ "EXACT" ∧ "SHARE" ≠ "PERCENT" ∧
      AddExpense threeUsers sampleHeap "SHARE" 90 "1" [0, 1, 2] (some { Name := "Dinner" }) =
        { em := threeUsers, heap := sampleHeap, status := .done } ∧
      (∀ a ∈ [0, 1, 2], (sampleHeap a).isEqualSplit = true) ∧
      (AddExpense threeUsers sampleHeap "EQUAL" (-90) "1" [0, 1, 2]
          (some { Name := "Dinner" })).em.Expenses =
        threeUsers.Expenses ++
          [.EqualExpense (-90) (GoMap.read threeUsers.UserMap "1") [0, 1, 2]
            (some { Name := "Dinner" })] :=
  ⟨by norm_num,
    (equal_call_accepts_degenerate_input threeUsers sampleHeap "EXACT" 90 "1" []
      (some { Name := "Dinner" })).2.1 (by norm_num),
    by decide, by decide, by decide,
    (equal_call_accepts_degenerate_input threeUsers sampleHeap "SHARE" 90 "1" [0, 1, 2]
      (some { Name := "Dinner" })).2.2.1 (by decide) (by decide) (by decide),
    by decide,
    (equal_call_accepts_degenerate_input threeUsers sampleHeap "EQUAL" (-90) "1" [0, 1, 2]
      (some { Name := "Dinner" })).2.2.2 (by decide)⟩

/-! ## General form of `AddExpense` -/

theorem updateBalances_nil_payer (heap : Heap) (splits : List Addr) (sheet : GoMap (GoMap ℚ)) :
    (updateBalances heap none splits sheet).1 = sheet := by
  cases splits <;> rfl

/-- The manager after `AddExpense`, in every state and for every call: as
before when `CreateExpense` returns nil, and otherwise with the expense
appended and the ledger as the update loop left it. -/
theorem AddExpense_em (em : ExpenseManager) (heap : Heap) (expenseType : String)
    (amount : ℚ) (paidBy : String) (splits : List Addr) (metadata : Option ExpenseMetadata) :
    (AddExpense em heap expenseType amount paidBy splits metadata).em =
      match (CreateExpense heap expenseType amount (GoMap.read em.UserMap paidBy) splits
        metadata).2 with
      | none => em
      | some e =>
        { em with
          Expenses := em.Expenses ++ [e]
          BalanceSheet :=
            (updateBalances (CreateExpense heap expenseType amount
              (GoMap.read em.UserMap paidBy) splits metadata).1 e.GetPaidBy e.GetSplits
              em.BalanceSheet).1 } := by
  unfold AddExpense
  cases hc : CreateExpense heap expenseType amount (GoMap.read em.UserMap paidBy) splits
    metadata with
  | mk heap1 oe =>
    cases oe with
    | none => rfl
    | some e =>
      simp only
      cases hu : updateBalances heap1 e.GetPaidBy e.GetSplits em.BalanceSheet with
      | mk sheet st => cases st <;> rfl

/-- How `AddExpense` ends, in every state and for every call. -/
theorem AddExpense_status (em : ExpenseManager) (heap : Heap) (expenseType : String)
    (amount : ℚ) (paidBy : String) (splits : List Addr) (metadata : Option ExpenseMetadata) :
    (AddExpense em heap expenseType amount paidBy splits metadata).status =
      match (CreateExpense heap expenseType amount (GoMap.read em.UserMap paidBy) splits
        metadata).2 with
      | none => Status.done
      | some e =>
        match (updateBalances (CreateExpense heap expenseType amount
            (GoMap.read em.UserMap paidBy) splits metadata).1 e.GetPaidBy e.GetSplits
            em.BalanceSheet).2 with
        | .done => if metadata.isSome then Status.done else Status.nilDereference
        | stopped => stopped := by
  unfold AddExpense
  cases hc : CreateExpense heap expenseType amount (GoMap.read em.UserMap paidBy) splits
    metadata with
  | mk heap1 oe =>
    cases oe with
    | none => rfl
    | some e =>
      simp only
      cases hu : updateBalances heap1 e.GetPaidBy e.GetSplits em.BalanceSheet with
      | mk sheet st => cases st <;> cases metadata <;> rfl

/-! ## C11: unknown payer -/

theorem threeUsers_userMap :
    threeUsers.UserMap = [("1", alice), ("2", bob), ("3", charlie)] := by
  simp [threeUsers, AddUser, NewExpenseManager, GoMap.write, alice, bob, charlie, NewUser]

theorem threeUsers_unknown : GoMap.read threeUsers.UserMap "9" = none := by
  rw [threeUsers_userMap]
  simp [GoMap.read]

/-- C11, as stated, fails: "9" is not a key of UserMap, and the EQUAL expense
of 90 paid by "9" is appended to Expenses with a nil payer, both with an empty
list of splits (the call completes) and with the three splits of `main` (the
call then stops at the dereference of the nil payer, with the expense already
appended). -/
theorem unknown_payer_is_recorded :
    GoMap.read threeUsers.UserMap "9" = none ∧
      threeUsers.Expenses = [] ∧
      unknownPayerNoSplits.em.Expenses =
        [.EqualExpense 90 none [] (some { Name := "Dinner" })] ∧
      unknownPayerNoSplits.status = Status.done ∧
      unknownPayerDinner.em.Expenses =
        [.EqualExpense 90 none [0, 1, 2] (some { Name := "Dinner" })] ∧
      unknownPayerDinner.status = Status.nilDereference := by
  refine ⟨threeUsers_unknown, rfl, ?_, ?_, ?_, ?_⟩
  · unfold unknownPayerNoSplits
    rw [AddExpense_em, threeUsers_unknown, CreateExpense_equal]
    rfl
  · unfold unknownPayerNoSplits
    rw [AddExpense_status, threeUsers_unknown, CreateExpense_equal]
    rfl
  · unfold unknownPayerDinner
    rw [AddExpense_em, threeUsers_unknown, CreateExpense_equal]
    rfl
  · unfold unknownPayerDinner
    rw [AddExpense_status, threeUsers_unknown, CreateExpense_equal]
    rfl

/-- C11 (amended): in every manager state, an AddExpense call whose payer id
is not a key of UserMap changes no BalanceSheet cell and leaves UserMap as it
was, for every expense type, amount and list of splits (the empty list
included). It is not refused for that reason: when `CreateExpense` returns nil
Expenses is unchanged, and when it returns an expense, that expense, with a
nil payer, is appended to Expenses. -/
theorem unknown_payer_ledger_unchanged (em : ExpenseManager) (heap : Heap)
    (expenseType : String) (amount : ℚ) (paidBy : String) (splits : List Addr)
    (metadata : Option ExpenseMetadata) (hunknown : GoMap.read em.UserMap paidBy = none) :
    (AddExpense em heap expenseType amount paidBy splits metadata).em.BalanceSheet =
        em.BalanceSheet ∧
      (AddExpense em heap expenseType amount paidBy splits metadata).em.UserMap = em.UserMap ∧
      ((CreateExpense heap expenseType amount none splits metadata).2 = none →
        (AddExpense em heap expenseType amount paidBy splits metadata).em.Expenses =
          em.Expenses) ∧
      (∀ e, (CreateExpense heap expenseType amount none splits metadata).2 = some e →
        e.GetPaidBy = none ∧
          (AddExpense em heap expenseType amount paidBy splits metadata).em.Expenses =
            em.Expenses ++ [e]) := by
  rw [AddExpense_em, hunknown]
  cases hc : (CreateExpense heap expenseType amount none splits metadata).2 with
  | none => exact ⟨rfl, rfl, fun _ => rfl, fun e he => by simp at he⟩
  | some e =>
    have hp := (CreateExpense_some hc).1
    refine ⟨?_, rfl, fun h => by simp at h, ?_⟩
    · simp only [hp]
      exact updateBalances_nil_payer _ _ _
    · intro e1 he1
      simp only [Option.some.injEq] at he1
      subst he1
      exact ⟨hp, rfl⟩

/-- Instance of `unknown_payer_ledger_unchanged`: the `Dinner` expense of
`main` with the unregistered payer id "9". -/
theorem unknown_payer_ledger_unchanged_witness :
    GoMap.read threeUsers.UserMap "9" = none ∧
      (AddExpense threeUsers sampleHeap "EQUAL" 90 "9" [0, 1, 2]
        (some { Name := "Dinner" })).em.BalanceSheet = threeUsers.BalanceSheet ∧
      (AddExpense threeUsers sampleHeap "EQUAL" 90 "9" [0, 1, 2]
        (some { Name := "Dinner" })).em.UserMap = threeUsers.UserMap ∧
      ((CreateExpense sampleHeap "EQUAL" 90 none [0, 1, 2] (some { Name := "Dinner" })).2 = none →
        (AddExpense threeUsers sampleHeap "EQUAL" 90 "9" [0, 1, 2]
          (some { Name := "Dinner" })).em.Expenses = threeUsers.Expenses) ∧
      (∀ e, (CreateExpense sampleHeap "EQUAL" 90 none [0, 1, 2]
          (some { Name := "Dinner" })).2 = some e →
        e.GetPaidBy = none ∧
          (AddExpense threeUsers sampleHeap "EQUAL" 90 "9" [0, 1, 2]
            (some { Name := "Dinner" })).em.Expenses = threeUsers.Expenses ++ [e]) :=
  ⟨threeUsers_unknown,
    unknown_payer_ledger_unchanged threeUsers sampleHeap "EQUAL" 90 "9" [0, 1, 2]
      (some { Name := "Dinner" }) threeUsers_unknown⟩

/-! ## C12: the overall summary -/

/-- Cells that are zero or whose key is already in `printed` print nothing. -/
theorem summaryLoop_skip (em : ExpenseManager) (cells : List (String × String × ℚ)) :
    ∀ (printed : List String) (isEmpty : Bool),
      (∀ c ∈ cells, c.2.2 = 0 ∨ (c.1 ++ c.2.1) ∈ printed) →
      summaryLoop em cells printed isEmpty = some ([], isEmpty) := by
  induction cells with
  | nil => intro printed isEmpty _; rfl
  | cons c rest ih =>
    intro printed isEmpty h
    obtain ⟨user, otherUser, amount⟩ := c
    have hc := h (user, otherUser, amount) (List.mem_cons_self _ _)
    have hskip : ¬ (amount ≠ 0 ∧ (user ++ otherUser) ∉ printed) := by
      rintro ⟨h1, h2⟩
      rcases hc with h0 | hp
      · exact h1 h0
      · exact h2 hp
    simp only [summaryLoop, if_neg hskip]
    exact ih printed isEmpty (fun c hc => h c (List.mem_cons_of_mem _ hc))

theorem collisionManager_sheet :
    collisionManager.BalanceSheet =
      [("1", [("1111", -10)]), ("11", [("111", -20)]), ("111", [("11", 20)]),
        ("1111", [("1", 10)])] := by
  simp [collisionManager, run, step, start, collisionCalls, AddExpense, CreateExpense, AddUser,
    NewExpenseManager, GoMap.write, GoMap.read, ann, ben, cleo, dan, NewUser, setAmounts,
    Heap.store, collisionHeap, Split.SetAmount, updateBalances, Expense.GetPaidBy,
    Expense.GetSplits, Split.GetAmount, Split.GetUser, addToCell]

theorem collisionManager_userMap :
    collisionManager.UserMap = [("1", ann), ("11", ben), ("111", cleo), ("1111", dan)] := by
  simp [collisionManager, run, step, start, collisionCalls, AddExpense, CreateExpense, AddUser,
    NewExpenseManager, GoMap.write, GoMap.read, ann, ben, cleo, dan, NewUser, setAmounts,
    Heap.store, collisionHeap, Split.SetAmount, updateBalances, Expense.GetPaidBy,
    Expense.GetSplits, Split.GetAmount, Split.GetUser, addToCell]

theorem collisionManager_cells :
    visitOrder collisionManager.BalanceSheet =
      [("1", "1111", -10), ("11", "111", -20), ("111", "11", 20), ("1111", "1", 10)] := by
  rw [collisionManager_sheet]
  rfl

theorem collisionManager_cell_facts :
    ∀ c ∈ visitOrder collisionManager.BalanceSheet,
      c.1 ++ c.2.1 = "11111" ∧ c.2.2 ≠ 0 ∧
        ∃ line, PrintBalance collisionManager c.1 c.2.1 c.2.2 = some [line] := by
  intro c hc
  rw [collisionManager_cells] at hc
  simp only [List.mem_cons, List.mem_singleton, List.not_mem_nil, or_false] at hc
  unfold PrintBalance
  rw [collisionManager_userMap]
  rcases hc with h | h | h | h <;> subst h <;>
    refine ⟨by decide, by norm_num, ?_⟩ <;>
    simp [GoMap.read, ann, ben, cleo, dan, NewUser]
  all_goals norm_num

/-- C12 on the code: with the ids "1", "11", "111", "1111", after 10 paid by
"1" for "1111" and 20 paid by "11" for "111", the pairs {"1", "1111"} and
{"11", "111"} both have a non-zero balance, and all four cells have the same
`printed` key "11111". In the stored order `ShowBalances` prints the line for
{"1", "1111"} only, and in every visiting order `ShowBalances` and
`PrintEventSummary` print exactly one balance line: one of the two pairs is
never reported. -/
theorem summary_with_colliding_keys_reports_one_pair :
    holdsAlong Call.participantsRegistered (start collisionHeap) collisionCalls = true ∧
      holdsAlong Call.firstRegistration (start collisionHeap) collisionCalls = true ∧
      cell collisionManager.BalanceSheet "1" "1111" = -10 ∧
      cell collisionManager.BalanceSheet "11" "111" = -20 ∧
      ShowBalances collisionManager (visitOrder collisionManager.BalanceSheet) =
        some [.overallHeader, .owes { debtor := "Ann", creditor := "Dan", amount := 10 }] ∧
      ∀ visit : List (String × String × ℚ),
        visit.Perm (visitOrder collisionManager.BalanceSheet) →
        ∃ line,
          ShowBalances collisionManager visit = some [.overallHeader, .owes line] ∧
            PrintEventSummary collisionManager "Lunch" visit =
              some [.eventHeader "Lunch", .owes line] := by
  have hall : ∀ visit : List (String × String × ℚ),
      visit.Perm (visitOrder collisionManager.BalanceSheet) →
      ∃ c rest line, visit = c :: rest ∧
        PrintBalance collisionManager c.1 c.2.1 c.2.2 = some [line] ∧
        summaryLoop collisionManager visit [] true = some ([line], false) := by
    intro visit hperm
    cases visit with
    | nil =>
      have hlen := hperm.length_eq
      rw [collisionManager_cells] at hlen
      simp at hlen
    | cons c rest =>
      obtain ⟨user, otherUser, amount⟩ := c
      have hmem : ∀ d ∈ (user, otherUser, amount) :: rest,
          d ∈ visitOrder collisionManager.BalanceSheet := fun d hd => hperm.mem_iff.mp hd
      obtain ⟨hkey, hne, line, hline⟩ :=
        collisionManager_cell_facts _ (hmem _ (List.mem_cons_self _ _))
      simp only at hkey hne hline
      refine ⟨(user, otherUser, amount), rest, line, rfl, hline, ?_⟩
      have hrest := summaryLoop_skip collisionManager rest
        [otherUser ++ user, user ++ otherUser] false
        (fun d hd => Or.inr (by
          rw [(collisionManager_cell_facts d (hmem d (List.mem_cons_of_mem _ hd))).1, hkey]
          simp))
      have hcond : amount ≠ 0 ∧ (user ++ otherUser) ∉ ([] : List String) :=
        ⟨hne, List.not_mem_nil _⟩
      simp only [summaryLoop, if_pos hcond, hline, hrest, List.append_nil]
  refine ⟨?_, ?_, ?_, ?_, ?_, ?_⟩
  · simp [holdsAlong, Call.participantsRegistered, registered, GoMap.has, step, start,
      collisionCalls, AddExpense, CreateExpense, AddUser, NewExpenseManager, GoMap.write,
      GoMap.read, ann, ben, cleo, dan, NewUser, setAmounts, Heap.store, collisionHeap,
      Split.SetAmount, updateBalances, Expense.GetPaidBy, Expense.GetSplits, Split.GetAmount,
      Split.GetUser, addToCell]
  · simp [holdsAlong, Call.firstRegistration, GoMap.has, step, start,
      collisionCalls, AddExpense, CreateExpense, AddUser, NewExpenseManager, GoMap.write,
      GoMap.read, ann, ben, cleo, dan, NewUser, setAmounts, Heap.store, collisionHeap,
      Split.SetAmount, updateBalances, Expense.GetPaidBy, Expense.GetSplits, Split.GetAmount,
      Split.GetUser, addToCell]
  · rw [collisionManager_sheet]
    simp [cell, GoMap.read]
  · rw [collisionManager_sheet]
    simp [cell, GoMap.read]
  · obtain ⟨c, rest, line, hv, hline, hloop⟩ := hall _ (List.Perm.refl _)
    rw [collisionManager_cells] at hv
    simp only [List.cons.injEq] at hv
    obtain ⟨hc, -⟩ := hv
    subst hc
    have hl : line = { debtor := "Ann", creditor := "Dan", amount := 10 } := by
      unfold PrintBalance at hline
      rw [collisionManager_userMap] at hline
      simp [GoMap.read, ann, dan, NewUser] at hline
      exact hline.symm
    subst hl
    simp only [ShowBalances, hloop]
    rfl
  · intro visit hperm
    obtain ⟨c, rest, line, -, -, hloop⟩ := hall visit hperm
    refine ⟨line, ?_, ?_⟩
    · simp only [ShowBalances, hloop]
      rfl
    · simp only [PrintEventSummary, hloop]
      rfl

/-! ## The update loop in every state -/

theorem updateBalances_cons (heap : Heap) (p : User) (a : Addr) (rest : List Addr)
    (sheet : GoMap (GoMap ℚ)) :
    updateBalances heap (some p) (a :: rest) sheet =
      match (heap a).GetUser with
      | none => (sheet, Status.nilDereference)
      | some r =>
        match addToCell sheet p.ID r.ID (-(heap a).GetAmount) with
        | none => (sheet, Status.nilMapWrite)
        | some sheet1 =>
          match addToCell sheet1 r.ID p.ID (heap a).GetAmount with
          | none => (sheet1, Status.nilMapWrite)
          | some sheet2 => updateBalances heap (some p) rest sheet2 := by
  simp only [updateBalances]

/-- The update loop never adds or removes a row, however it ends. -/
theorem updateBalances_has (heap : Heap) (paidBy : Option User) (splits : List Addr) :
    ∀ (sheet : GoMap (GoMap ℚ)) (k : String),
      GoMap.has (updateBalances heap paidBy splits sheet).1 k = GoMap.has sheet k := by
  cases paidBy with
  | none => intro sheet k; rw [updateBalances_nil_payer]
  | some p =>
    induction splits with
    | nil => intro sheet k; rfl
    | cons a rest ih =>
      intro sheet k
      rw [updateBalances_cons]
      cases (heap a).GetUser with
      | none => rfl
      | some r =>
        simp only
        cases h1 : addToCell sheet p.ID r.ID (-(heap a).GetAmount) with
        | none => rfl
        | some s1 =>
          simp only
          cases h2 : addToCell s1 r.ID p.ID (heap a).GetAmount with
          | none => exact has_addToCell h1 k
          | some s2 =>
            simp only
            rw [ih, has_addToCell h2, has_addToCell h1]

/-- The update loop writes only cells in the row or the column of the payer,
however it ends. -/
theorem updateBalances_frame (heap : Heap) (p : User) (splits : List Addr) (x y : String)
    (hx : x ≠ p.ID) (hy : y ≠ p.ID) :
    ∀ sheet : GoMap (GoMap ℚ),
      cell (updateBalances heap (some p) splits sheet).1 x y = cell sheet x y := by
  induction splits with
  | nil => intro sheet; rfl
  | cons a rest ih =>
    intro sheet
    rw [updateBalances_cons]
    cases (heap a).GetUser with
    | none => rfl
    | some r =>
      simp only
      cases h1 : addToCell sheet p.ID r.ID (-(heap a).GetAmount) with
      | none => rfl
      | some s1 =>
        have e1 : cell s1 x y = cell sheet x y := by
          rw [cell_addToCell h1, if_neg (fun h => hx h.1), add_zero]
        simp only
        cases h2 : addToCell s1 r.ID p.ID (heap a).GetAmount with
        | none => exact e1
        | some s2 =>
          simp only
          rw [ih, cell_addToCell h2, if_neg (fun h => hy h.2), add_zero, e1]

theorem has_of_addToCell {sheet sheet1 : GoMap (GoMap ℚ)} {a b : String} {delta : ℚ}
    (h : addToCell sheet a b delta = some sheet1) : GoMap.has sheet a = true := by
  unfold addToCell at h
  unfold GoMap.has
  cases hr : GoMap.read sheet a with
  | none => simp [hr] at h
  | some row => rfl

theorem addToCell_closed {sheet sheet1 : GoMap (GoMap ℚ)} {a b : String} {delta : ℚ}
    (h : addToCell sheet a b delta = some sheet1) (hb : GoMap.has sheet b = true)
    (hc : SheetClosed sheet) : SheetClosed sheet1 := by
  have hk := has_addToCell h
  unfold addToCell at h
  cases hr : GoMap.read sheet a with
  | none => simp [hr] at h
  | some row =>
    simp only [hr, Option.some.injEq] at h
    intro userRow hmem entry hentry
    rw [hk]
    rw [← h] at hmem
    rcases GoMap.mem_write _ _ _ _ hmem with hold | hnew
    · exact hc userRow hold entry hentry
    · rw [hnew] at hentry
      rcases GoMap.mem_write _ _ _ _ hentry with hold | hnew2
      · exact hc (a, row) (GoMap.read_mem _ _ _ hr) entry hold
      · rw [hnew2]
        exact hb

/-- A completed update loop keeps the ledger closed. -/
theorem updateBalances_closed (heap : Heap) (paidBy : Option User) (splits : List Addr) :
    ∀ sheet sheet1 : GoMap (GoMap ℚ),
      updateBalances heap paidBy splits sheet = (sheet1, Status.done) →
      SheetClosed sheet → SheetClosed sheet1 := by
  cases paidBy with
  | none =>
    intro sheet sheet1 h hc
    have := updateBalances_nil_payer heap splits sheet
    rw [h] at this
    simp only at this
    rw [this]
    exact hc
  | some p =>
    induction splits with
    | nil =>
      intro sheet sheet1 h hc
      simp only [updateBalances, Prod.mk.injEq, and_true] at h
      rw [← h]
      exact hc
    | cons a rest ih =>
      intro sheet sheet1 h hc
      rw [updateBalances_cons] at h
      cases hu : (heap a).GetUser with
      | none => simp [hu] at h
      | some r =>
        simp only [hu] at h
        cases h1 : addToCell sheet p.ID r.ID (-(heap a).GetAmount) with
        | none => simp [h1] at h
        | some s1 =>
          simp only [h1] at h
          cases h2 : addToCell s1 r.ID p.ID (heap a).GetAmount with
          | none => simp [h2] at h
          | some s2 =>
            simp only [h2] at h
            have hr : GoMap.has sheet r.ID = true := by
              rw [← has_addToCell h1]
              exact has_of_addToCell h2
            have hp1 : GoMap.has s1 p.ID = true := by
              rw [has_addToCell h1]
              exact has_of_addToCell h1
            exact ih s2 sheet1 h (addToCell_closed h2 hp1 (addToCell_closed h1 hr hc))

/-! ## Every reachable state -/

theorem AddExpense_sheet_has (em : ExpenseManager) (heap : Heap) (expenseType : String)
    (amount : ℚ) (paidBy : String) (splits : List Addr) (metadata : Option ExpenseMetadata)
    (k : String) :
    GoMap.has (AddExpense em heap expenseType amount paidBy splits metadata).em.BalanceSheet k =
      GoMap.has em.BalanceSheet k := by
  rw [AddExpense_em]
  cases (CreateExpense heap expenseType amount (GoMap.read em.UserMap paidBy) splits
    metadata).2 with
  | none => rfl
  | some e => exact updateBalances_has _ _ _ _ _

theorem AddExpense_consistent_any {em : ExpenseManager} (hc : Consistent em) (heap : Heap)
    (expenseType : String) (amount : ℚ) (paidBy : String) (splits : List Addr)
    (metadata : Option ExpenseMetadata) :
    Consistent (AddExpense em heap expenseType amount paidBy splits metadata).em := by
  constructor
  · intro k
    rw [AddExpense_sheet_has, AddExpense_userMap]
    exact hc.keys k
  · intro k u h
    rw [AddExpense_userMap] at h
    exact hc.ids k u h

/-- Induction over the calls of a run, whatever the calls are: a property kept
by `AddUser` and by `AddExpense` in a running program holds at the end. -/
theorem run_induction (P : Outcome → Prop)
    (hUser : ∀ (w : Outcome) (user : User), w.status = Status.done → Consistent w.em → P w →
      P { w with em := AddUser w.em user })
    (hExpense : ∀ (w : Outcome) (expenseType : String) (amount : ℚ) (paidBy : String)
      (splits : List Addr) (metadata : Option ExpenseMetadata), w.status = Status.done →
      Consistent w.em → P w →
      P (AddExpense w.em w.heap expenseType amount paidBy splits metadata))
    (calls : List Call) :
    ∀ w : Outcome, Consistent w.em → P w → Consistent (run w calls).em ∧ P (run w calls) := by
  induction calls with
  | nil => intro w hc hP; exact ⟨hc, hP⟩
  | cons c calls ih =>
    intro w hc hP
    rw [run_cons]
    by_cases hst : w.status = Status.done
    · cases c with
      | AddUser user =>
        rw [step_addUser hst]
        exact ih _ (AddUser_consistent hc user) (hUser w user hst hc hP)
      | AddExpense expenseType amount paidBy splits metadata =>
        rw [step_addExpense hst]
        exact ih _ (AddExpense_consistent_any hc _ _ _ _ _ _)
          (hExpense w _ _ _ _ _ hst hc hP)
    · rw [step_stopped hst]
      exact ih w hc hP

/-- In every reachable state users and ledger rows go together. -/
theorem run_consistent (heap : Heap) (calls : List Call) :
    Consistent (run (start heap) calls).em :=
  (run_induction (fun _ => True) (fun _ _ _ _ _ => trivial) (fun _ _ _ _ _ _ _ _ _ => trivial)
    calls (start heap) consistent_new trivial).1

theorem sheetClosed_AddUser {em : ExpenseManager} (hc : SheetClosed em.BalanceSheet)
    (user : User) : SheetClosed (AddUser em user).BalanceSheet := by
  intro userRow hmem entry hentry
  simp only [AddUser] at hmem ⊢
  rw [GoMap.has_write]
  rcases GoMap.mem_write _ _ _ _ hmem with hold | hnew
  · rw [hc userRow hold entry hentry, Bool.or_true]
  · rw [hnew] at hentry
    simp at hentry

/-- In every reachable state of a program that has not stopped, every key of
every ledger row has a row of its own. -/
theorem run_closed (heap : Heap) (calls : List Call)
    (hdone : (run (start heap) calls).status = Status.done) :
    SheetClosed (run (start heap) calls).em.BalanceSheet := by
  refine (run_induction (fun w => w.status = Status.done → SheetClosed w.em.BalanceSheet)
    ?_ ?_ calls (start heap) consistent_new ?_).2 hdone
  · intro w user hst _ hP _
    exact sheetClosed_AddUser (hP hst) user
  · intro w expenseType amount paidBy splits metadata hst _ hP hout
    have hcl := hP hst
    rw [AddExpense_status] at hout
    rw [AddExpense_em]
    cases hc : (CreateExpense w.heap expenseType amount (GoMap.read w.em.UserMap paidBy) splits
      metadata).2 with
    | none => exact hcl
    | some e =>
      simp only [hc] at hout ⊢
      cases hu : updateBalances (CreateExpense w.heap expenseType amount
          (GoMap.read w.em.UserMap paidBy) splits metadata).1 e.GetPaidBy e.GetSplits
          w.em.BalanceSheet with
      | mk sheet st =>
        rw [hu] at hout
        cases st with
        | done => exact updateBalances_closed _ _ _ _ _ hu hcl
        | nilDereference => simp at hout
        | nilMapWrite => simp at hout
  · intro _ userRow hmem
    simp [start, NewExpenseManager] at hmem

/-! ## C13: the report for one participant -/

theorem GoMap.keys_write {V : Type} (m : GoMap V) (k : String) (v : V) :
    (GoMap.write m k v).map Prod.fst =
      if k ∈ m.map Prod.fst then m.map Prod.fst else m.map Prod.fst ++ [k] := by
  induction m with
  | nil => simp [GoMap.write]
  | cons e m ih =>
    obtain ⟨k0, v0⟩ := e
    by_cases h : k0 = k
    · subst h
      simp [GoMap.write]
    · have h2 : ¬ k = k0 := fun e => h e.symm
      simp only [GoMap.write, h, if_false, List.map_cons, ih, List.mem_cons, h2, false_or]
      split_ifs <;> simp

theorem GoMap.nodup_write {V : Type} (m : GoMap V) (k : String) (v : V)
    (h : (m.map Prod.fst).Nodup) : ((GoMap.write m k v).map Prod.fst).Nodup := by
  rw [GoMap.keys_write]
  split_ifs with hk
  · exact h
  · exact List.Nodup.append h (List.nodup_singleton k) (by simpa using hk)

theorem keysUnique_write {sheet : GoMap (GoMap ℚ)} (h : KeysUnique sheet) (a : String)
    (row : GoMap ℚ) (hrow : (row.map Prod.fst).Nodup) : KeysUnique (GoMap.write sheet a row) := by
  refine ⟨GoMap.nodup_write _ _ _ h.1, ?_⟩
  intro userRow hmem
  rcases GoMap.mem_write _ _ _ _ hmem with hold | hnew
  · exact h.2 userRow hold
  · rw [hnew]; exact hrow

theorem addToCell_keysUnique {sheet sheet1 : GoMap (GoMap ℚ)} {a b : String} {delta : ℚ}
    (h : addToCell sheet a b delta = some sheet1) (hu : KeysUnique sheet) :
    KeysUnique sheet1 := by
  unfold addToCell at h
  cases hr : GoMap.read sheet a with
  | none => simp [hr] at h
  | some row =>
    simp only [hr, Option.some.injEq] at h
    rw [← h]
    exact keysUnique_write hu a _
      (GoMap.nodup_write _ _ _ (hu.2 (a, row) (GoMap.read_mem _ _ _ hr)))

/-- The update loop keeps the keys unique, however it ends. -/
theorem updateBalances_keysUnique (heap : Heap) (paidBy : Option User) (splits : List Addr) :
    ∀ sheet : GoMap (GoMap ℚ), KeysUnique sheet →
      KeysUnique (updateBalances heap paidBy splits sheet).1 := by
  cases paidBy with
  | none => intro sheet h; rw [updateBalances_nil_payer]; exact h
  | some p =>
    induction splits with
    | nil => intro sheet h; exact h
    | cons a rest ih =>
      intro sheet h
      rw [updateBalances_cons]
      cases (heap a).GetUser with
      | none => exact h
      | some r =>
        simp only
        cases h1 : addToCell sheet p.ID r.ID (-(heap a).GetAmount) with
        | none => exact h
        | some s1 =>
          simp only
          cases h2 : addToCell s1 r.ID p.ID (heap a).GetAmount with
          | none => exact addToCell_keysUnique h1 h
          | some s2 => exact ih s2 (addToCell_keysUnique h2 (addToCell_keysUnique h1 h))

/-- In every reachable state the ledger is a map: no key occurs twice. -/
theorem run_keysUnique (heap : Heap) (calls : List Call) :
    KeysUnique (run (start heap) calls).em.BalanceSheet := by
  refine (run_induction (fun w => KeysUnique w.em.BalanceSheet) ?_ ?_ calls (start heap)
    consistent_new ?_).2
  · intro w user _ _ hP
    exact keysUnique_write hP user.ID [] List.nodup_nil
  · intro w expenseType amount paidBy splits metadata _ _ hP
    rw [AddExpense_em]
    cases (CreateExpense w.heap expenseType amount (GoMap.read w.em.UserMap paidBy) splits
      metadata).2 with
    | none => exact hP
    | some e => exact updateBalances_keysUnique _ _ _ _ hP
  · exact ⟨List.nodup_nil, fun userRow hmem => by simp [start, NewExpenseManager] at hmem⟩

theorem PrintBalance_of_registered {em : ExpenseManager} {user1 user2 : String} {amount : ℚ}
    (h1 : GoMap.has em.UserMap user1 = true) (h2 : GoMap.has em.UserMap user2 = true)
    (hne : amount ≠ 0) :
    PrintBalance em user1 user2 amount = some [counterpartLine em user1 (user2, amount)] := by
  unfold GoMap.has at h1 h2
  unfold PrintBalance counterpartLine nameOf
  cases hr1 : GoMap.read em.UserMap user1 with
  | none => simp [hr1] at h1
  | some u1 =>
    cases hr2 : GoMap.read em.UserMap user2 with
    | none => simp [hr2] at h2
    | some u2 =>
      simp only [Option.map_some', Option.getD_some]
      by_cases hneg : amount < 0
      · simp only [if_pos hneg]
      · have hpos : amount > 0 := lt_of_le_of_ne (not_lt.mp hneg) (Ne.symm hne)
        simp only [if_neg hneg, if_pos hpos]

/-- The loop of `ShowBalance` when the user and the keys of the row are
registered: one line for every non-zero entry, and the flag stays up exactly
when there is none. -/
theorem showBalanceLoop_of_registered {em : ExpenseManager} {userId : String}
    (hreg : GoMap.has em.UserMap userId = true) (visit : List (String × ℚ)) :
    ∀ isEmpty : Bool, (∀ entry ∈ visit, GoMap.has em.UserMap entry.1 = true) →
      showBalanceLoop em userId visit isEmpty =
        some ((visit.filter (fun entry => decide (entry.2 ≠ 0))).map (counterpartLine em userId),
          isEmpty && visit.all (fun entry => decide (entry.2 = 0))) := by
  induction visit with
  | nil => intro isEmpty _; simp [showBalanceLoop]
  | cons entry rest ih =>
    intro isEmpty h
    obtain ⟨user, amount⟩ := entry
    have hrest : ∀ entry ∈ rest, GoMap.has em.UserMap entry.1 = true :=
      fun entry he => h entry (List.mem_cons_of_mem _ he)
    by_cases hz : amount = 0
    · simp [showBalanceLoop, hz, ih isEmpty hrest]
    · have hu := h (user, amount) (List.mem_cons_self _ _)
      simp [showBalanceLoop, hz, PrintBalance_of_registered hreg hu hz, ih false hrest]

theorem rowOf_mem {sheet : GoMap (GoMap ℚ)} {userId : String} {entry : String × ℚ}
    (h : entry ∈ rowOf sheet userId) : ∃ row, (userId, row) ∈ sheet ∧ entry ∈ row := by
  unfold rowOf at h
  cases hr : GoMap.read sheet userId with
  | none => simp [hr] at h
  | some row =>
    simp only [hr, Option.getD_some] at h
    exact ⟨row, GoMap.read_mem _ _ _ hr, h⟩

theorem rowOf_nodup {sheet : GoMap (GoMap ℚ)} (hu : KeysUnique sheet) (userId : String) :
    ((rowOf sheet userId).map Prod.fst).Nodup := by
  unfold rowOf
  cases hr : GoMap.read sheet userId with
  | none => simp
  | some row => exact hu.2 _ (GoMap.read_mem _ _ _ hr)

/-- C13 (amended), amounts taken as exact rationals: in every state reached
from NewExpenseManager by AddUser and AddExpense calls of a program that has
not stopped, for every registered id and every order in which the entries of
the id's row are visited,
ShowBalance(id) prints exactly one line for every entry of the row with a
non-zero amount, the line naming the two users in the direction given by the
sign of the amount, with its magnitude; it prints nothing for a zero entry; no
counterpart occurs twice in the row; and it prints "No balances" if and only
if no entry of the row is non-zero. -/
theorem showBalance_reports_row (heap : Heap) (calls : List Call)
    (hdone : (run (start heap) calls).status = Status.done) (userId : String)
    (hreg : GoMap.has (run (start heap) calls).em.UserMap userId = true)
    (visit : List (String × ℚ))
    (hvisit : visit.Perm (rowOf (run (start heap) calls).em.BalanceSheet userId)) :
    (visit.map Prod.fst).Nodup ∧
      ShowBalance (run (start heap) calls).em userId visit =
        some (((visit.filter (fun entry => decide (entry.2 ≠ 0))).map
            (fun entry => Printed.owes
              (counterpartLine (run (start heap) calls).em userId entry))) ++
          if visit.all (fun entry => decide (entry.2 = 0)) then [Printed.noBalances] else []) := by
  have hcons := run_consistent heap calls
  have hclosed := run_closed heap calls hdone
  have hmem : ∀ entry ∈ visit,
      GoMap.has (run (start heap) calls).em.UserMap entry.1 = true := by
    intro entry he
    obtain ⟨row, hrow, hin⟩ := rowOf_mem (hvisit.mem_iff.mp he)
    rw [← hcons.keys]
    exact hclosed _ hrow entry hin
  constructor
  · exact (hvisit.map Prod.fst).nodup_iff.mpr (rowOf_nodup (run_keysUnique heap calls) userId)
  · unfold ShowBalance
    rw [showBalanceLoop_of_registered hreg visit true hmem]
    simp only [Bool.true_and, List.map_map]
    rfl

theorem dinnerCalls_sheet :
    (run (start sampleHeap) dinnerCalls).em.BalanceSheet =
      [("1", [("1", 0), ("2", -30), ("3", -30)]), ("2", [("1", 30)]), ("3", [("1", 30)])] := by
  simp [run, step, start, dinnerCalls, AddExpense, CreateExpense, AddUser,
    NewExpenseManager, GoMap.write, GoMap.read, alice, bob, charlie, NewUser, setAmounts,
    Heap.store, sampleHeap, Split.SetAmount, updateBalances, Expense.GetPaidBy,
    Expense.GetSplits, Split.GetAmount, Split.GetUser, addToCell]
  norm_num

theorem dinnerCalls_userMap :
    (run (start sampleHeap) dinnerCalls).em.UserMap =
      [("1", alice), ("2", bob), ("3", charlie)] := by
  simp [run, step, start, dinnerCalls, AddExpense, CreateExpense, AddUser,
    NewExpenseManager, GoMap.write, GoMap.read, alice, bob, charlie, NewUser, setAmounts,
    Heap.store, sampleHeap, Split.SetAmount, updateBalances, Expense.GetPaidBy,
    Expense.GetSplits, Split.GetAmount, Split.GetUser, addToCell]

theorem dinnerCalls_status : (run (start sampleHeap) dinnerCalls).status = Status.done := by
  simp [run, step, start, dinnerCalls, AddExpense, CreateExpense, AddUser,
    NewExpenseManager, GoMap.write, GoMap.read, alice, bob, charlie, NewUser, setAmounts,
    Heap.store, sampleHeap, Split.SetAmount, updateBalances, Expense.GetPaidBy,
    Expense.GetSplits, Split.GetAmount, Split.GetUser, addToCell]

theorem dinnerCalls_registered_bob :
    GoMap.has (run (start sampleHeap) dinnerCalls).em.UserMap "2" = true := by
  rw [dinnerCalls_userMap]
  simp [GoMap.has, GoMap.read]

theorem dinnerCalls_row_bob :
    rowOf (run (start sampleHeap) dinnerCalls).em.BalanceSheet "2" = [("1", 30)] := by
  rw [dinnerCalls_sheet]
  simp [rowOf, GoMap.read]

/-- Instance of `showBalance_reports_row`: the row of Bob after the `Dinner`
expense of `main`. -/
theorem showBalance_reports_row_witness :
    (run (start sampleHeap) dinnerCalls).status = Status.done ∧
      GoMap.has (run (start sampleHeap) dinnerCalls).em.UserMap "2" = true ∧
      List.Perm [("1", (30 : ℚ))]
        (rowOf (run (start sampleHeap) dinnerCalls).em.BalanceSheet "2") ∧
      (([("1", (30 : ℚ))] : List (String × ℚ)).map Prod.fst).Nodup ∧
      ShowBalance (run (start sampleHeap) dinnerCalls).em "2" [("1", 30)] =
        some ((([("1", (30 : ℚ))] : List (String × ℚ)).filter
              (fun entry => decide (entry.2 ≠ 0))).map
            (fun entry => Printed.owes
              (counterpartLine (run (start sampleHeap) dinnerCalls).em "2" entry)) ++
          if ([("1", (30 : ℚ))] : List (String × ℚ)).all (fun entry => decide (entry.2 = 0))
          then [Printed.noBalances] else []) :=
  have hperm : List.Perm [("1", (30 : ℚ))]
      (rowOf (run (start sampleHeap) dinnerCalls).em.BalanceSheet "2") := by
    rw [dinnerCalls_row_bob]
  ⟨dinnerCalls_status, dinnerCalls_registered_bob, hperm,
    showBalance_reports_row sampleHeap dinnerCalls dinnerCalls_status "2"
      dinnerCalls_registered_bob [("1", 30)] hperm⟩

/-! ## C14: the row-sum identity -/

theorem rowOf_write (sheet : GoMap (GoMap ℚ)) (a : String) (row : GoMap ℚ) (x : String) :
    rowOf (GoMap.write sheet a row) x = if a = x then row else rowOf sheet x := by
  unfold rowOf
  rw [GoMap.read_write]
  by_cases h : a = x <;> simp [h]

theorem rowTotal_addToCell {sheet sheet1 : GoMap (GoMap ℚ)} {a b : String} {delta : ℚ}
    (h : addToCell sheet a b delta = some sheet1) (x : String) :
    rowTotal sheet1 x = rowTotal sheet x + if x = a then delta else 0 := by
  unfold addToCell at h
  cases hr : GoMap.read sheet a with
  | none => simp [hr] at h
  | some row =>
    simp only [hr, Option.some.injEq] at h
    subst h
    unfold rowTotal
    rw [rowOf_write]
    by_cases hx : a = x
    · subst hx
      rw [if_pos rfl, if_pos rfl, rowSum_write]
      simp only [rowOf, hr, Option.getD_some]
      ring
    · have hx2 : ¬ x = a := fun e => hx e.symm
      rw [if_neg hx, if_neg hx2, add_zero]

/-- A completed update loop adds to every row the contributions of the splits. -/
theorem updateBalances_rowTotal (heap : Heap) (p : User) (splits : List Addr) (x : String) :
    ∀ sheet sheet1 : GoMap (GoMap ℚ),
      updateBalances heap (some p) splits sheet = (sheet1, Status.done) →
      rowTotal sheet1 x =
        rowTotal sheet x + (splits.map (fun a => rowContribution heap p.ID a x)).sum := by
  induction splits with
  | nil =>
    intro sheet sheet1 h
    simp only [updateBalances, Prod.mk.injEq, and_true] at h
    rw [← h]
    simp
  | cons a rest ih =>
    intro sheet sheet1 h
    rw [updateBalances_cons] at h
    cases hu : (heap a).GetUser with
    | none => simp [hu] at h
    | some r =>
      simp only [hu] at h
      cases h1 : addToCell sheet p.ID r.ID (-(heap a).GetAmount) with
      | none => simp [h1] at h
      | some s1 =>
        simp only [h1] at h
        cases h2 : addToCell s1 r.ID p.ID (heap a).GetAmount with
        | none => simp [h2] at h
        | some s2 =>
          simp only [h2] at h
          rw [ih s2 sheet1 h, rowTotal_addToCell h2, rowTotal_addToCell h1]
          simp only [List.map_cons, List.sum_cons, rowContribution, hu]
          ring

theorem sum_rowContribution_payer (heap : Heap) (P : String) (splits : List Addr)
    (hu : ∀ a ∈ splits, ∃ r, (heap a).GetUser = some r) :
    (splits.map (fun a => rowContribution heap P a P)).sum =
      -((splits.filter (fun a => decide (participant heap a ≠ some P))).map
        (fun a => (heap a).GetAmount)).sum := by
  induction splits with
  | nil => simp
  | cons a rest ih =>
    obtain ⟨r, hr⟩ := hu a (List.mem_cons_self a rest)
    have ih1 := ih (fun b hb => hu b (List.mem_cons_of_mem a hb))
    have hpa : participant heap a = some r.ID := by simp [participant, hr]
    rw [List.map_cons, List.sum_cons, ih1, List.filter_cons, hpa]
    simp only [rowContribution, hr, if_true]
    by_cases hrP : r.ID = P
    · subst hrP
      simp
    · have hPr : ¬ P = r.ID := fun e => hrP e.symm
      have hd : decide (some r.ID ≠ some P) = true := by simpa using hrP
      rw [if_neg hPr, hd, if_pos rfl, List.map_cons, List.sum_cons]
      ring

theorem sum_rowContribution_other (heap : Heap) (P A : String) (hPA : P ≠ A)
    (splits : List Addr) (hu : ∀ a ∈ splits, ∃ r, (heap a).GetUser = some r) :
    (splits.map (fun a => rowContribution heap P a A)).sum =
      ((splits.filter (fun a => decide (participant heap a = some A))).map
        (fun a => (heap a).GetAmount)).sum := by
  have hAP : ¬ A = P := fun e => hPA e.symm
  induction splits with
  | nil => simp
  | cons a rest ih =>
    obtain ⟨r, hr⟩ := hu a (List.mem_cons_self a rest)
    have ih1 := ih (fun b hb => hu b (List.mem_cons_of_mem a hb))
    have hpa : participant heap a = some r.ID := by simp [participant, hr]
    rw [List.map_cons, List.sum_cons, ih1, List.filter_cons, hpa]
    simp only [rowContribution, hr, if_neg hAP, zero_add]
    by_cases hrA : r.ID = A
    · subst hrA
      simp
    · have hAr : ¬ A = r.ID := fun e => hrA e.symm
      have hd : decide (some r.ID = some A) = false := by simpa using hrA
      rw [if_neg hAr, hd, zero_add]
      simp

/-- The contributions of the splits of one expense to the row of `A`, in terms
of what `A` paid for others and what others paid for `A`. -/
theorem sum_rowContribution (heap : Heap) (p : User) (A : String) (splits : List Addr)
    (hu : ∀ a ∈ splits, ∃ r, (heap a).GetUser = some r) :
    (splits.map (fun a => rowContribution heap p.ID a A)).sum =
      -(paidForOthers heap A (some p) splits - paidByOthers heap A (some p) splits) := by
  unfold paidForOthers paidByOthers
  by_cases hp : p.ID = A
  · subst hp
    rw [sum_rowContribution_payer heap p.ID splits hu]
    simp
  · have hne : ¬ Option.map User.ID (some p) = some A := by simpa using hp
    rw [sum_rowContribution_other heap p.ID A hp splits hu, if_neg hne, if_neg hne]
    ring

theorem step_rowTotal {w : Outcome} (hc : Consistent w.em) (A : String) (c : Call)
    (hexp : c.isAddExpense = true) (hreg : c.participantsRegistered w = true) :
    rowTotal (step w c).em.BalanceSheet A =
      rowTotal w.em.BalanceSheet A -
        ((match c.recorded w with
          | some (heap1, e) => paidForOthers heap1 A e.GetPaidBy e.GetSplits
          | none => 0) -
        (match c.recorded w with
          | some (heap1, e) => paidByOthers heap1 A e.GetPaidBy e.GetSplits
          | none => 0)) := by
  cases c with
  | AddUser user => simp [Call.isAddExpense] at hexp
  | AddExpense expenseType amount paidBy splits metadata =>
    simp only [Call.participantsRegistered] at hreg
    by_cases hst : w.status = Status.done
    · rw [step_addExpense hst]
      obtain ⟨p, hp, hid, -⟩ := registered_payer hc hreg
      have hs := registered_splits hc hreg
      obtain ⟨-, -, -, h⟩ :=
        AddExpense_registered hc expenseType amount paidBy splits metadata hreg
      simp only [Call.recorded, hst]
      cases hC : CreateExpense w.heap expenseType amount (GoMap.read w.em.UserMap paidBy)
        splits metadata with
      | mk heap1 oe =>
        rw [hC] at h
        simp only at h
        rcases h with ⟨hnone, hout⟩ | ⟨e, hsome, -, hu, -⟩
        · subst hnone
          rw [hout]
          simp
        · subst hsome
          have hsome2 : (CreateExpense w.heap expenseType amount
              (GoMap.read w.em.UserMap paidBy) splits metadata).2 = some e := by rw [hC]
          obtain ⟨hpb, hsp, -⟩ := CreateExpense_some hsome2
          have hpb2 : e.GetPaidBy = some p := hpb.trans hp
          rw [hpb2, hsp] at hu
          have husers : ∀ a ∈ splits, ∃ r, (heap1 a).GetUser = some r := by
            intro a ha
            obtain ⟨r, hr, -⟩ := hs a ha
            have hg := CreateExpense_getUser w.heap expenseType amount
              (GoMap.read w.em.UserMap paidBy) splits metadata a
            rw [hC] at hg
            exact ⟨r, hg.trans hr⟩
          simp only
          rw [updateBalances_rowTotal heap1 p splits A _ _ hu,
            sum_rowContribution heap1 p A splits husers, hpb2, hsp]
          ring
    · rw [step_stopped hst]
      have hrec : (Call.AddExpense expenseType amount paidBy splits metadata).recorded w =
          none := by
        unfold Call.recorded
        cases hs : w.status with
        | done => exact absurd hs hst
        | nilDereference => rfl
        | nilMapWrite => rfl
      rw [hrec]
      simp

theorem run_rowTotal (A : String) (calls : List Call) :
    ∀ w : Outcome, Consistent w.em → calls.all Call.isAddExpense = true →
      holdsAlong Call.participantsRegistered w calls = true →
      rowTotal (run w calls).em.BalanceSheet A =
        rowTotal w.em.BalanceSheet A -
          (totalPaidForOthers A w calls - totalPaidByOthers A w calls) := by
  induction calls with
  | nil => intro w _ _ _; simp [run, totalPaidForOthers, totalPaidByOthers]
  | cons c calls ih =>
    intro w hc hexp hreg
    simp only [List.all_cons, Bool.and_eq_true] at hexp
    simp only [holdsAlong, Bool.and_eq_true] at hreg
    rw [run_cons, ih (step w c) (step_consistent hc c hreg.1) hexp.2 hreg.2,
      step_rowTotal hc A c hexp.1 hreg.1]
    simp only [totalPaidForOthers, totalPaidByOthers]
    ring

theorem registerAll_rowTotal (users : List User) (A : String) :
    rowTotal (registerAll users).BalanceSheet A = 0 := by
  unfold rowTotal rowOf
  cases hr : GoMap.read (registerAll users).BalanceSheet A with
  | none => rfl
  | some row =>
    have h := registerAll_rows users _ (GoMap.read_mem _ _ _ hr)
    simp only at h
    subst h
    rfl

/-- C14: on a manager whose participants were registered before any expense,
after every sequence of AddExpense calls with registered payer and split
participants, and for every id A, the sum over all i of BalanceSheet[A][i]
equals -(X - Y), where X is the total of the resolved amounts of the other
participants' splits in the recorded expenses paid by A and Y is the total of
the resolved amounts of A's splits in the recorded expenses paid by others,
each amount taken as the expense resolved it. -/
theorem row_sum_identity (users : List User) (heap : Heap) (calls : List Call)
    (hexp : calls.all Call.isAddExpense = true)
    (hreg : holdsAlong Call.participantsRegistered (afterRegistration users heap) calls = true)
    (A : String) :
    rowTotal (run (afterRegistration users heap) calls).em.BalanceSheet A =
      -(totalPaidForOthers A (afterRegistration users heap) calls -
        totalPaidByOthers A (afterRegistration users heap) calls) := by
  rw [run_rowTotal A calls (afterRegistration users heap) (registerAll_consistent users)
    hexp hreg]
  have h0 : rowTotal (afterRegistration users heap).em.BalanceSheet A = 0 :=
    registerAll_rowTotal users A
  rw [h0]
  ring

theorem mainCalls_paidForOthers_alice :
    totalPaidForOthers "1" (afterRegistration [alice, bob, charlie] sampleHeap) mainCalls =
      85 := by
  have e : (150 : ℚ) = 50 + 50 + 50 := by norm_num
  simp [totalPaidForOthers, Call.recorded, paidForOthers, participant, step, afterRegistration,
    registerAll, mainCalls, AddExpense, CreateExpense, AddUser, NewExpenseManager, GoMap.write,
    GoMap.read, alice, bob, charlie, NewUser, setAmounts, setPercentAmounts, sumExactAmount,
    Heap.store, sampleHeap, Split.SetAmount, updateBalances, Expense.GetPaidBy,
    Expense.GetSplits, Split.GetAmount, Split.GetUser, addToCell, List.filter_cons, ← e]
  norm_num

theorem mainCalls_paidByOthers_alice :
    totalPaidByOthers "1" (afterRegistration [alice, bob, charlie] sampleHeap) mainCalls =
      50 := by
  have e : (150 : ℚ) = 50 + 50 + 50 := by norm_num
  simp [totalPaidByOthers, Call.recorded, paidByOthers, participant, step, afterRegistration,
    registerAll, mainCalls, AddExpense, CreateExpense, AddUser, NewExpenseManager, GoMap.write,
    GoMap.read, alice, bob, charlie, NewUser, setAmounts, setPercentAmounts, sumExactAmount,
    Heap.store, sampleHeap, Split.SetAmount, updateBalances, Expense.GetPaidBy,
    Expense.GetSplits, Split.GetAmount, Split.GetUser, addToCell, List.filter_cons, ← e]

/-- Instance of `row_sum_identity`: the row of Alice after the Dinner, Cruise
and Breakfast expenses of `main`. Alice paid 60 and 25 for others, others paid
50 for her, and her row sums to -35. -/
theorem row_sum_identity_witness :
    mainCalls.all Call.isAddExpense = true ∧
      holdsAlong Call.participantsRegistered
        (afterRegistration [alice, bob, charlie] sampleHeap) mainCalls = true ∧
      totalPaidForOthers "1" (afterRegistration [alice, bob, charlie] sampleHeap) mainCalls =
        85 ∧
      totalPaidByOthers "1" (afterRegistration [alice, bob, charlie] sampleHeap) mainCalls =
        50 ∧
      rowTotal (run (afterRegistration [alice, bob, charlie] sampleHeap)
          mainCalls).em.BalanceSheet "1" = -(85 - 50) := by
  have h := row_sum_identity [alice, bob, charlie] sampleHeap mainCalls (by decide)
    mainCalls_registered "1"
  rw [mainCalls_paidForOthers_alice, mainCalls_paidByOthers_alice] at h
  exact ⟨by decide, mainCalls_registered, mainCalls_paidForOthers_alice,
    mainCalls_paidByOthers_alice, h⟩

/-! ## C15: cells between two participants who did not pay -/

theorem cruise_sheet :
    cruise.em.BalanceSheet =
      [("1", [("2", 50)]), ("2", [("1", -50), ("2", 0), ("3", -50)]), ("3", [("2", 50)])] := by
  have e : (150 : ℚ) = 50 + 50 + 50 := by norm_num
  simp [cruise, threeUsers, AddExpense, CreateExpense, AddUser,
    NewExpenseManager, GoMap.write, GoMap.read, alice, bob, charlie, NewUser, sumExactAmount,
    Heap.store, sampleHeap, Split.SetAmount, updateBalances, Expense.GetPaidBy,
    Expense.GetSplits, Split.GetAmount, Split.GetUser, addToCell, ← e]

/-- C15 on the code: `TestEqualExpense` asserts BalanceSheet[2][3] = 30 and
BalanceSheet[3][2] = 30 after its `Dinner` expense (90 paid by user 1, shares
of 30), and `TestExactExpense` asserts BalanceSheet[1][3] = 50 and
BalanceSheet[3][1] = -50 after its `Cruise` expense (150 paid by user 2,
shares of 50). On these inputs the code leaves all four cells at 0: the update
loop writes only cells of the payer's row and column. -/
theorem non_payer_cells_are_zero_in_tests :
    cell dinner.em.BalanceSheet "2" "3" = 0 ∧
      cell dinner.em.BalanceSheet "3" "2" = 0 ∧
      |cell dinner.em.BalanceSheet "2" "3"| ≠ 30 ∧
      cell cruise.em.BalanceSheet "1" "3" = 0 ∧
      cell cruise.em.BalanceSheet "3" "1" = 0 ∧
      |cell cruise.em.BalanceSheet "1" "3"| ≠ 50 := by
  have h1 : cell dinner.em.BalanceSheet "2" "3" = 0 := by
    rw [dinner_sheet]; simp [cell, GoMap.read]
  have h2 : cell dinner.em.BalanceSheet "3" "2" = 0 := by
    rw [dinner_sheet]; simp [cell, GoMap.read]
  have h3 : cell cruise.em.BalanceSheet "1" "3" = 0 := by
    rw [cruise_sheet]; simp [cell, GoMap.read]
  have h4 : cell cruise.em.BalanceSheet "3" "1" = 0 := by
    rw [cruise_sheet]; simp [cell, GoMap.read]
  refine ⟨h1, h2, ?_, h3, h4, ?_⟩
  · rw [h1]; norm_num
  · rw [h3]; norm_num

theorem AddExpense_frame {em : ExpenseManager} (hc : Consistent em) (heap : Heap)
    (expenseType : String) (amount : ℚ) (paidBy : String) (splits : List Addr)
    (metadata : Option ExpenseMetadata) (x y : String) (hx : x ≠ paidBy) (hy : y ≠ paidBy) :
    cell (AddExpense em heap expenseType amount paidBy splits metadata).em.BalanceSheet x y =
      cell em.BalanceSheet x y := by
  rw [AddExpense_em]
  cases h2 : (CreateExpense heap expenseType amount (GoMap.read em.UserMap paidBy) splits
    metadata).2 with
  | none => rfl
  | some e =>
    have hpb := (CreateExpense_some h2).1
    simp only [hpb]
    cases hp : GoMap.read em.UserMap paidBy with
    | none => rw [updateBalances_nil_payer]
    | some p =>
      have hid := hc.ids paidBy p hp
      exact updateBalances_frame _ p _ x y (hid ▸ hx) (hid ▸ hy) _

/-! ## C16: one step of `AddExpense` and anti-symmetry -/

theorem registrationCalls_em :
    (run (start sampleHeap) registrationCalls).em = registerAll [alice, bob, charlie] := rfl

/-- C17 on the code: `CreateExpense` never looks at the kinds of the splits.
Called with EQUAL and two `ExactSplit` values it overwrites their amounts with
45 and returns an `EqualExpense` holding them, for which
`EqualExpense.Validate` is false, and `AddExpense` records that expense;
called with EXACT and a list holding an `EqualSplit` it returns an
`ExactExpense` holding it; called with PERCENT and a list holding an
`ExactSplit` it returns a `PercentExpense` holding it. -/
theorem expense_holds_splits_of_other_kinds :
    (sampleHeap 7).isEqualSplit = false ∧
      (CreateExpense sampleHeap "EQUAL" 90 (some alice) [7, 8] (some { Name := "Dinner" })).2 =
        some (.EqualExpense 90 (some alice) [7, 8] (some { Name := "Dinner" })) ∧
      (CreateExpense sampleHeap "EQUAL" 90 (some alice) [7, 8] (some { Name := "Dinner" })).1 7 =
        .ExactSplit (some alice) 45 ∧
      (Expense.EqualExpense 90 (some alice) [7, 8] (some { Name := "Dinner" })).Validate
        (CreateExpense sampleHeap "EQUAL" 90 (some alice) [7, 8]
          (some { Name := "Dinner" })).1 = false ∧
      (AddExpense threeUsers sampleHeap "EQUAL" 90 "1" [7, 8]
          (some { Name := "Dinner" })).em.Expenses =
        [.EqualExpense 90 (some alice) [7, 8] (some { Name := "Dinner" })] ∧
      (sampleHeap 1).isExactSplit = false ∧
      (CreateExpense sampleHeap "EXACT" 50 (some alice) [7, 1] (some { Name := "Cruise" })).2 =
        some (.ExactExpense 50 (some alice) [7, 1] (some { Name := "Cruise" })) ∧
      (sampleHeap 7).isPercentSplit = false ∧
      (CreateExpense sampleHeap "PERCENT" 50 (some alice) [3, 4, 7]
          (some { Name := "Breakfast" })).2 =
        some (.PercentExpense 50 (some alice) [3, 4, 7] (some { Name := "Breakfast" })) := by
  have hum : GoMap.read threeUsers.UserMap "1" = some alice := by
    rw [threeUsers_userMap]
    simp [GoMap.read]
  refine ⟨rfl, ?_, ?_, ?_, ?_, rfl, ?_, rfl, ?_⟩
  · rw [CreateExpense_equal]
  · rw [CreateExpense_equal]
    simp [setAmounts, Heap.store, sampleHeap, Split.SetAmount]
    norm_num
  · rw [CreateExpense_equal]
    simp [Expense.Validate, setAmounts, Heap.store, sampleHeap, Split.SetAmount,
      Split.isEqualSplit]
  · exact @AddExpense_expenses threeUsers sampleHeap "EQUAL" 90 "1" [7, 8] _ _
      (by rw [CreateExpense_equal, hum])
  · rw [CreateExpense_exact]
    simp [sumExactAmount, sampleHeap]
  · rw [CreateExpense_percent]

/-! ## C18: the diagonal -/

/-- C18, as stated, fails: the `Dinner` expense of `main` is paid by Alice and
has a split for Alice, and after it the row of Alice has an entry under her
own key "1" (with the value 0). -/
theorem payer_split_writes_diagonal_entry :
    holdsAlong Call.participantsRegistered (start sampleHeap) dinnerCalls = true ∧
      rowOf (run (start sampleHeap) dinnerCalls).em.BalanceSheet "1" =
        [("1", 0), ("2", -30), ("3", -30)] ∧
      GoMap.has (rowOf (run (start sampleHeap) dinnerCalls).em.BalanceSheet "1") "1" = true := by
  have hrow : rowOf (run (start sampleHeap) dinnerCalls).em.BalanceSheet "1" =
      [("1", 0), ("2", -30), ("3", -30)] := by
    rw [dinnerCalls_sheet]
    simp [rowOf, GoMap.read]
  refine ⟨?_, hrow, ?_⟩
  · simp [holdsAlong, Call.participantsRegistered, registered, GoMap.has, step, start,
      dinnerCalls, AddUser, NewExpenseManager, GoMap.write, GoMap.read, alice, bob, charlie,
      NewUser, sampleHeap, Split.GetUser]
  · rw [hrow]
    simp [GoMap.has, GoMap.read]

theorem entry_addToCell {sheet sheet1 : GoMap (GoMap ℚ)} {a b : String} {delta : ℚ}
    (h : addToCell sheet a b delta = some sheet1) (x y : String) :
    GoMap.has (rowOf sheet1 x) y =
      (GoMap.has (rowOf sheet x) y || (decide (x = a) && decide (y = b))) := by
  unfold addToCell at h
  cases hr : GoMap.read sheet a with
  | none => rw [hr] at h; exact absurd h (by simp)
  | some row =>
    rw [hr] at h
    simp only [Option.some.injEq] at h
    subst h
    unfold rowOf
    rw [GoMap.read_write]
    by_cases hax : a = x
    · subst hax
      simp only [if_true, Option.getD_some, hr, GoMap.has_write, decide_True, Bool.true_and]
      rw [Bool.or_comm]
      congr 1
      exact decide_eq_decide.mpr ⟨fun h => h.symm, fun h => h.symm⟩
    · have hxa : ¬ x = a := fun h => hax h.symm
      simp [hax, hxa]

/-- An entry of the ledger after the update loop, however the loop ended, was
there before or was assigned by the loop body for one of the splits. -/
theorem updateBalances_entries (heap : Heap) (paidBy : Option User) (splits : List Addr)
    (x y : String) :
    ∀ sheet : GoMap (GoMap ℚ),
      GoMap.has (rowOf (updateBalances heap paidBy splits sheet).1 x) y = true →
      GoMap.has (rowOf sheet x) y = true ∨
        ∃ p, paidBy = some p ∧ ∃ a ∈ splits, assigns heap p.ID a x y = true := by
  induction splits with
  | nil => intro sheet h; exact Or.inl h
  | cons a rest ih =>
    intro sheet h
    cases paidBy with
    | none => exact Or.inl h
    | some p =>
      rw [updateBalances_cons] at h
      cases hu : (heap a).GetUser with
      | none => rw [hu] at h; exact Or.inl h
      | some r =>
        rw [hu] at h
        simp only at h
        cases h1 : addToCell sheet p.ID r.ID (-(heap a).GetAmount) with
        | none => rw [h1] at h; exact Or.inl h
        | some sheet1 =>
          rw [h1] at h
          simp only at h
          have hfirst : GoMap.has (rowOf sheet1 x) y = true →
              GoMap.has (rowOf sheet x) y = true ∨
                ∃ q, some p = some q ∧ ∃ b ∈ a :: rest, assigns heap q.ID b x y = true := by
            intro hs
            rw [entry_addToCell h1] at hs
            rcases Bool.or_eq_true_iff.mp hs with hs | hs
            · exact Or.inl hs
            · refine Or.inr ⟨p, rfl, a, List.mem_cons_self a rest, ?_⟩
              simp only [Bool.and_eq_true, decide_eq_true_eq] at hs
              simp [assigns, hu, hs.1, hs.2]
          cases h2 : addToCell sheet1 r.ID p.ID (heap a).GetAmount with
          | none => rw [h2] at h; exact hfirst h
          | some sheet2 =>
            rw [h2] at h
            simp only at h
            rcases ih sheet2 h with hs | ⟨q, hq, b, hb, hab⟩
            · rw [entry_addToCell h2] at hs
              rcases Bool.or_eq_true_iff.mp hs with hs | hs
              · exact hfirst hs
              · refine Or.inr ⟨p, rfl, a, List.mem_cons_self a rest, ?_⟩
                simp only [Bool.and_eq_true, decide_eq_true_eq] at hs
                simp [assigns, hu, hs.1, hs.2]
            · exact Or.inr ⟨q, hq, b, List.mem_cons_of_mem a hb, hab⟩

/-- When the update loop runs to its end, every entry that was there before
is still there, and every entry the loop body assigns for a split is there. -/
theorem updateBalances_writes (heap : Heap) (p : User) (splits : List Addr) (x y : String) :
    ∀ sheet sheet1 : GoMap (GoMap ℚ),
      updateBalances heap (some p) splits sheet = (sheet1, Status.done) →
      (GoMap.has (rowOf sheet x) y = true ∨ ∃ a ∈ splits, assigns heap p.ID a x y = true) →
      GoMap.has (rowOf sheet1 x) y = true := by
  induction splits with
  | nil =>
    intro sheet sheet1 h hor
    have hs : sheet = sheet1 := congrArg Prod.fst h
    subst hs
    rcases hor with h0 | ⟨a, ha, -⟩
    · exact h0
    · exact absurd ha (List.not_mem_nil a)
  | cons a rest ih =>
    intro sheet sheet1 h hor
    rw [updateBalances_cons] at h
    cases hu : (heap a).GetUser with
    | none => rw [hu] at h; exact absurd (congrArg Prod.snd h) (by simp)
    | some r =>
      rw [hu] at h
      simp only at h
      cases h1 : addToCell sheet p.ID r.ID (-(heap a).GetAmount) with
      | none => rw [h1] at h; exact absurd (congrArg Prod.snd h) (by simp)
      | some sheetA =>
        rw [h1] at h
        simp only at h
        cases h2 : addToCell sheetA r.ID p.ID (heap a).GetAmount with
        | none => rw [h2] at h; exact absurd (congrArg Prod.snd h) (by simp)
        | some sheetB =>
          rw [h2] at h
          simp only at h
          apply ih sheetB sheet1 h
          rcases hor with h0 | ⟨b, hb, hab⟩
          · left
            rw [entry_addToCell h2, entry_addToCell h1, h0]
            rfl
          · rcases List.mem_cons.mp hb with hba | hb
            · subst hba
              left
              rw [entry_addToCell h2, entry_addToCell h1]
              simp only [assigns, hu, Bool.or_eq_true, Bool.and_eq_true,
                decide_eq_true_eq] at hab
              rcases hab with ⟨hx, hy⟩ | ⟨hx, hy⟩
              · simp [hx, hy]
              · simp [hx, hy]
            · exact Or.inr ⟨b, hb, hab⟩

/-- Along calls none of which is an expense paid by `A` with a split for `A`,
the row of `A` gets no entry under the key `A`. -/
theorem noOwnSplit_keeps_diagonal_empty (A : String) (calls : List Call) :
    ∀ w : Outcome, Consistent w.em →
      GoMap.has (rowOf w.em.BalanceSheet A) A = false →
      noOwnSplit A w calls = true →
      GoMap.has (rowOf (run w calls).em.BalanceSheet A) A = false := by
  induction calls with
  | nil => intro w _ h _; exact h
  | cons c calls ih =>
    intro w hc h hno
    rw [run_cons]
    unfold noOwnSplit at hno
    simp only [holdsAlong, Bool.and_eq_true, Bool.not_eq_true'] at hno
    obtain ⟨hcall, hrest⟩ := hno
    by_cases hst : w.status = Status.done
    · cases c with
      | AddUser user =>
        rw [step_addUser hst] at hrest ⊢
        refine ih _ (AddUser_consistent hc user) ?_ hrest
        show GoMap.has (rowOf (GoMap.write w.em.BalanceSheet user.ID []) A) A = false
        unfold rowOf
        rw [GoMap.read_write]
        by_cases hu : user.ID = A
        · simp [hu, GoMap.has, GoMap.read]
        · simp only [hu, if_false]
          exact h
      | AddExpense expenseType amount paidBy splits metadata =>
        rw [step_addExpense hst] at hrest ⊢
        refine ih _ (AddExpense_consistent_any hc _ _ _ _ _ _) ?_ hrest
        rw [AddExpense_em]
        cases h2 : (CreateExpense w.heap expenseType amount (GoMap.read w.em.UserMap paidBy)
          splits metadata).2 with
        | none => exact h
        | some e =>
          simp only
          obtain ⟨hpb, hsp, -⟩ := CreateExpense_some h2
          cases hentry : GoMap.has (rowOf (updateBalances (CreateExpense w.heap expenseType
              amount (GoMap.read w.em.UserMap paidBy) splits metadata).1 e.GetPaidBy
              e.GetSplits w.em.BalanceSheet).1 A) A with
          | false => rfl
          | true =>
            exfalso
            rcases updateBalances_entries _ _ _ A A _ hentry with h0 | ⟨p, hp, a, ha, hab⟩
            · rw [h] at h0; exact absurd h0 (by simp)
            · rw [hpb] at hp
              have hid := hc.ids paidBy p hp
              rw [hsp] at ha
              have hgu := CreateExpense_getUser w.heap expenseType amount
                (GoMap.read w.em.UserMap paidBy) splits metadata a
              unfold assigns at hab
              rw [hgu] at hab
              cases hr : (w.heap a).GetUser with
              | none => rw [hr] at hab; exact absurd hab (by simp)
              | some r =>
                rw [hr] at hab
                simp only [Bool.or_eq_true, Bool.and_eq_true, decide_eq_true_eq] at hab
                have hpa : paidBy = A := by
                  rw [← hid]
                  rcases hab with ⟨h1, -⟩ | ⟨-, h1⟩ <;> exact h1.symm
                have hra : r.ID = A := by
                  rcases hab with ⟨-, h1⟩ | ⟨h1, -⟩ <;> exact h1.symm
                have hown : Call.paysOwnSplit A w
                    (.AddExpense expenseType amount paidBy splits metadata) = true := by
                  simp only [Call.paysOwnSplit, Bool.and_eq_true, decide_eq_true_eq,
                    List.any_eq_true]
                  exact ⟨hpa, a, ha, by simp [participant, hr, hra]⟩
                rw [hown] at hcall
                exact absurd hcall (by simp)
    · rw [step_stopped hst] at hrest ⊢
      exact ih w hc h hrest

/-- C18 (amended): in every state reached from NewExpenseManager by AddUser
and AddExpense calls none of which is an expense paid by A with a split for A,
the BalanceSheet row of A has no entry under key A; and in every state reached
by such calls, an accepted AddExpense call paid by A, with payer and split
participants registered and with a split for A, writes an entry under key A
into the row of A. -/
theorem diagonal_entry_only_from_own_split (heap : Heap) (calls : List Call) (A : String)
    (hno : noOwnSplit A (start heap) calls = true) :
    GoMap.has (rowOf (run (start heap) calls).em.BalanceSheet A) A = false ∧
      ∀ (heap1 : Heap) (expenseType : String) (amount : ℚ) (splits : List Addr)
        (metadata : Option ExpenseMetadata),
        registered (run (start heap) calls).em heap1 A splits = true →
        (CreateExpense heap1 expenseType amount
          (GoMap.read (run (start heap) calls).em.UserMap A) splits metadata).2.isSome = true →
        (∃ a ∈ splits, participant heap1 a = some A) →
        GoMap.has (rowOf (AddExpense (run (start heap) calls).em heap1 expenseType amount A
          splits metadata).em.BalanceSheet A) A = true := by
  refine ⟨noOwnSplit_keeps_diagonal_empty A calls (start heap) consistent_new ?_ hno, ?_⟩
  · simp [start, NewExpenseManager, rowOf, GoMap.read, GoMap.has]
  · intro heap1 expenseType amount splits metadata hreg hsome hown
    have hc := run_consistent heap calls
    obtain ⟨p, hp, hid, -⟩ := registered_payer hc hreg
    obtain ⟨-, -, -, h⟩ := AddExpense_registered hc expenseType amount A splits metadata hreg
    rcases h with ⟨hnone, -⟩ | ⟨e, he, -, hub, -⟩
    · rw [hnone] at hsome; exact absurd hsome (by simp)
    · obtain ⟨hpb, hsp, -⟩ := CreateExpense_some he
      rw [hpb, hp, hsp] at hub
      refine updateBalances_writes _ p splits A A _ _ hub (Or.inr ?_)
      obtain ⟨a, ha, hpa⟩ := hown
      refine ⟨a, ha, ?_⟩
      have hgu := CreateExpense_getUser heap1 expenseType amount
        (GoMap.read (run (start heap) calls).em.UserMap A) splits metadata a
      unfold assigns
      rw [hp] at hgu
      rw [hgu]
      unfold participant at hpa
      cases hr : (heap1 a).GetUser with
      | none => rw [hr] at hpa; exact absurd hpa (by simp)
      | some r =>
        rw [hr] at hpa
        simp only [Option.map_some', Option.some.injEq] at hpa
        simp [hid, hpa]

/-- Instance of `diagonal_entry_only_from_own_split`: Alice and Bob are
registered and Alice pays 90 for Bob alone; the row of Alice then holds an
entry for Bob and none under her own key. A further expense of 90 paid by
Alice with splits for Alice and Bob writes the entry under her own key. -/
theorem diagonal_entry_only_from_own_split_witness :
    noOwnSplit "1" (start sampleHeap) oneExpenseCalls = true ∧
      rowOf (run (start sampleHeap) oneExpenseCalls).em.BalanceSheet "1" = [("2", -90)] ∧
      GoMap.has (rowOf (run (start sampleHeap) oneExpenseCalls).em.BalanceSheet "1") "1" =
        false ∧
      registered (run (start sampleHeap) oneExpenseCalls).em sampleHeap "1" [0, 1] = true ∧
      (CreateExpense sampleHeap "EQUAL" 90
        (GoMap.read (run (start sampleHeap) oneExpenseCalls).em.UserMap "1") [0, 1]
        (some { Name := "Dinner" })).2.isSome = true ∧
      (∃ a ∈ [0, 1], participant sampleHeap a = some "1") ∧
      GoMap.has (rowOf (AddExpense (run (start sampleHeap) oneExpenseCalls).em sampleHeap
        "EQUAL" 90 "1" [0, 1] (some { Name := "Dinner" })).em.BalanceSheet "1") "1" = true :=
  have hreg : registered (run (start sampleHeap) oneExpenseCalls).em sampleHeap "1" [0, 1] =
      true := by decide!
  have hsome : (CreateExpense sampleHeap "EQUAL" 90
      (GoMap.read (run (start sampleHeap) oneExpenseCalls).em.UserMap "1") [0, 1]
      (some { Name := "Dinner" })).2.isSome = true := by decide!
  have hown : ∃ a ∈ [0, 1], participant sampleHeap a = some "1" := ⟨0, by decide, by decide⟩
  ⟨by decide!, by decide!,
    (diagonal_entry_only_from_own_split sampleHeap oneExpenseCalls "1" (by decide!)).1,
    hreg, hsome, hown,
    (diagonal_entry_only_from_own_split sampleHeap oneExpenseCalls "1" (by decide!)).2
      sampleHeap "EQUAL" 90 [0, 1] (some { Name := "Dinner" }) hreg hsome hown⟩

/-! ## C19: frame of a ledger update -/

/-- C19: in every state reached from NewExpenseManager by AddUser and
AddExpense calls and for every AddExpense call with payer id P, every cell
BalanceSheet[X][Y] with X different from P and Y different from P is
unchanged, UserMap is unchanged, and the expenses already in Expenses stay in
place with at most one new expense appended at the end. -/
theorem ledger_update_frame (heap0 : Heap) (calls : List Call) (heap : Heap)
    (expenseType : String) (amount : ℚ) (P : String) (splits : List Addr)
    (metadata : Option ExpenseMetadata) (X Y : String) (hX : X ≠ P) (hY : Y ≠ P) :
    cell (AddExpense (run (start heap0) calls).em heap expenseType amount P splits
        metadata).em.BalanceSheet X Y = cell (run (start heap0) calls).em.BalanceSheet X Y ∧
      (AddExpense (run (start heap0) calls).em heap expenseType amount P splits
        metadata).em.UserMap = (run (start heap0) calls).em.UserMap ∧
      ((AddExpense (run (start heap0) calls).em heap expenseType amount P splits
          metadata).em.Expenses = (run (start heap0) calls).em.Expenses ∨
        ∃ e, (AddExpense (run (start heap0) calls).em heap expenseType amount P splits
          metadata).em.Expenses = (run (start heap0) calls).em.Expenses ++ [e]) := by
  refine ⟨AddExpense_frame (run_consistent heap0 calls) heap expenseType amount P splits
    metadata X Y hX hY, AddExpense_userMap _ _ _ _ _ _ _, ?_⟩
  rw [AddExpense_em]
  cases (CreateExpense heap expenseType amount
    (GoMap.read (run (start heap0) calls).em.UserMap P) splits metadata).2 with
  | none => exact Or.inl rfl
  | some e => exact Or.inr ⟨e, rfl⟩

/-- Instance of `ledger_update_frame`: the cell between users 2 and 3 when the
`Breakfast` expense of `main`, paid by user 1, follows the `Dinner` expense. -/
theorem ledger_update_frame_witness :
    "2" ≠ "1" ∧ "3" ≠ "1" ∧
      cell (AddExpense (run (start sampleHeap) dinnerCalls).em sampleHeap "PERCENT" 50 "1"
          [3, 4] (some { Name := "Breakfast" })).em.BalanceSheet "2" "3" =
        cell (run (start sampleHeap) dinnerCalls).em.BalanceSheet "2" "3" ∧
      (AddExpense (run (start sampleHeap) dinnerCalls).em sampleHeap "PERCENT" 50 "1" [3, 4]
        (some { Name := "Breakfast" })).em.UserMap =
          (run (start sampleHeap) dinnerCalls).em.UserMap ∧
      ((AddExpense (run (start sampleHeap) dinnerCalls).em sampleHeap "PERCENT" 50 "1" [3, 4]
          (some { Name := "Breakfast" })).em.Expenses =
            (run (start sampleHeap) dinnerCalls).em.Expenses ∨
        ∃ e, (AddExpense (run (start sampleHeap) dinnerCalls).em sampleHeap "PERCENT" 50 "1"
          [3, 4] (some { Name := "Breakfast" })).em.Expenses =
            (run (start sampleHeap) dinnerCalls).em.Expenses ++ [e]) :=
  ⟨by decide, by decide,
    ledger_update_frame sampleHeap dinnerCalls sampleHeap "PERCENT" 50 "1" [3, 4]
      (some { Name := "Breakfast" }) "2" "3" (by decide) (by decide)⟩

/-! ## C20: no failure when everybody is registered -/

theorem GoMap.has_of_mem {V : Type} (m : GoMap V) (k : String) (v : V) (h : (k, v) ∈ m) :
    GoMap.has m k = true := by
  unfold GoMap.has
  induction m with
  | nil => simp at h
  | cons e m ih =>
    obtain ⟨k0, v0⟩ := e
    by_cases hk : k0 = k
    · simp [GoMap.read, hk]
    · have hne : (k, v) ≠ (k0, v0) := fun e => hk (by injection e with e1 _; exact e1.symm)
      rcases List.mem_cons.mp h with h1 | h1
      · exact absurd h1 hne
      · simp only [GoMap.read, hk, if_false]
        exact ih h1

theorem mem_visitOrder {sheet : GoMap (GoMap ℚ)} {c : String × String × ℚ}
    (h : c ∈ visitOrder sheet) :
    ∃ row, (c.1, row) ∈ sheet ∧ (c.2.1, c.2.2) ∈ row := by
  unfold visitOrder at h
  rw [List.mem_flatMap] at h
  obtain ⟨userRow, hrow, hc⟩ := h
  rw [List.mem_map] at hc
  obtain ⟨entry, hentry, rfl⟩ := hc
  exact ⟨userRow.2, hrow, hentry⟩

theorem PrintBalance_isSome {em : ExpenseManager} {user1 user2 : String}
    (h1 : GoMap.has em.UserMap user1 = true) (h2 : GoMap.has em.UserMap user2 = true)
    (amount : ℚ) : ∃ lines, PrintBalance em user1 user2 amount = some lines := by
  unfold GoMap.has at h1 h2
  unfold PrintBalance
  cases hr1 : GoMap.read em.UserMap user1 with
  | none => simp [hr1] at h1
  | some u1 =>
    cases hr2 : GoMap.read em.UserMap user2 with
    | none => simp [hr2] at h2
    | some u2 =>
      simp only
      split_ifs <;> exact ⟨_, rfl⟩

/-- The summary loops run to their end when every id they meet has a user. -/
theorem summaryLoop_isSome (em : ExpenseManager) (cells : List (String × String × ℚ)) :
    ∀ (printed : List String) (isEmpty : Bool),
      (∀ c ∈ cells, GoMap.has em.UserMap c.1 = true ∧ GoMap.has em.UserMap c.2.1 = true) →
      ∃ result, summaryLoop em cells printed isEmpty = some result := by
  induction cells with
  | nil => intro printed isEmpty _; exact ⟨_, rfl⟩
  | cons c rest ih =>
    intro printed isEmpty h
    obtain ⟨user, otherUser, amount⟩ := c
    have hc := h (user, otherUser, amount) (List.mem_cons_self _ _)
    have hrest : ∀ c ∈ rest,
        GoMap.has em.UserMap c.1 = true ∧ GoMap.has em.UserMap c.2.1 = true :=
      fun c hc => h c (List.mem_cons_of_mem _ hc)
    unfold summaryLoop
    split_ifs
    · obtain ⟨lines, hl⟩ := PrintBalance_isSome hc.1 hc.2 amount
      obtain ⟨⟨more, flag⟩, hm⟩ :=
        ih ((otherUser ++ user) :: (user ++ otherUser) :: printed) false hrest
      exact ⟨(lines ++ more, flag), by simp only [hl, hm]⟩
    · exact ih printed isEmpty hrest

theorem summaryLoop_of_closed {em : ExpenseManager} (hc : Consistent em)
    (hclosed : SheetClosed em.BalanceSheet) (visit : List (String × String × ℚ))
    (hvisit : visit.Perm (visitOrder em.BalanceSheet)) (printed : List String)
    (isEmpty : Bool) : ∃ result, summaryLoop em visit printed isEmpty = some result := by
  apply summaryLoop_isSome
  intro c hmem
  obtain ⟨row, hrow, hentry⟩ := mem_visitOrder (hvisit.mem_iff.mp hmem)
  constructor
  · rw [← hc.keys]
    exact GoMap.has_of_mem _ _ _ hrow
  · rw [← hc.keys]
    exact hclosed _ hrow _ hentry

/-- C20: in every state reached from NewExpenseManager by AddUser and
AddExpense calls of a program that has not stopped, if the payer id is a key
of UserMap, every split has a non-nil user whose id is registered, and
metadata is non-nil, then AddExpense runs to its end without a write into a
missing ledger row and without a nil dereference, for every expense type
string, every amount and every list of splits, the empty one included: the
ledger update completes, and the summary it prints afterwards completes in
every order of visiting the cells. -/
theorem addExpense_completes (heap0 : Heap) (calls : List Call)
    (hdone : (run (start heap0) calls).status = Status.done) (heap : Heap)
    (expenseType : String) (amount : ℚ) (paidBy : String) (splits : List Addr)
    (metadata : ExpenseMetadata)
    (hreg : registered (run (start heap0) calls).em heap paidBy splits = true) :
    (AddExpense (run (start heap0) calls).em heap expenseType amount paidBy splits
        (some metadata)).status = Status.done ∧
      ∀ visit : List (String × String × ℚ),
        visit.Perm (visitOrder (AddExpense (run (start heap0) calls).em heap expenseType amount
          paidBy splits (some metadata)).em.BalanceSheet) →
        ∃ output, PrintEventSummary (AddExpense (run (start heap0) calls).em heap expenseType
          amount paidBy splits (some metadata)).em metadata.Name visit = some output := by
  have hc := run_consistent heap0 calls
  have hclosed := run_closed heap0 calls hdone
  have hc1 := AddExpense_consistent_any hc heap expenseType amount paidBy splits (some metadata)
  obtain ⟨-, -, -, h⟩ :=
    AddExpense_registered hc expenseType amount paidBy splits (some metadata) hreg
  have hstatus : (AddExpense (run (start heap0) calls).em heap expenseType amount paidBy splits
      (some metadata)).status = Status.done := by
    rw [AddExpense_status]
    rcases h with ⟨hnone, -⟩ | ⟨e, hsome, -, hu, -⟩
    · rw [hnone]
    · rw [hsome]
      simp only [hu]
      rfl
  have hclosed1 : SheetClosed (AddExpense (run (start heap0) calls).em heap expenseType amount
      paidBy splits (some metadata)).em.BalanceSheet := by
    rcases h with ⟨-, hout⟩ | ⟨e, -, -, hu, -⟩
    · rw [hout]; exact hclosed
    · exact updateBalances_closed _ _ _ _ _ hu hclosed
  refine ⟨hstatus, ?_⟩
  intro visit hvisit
  obtain ⟨⟨lines, flag⟩, hloop⟩ := summaryLoop_of_closed hc1 hclosed1 visit hvisit [] true
  refine ⟨.eventHeader metadata.Name :: lines.map .owes, ?_⟩
  unfold PrintEventSummary
  rw [hloop]

theorem registrationCalls_status :
    (run (start sampleHeap) registrationCalls).status = Status.done := rfl

/-- Instance of `addExpense_completes`: the `Dinner` expense of `main` after
the three registrations. -/
theorem addExpense_completes_witness :
    (run (start sampleHeap) registrationCalls).status = Status.done ∧
      registered (run (start sampleHeap) registrationCalls).em sampleHeap "1" [0, 1, 2] = true ∧
      (AddExpense (run (start sampleHeap) registrationCalls).em sampleHeap "EQUAL" 90 "1"
        [0, 1, 2] (some { Name := "Dinner" })).status = Status.done ∧
      ∀ visit : List (String × String × ℚ),
        visit.Perm (visitOrder (AddExpense (run (start sampleHeap) registrationCalls).em
          sampleHeap "EQUAL" 90 "1" [0, 1, 2] (some { Name := "Dinner" })).em.BalanceSheet) →
        ∃ output, PrintEventSummary (AddExpense (run (start sampleHeap) registrationCalls).em
          sampleHeap "EQUAL" 90 "1" [0, 1, 2] (some { Name := "Dinner" })).em
          (ExpenseMetadata.mk "Dinner").Name visit = some output :=
  have hreg : registered (run (start sampleHeap) registrationCalls).em sampleHeap "1"
      [0, 1, 2] = true := by
    rw [registrationCalls_em]
    simp [registered, registerAll, GoMap.has, AddUser, NewExpenseManager, GoMap.write,
      GoMap.read, alice, bob, charlie, NewUser, sampleHeap, Split.GetUser]
  ⟨registrationCalls_status, hreg,
    addExpense_completes sampleHeap registrationCalls registrationCalls_status sampleHeap
      "EQUAL" 90 "1" [0, 1, 2] { Name := "Dinner" } hreg⟩

/-! ## The program over `float64`: values of the arithmetic -/

/-- `F64.bitLength fuel n` is the number of binary digits of `n`, given enough fuel. -/
theorem bitLength_bounds : ∀ (fuel n : Nat), n ≤ fuel → 0 < n →
    0 < F64.bitLength fuel n ∧ 2 ^ (F64.bitLength fuel n - 1) ≤ n ∧
      n < 2 ^ F64.bitLength fuel n := by
  intro fuel
  induction fuel with
  | zero => intro n h1 h2; omega
  | succ fuel ih =>
    intro n hn hpos
    have hne : ¬ n = 0 := by omega
    simp only [F64.bitLength, hne, if_false]
    by_cases hhalf : n / 2 = 0
    · have h1 : n = 1 := by omega
      subst h1
      have hz : F64.bitLength fuel (1 / 2) = 0 := by
        cases fuel <;> simp [F64.bitLength]
      rw [hz]
      simp
    · obtain ⟨hb, hlow, hhigh⟩ := ih (n / 2) (by omega) (by omega)
      refine ⟨by omega, ?_, ?_⟩
      · have e : F64.bitLength fuel (n / 2) + 1 - 1 = (F64.bitLength fuel (n / 2) - 1) + 1 := by
          omega
        rw [e, pow_succ]
        omega
      · rw [pow_succ]
        omega

/-- `F64.floorLog2` is the floor of the binary logarithm. -/
theorem floorLog2_bounds (a : ℚ) (ha : 0 < a) :
    (2 : ℚ) ^ F64.floorLog2 a ≤ a ∧ a < (2 : ℚ) ^ (F64.floorLog2 a + 1) := by
  have hnum : 0 < a.num := Rat.num_pos.mpr ha
  have hn : 0 < a.num.natAbs := Int.natAbs_pos.mpr (ne_of_gt hnum)
  have hd : 0 < a.den := a.den_pos
  obtain ⟨hbn, hnlow, hnhigh⟩ := bitLength_bounds a.num.natAbs a.num.natAbs le_rfl hn
  obtain ⟨hbd, hdlow, hdhigh⟩ := bitLength_bounds a.den a.den le_rfl hd
  have hcast : (a.num.natAbs : ℚ) = (a.num : ℚ) := by
    rw [← Int.cast_natCast, Int.natAbs_of_nonneg (le_of_lt hnum)]
  have ha_eq : a = (a.num.natAbs : ℚ) / (a.den : ℚ) := by
    rw [hcast]
    exact (Rat.num_div_den a).symm
  set n := a.num.natAbs with hn_def
  set d := a.den with hd_def
  set bn := F64.bitLength n n with hbn_def
  set bd := F64.bitLength d d with hbd_def
  have hdq : (0 : ℚ) < (d : ℚ) := by exact_mod_cast hd
  have h1 : ((2 : ℚ) ^ (bn - 1)) ≤ (n : ℚ) := by exact_mod_cast hnlow
  have h2 : (n : ℚ) < (2 : ℚ) ^ bn := by exact_mod_cast hnhigh
  have h3 : ((2 : ℚ) ^ (bd - 1)) ≤ (d : ℚ) := by exact_mod_cast hdlow
  have h4 : (d : ℚ) < (2 : ℚ) ^ bd := by exact_mod_cast hdhigh
  have hbn2 : (2 : ℚ) ^ bn = 2 * 2 ^ (bn - 1) := by
    rw [← pow_succ']
    congr 1
    omega
  have hbd2 : (2 : ℚ) ^ bd = 2 * 2 ^ (bd - 1) := by
    rw [← pow_succ']
    congr 1
    omega
  have two : (2 : ℚ) ≠ 0 := by norm_num
  have hk : (2 : ℚ) ^ ((bn : ℤ) - (bd : ℤ)) = (2 : ℚ) ^ bn / (2 : ℚ) ^ bd := by
    rw [zpow_sub₀ two, zpow_natCast, zpow_natCast]
  have hpd : (0 : ℚ) < (2 : ℚ) ^ bd := by positivity
  have hpn1 : (0 : ℚ) < (2 : ℚ) ^ (bn - 1) := by positivity
  have hpd1 : (0 : ℚ) < (2 : ℚ) ^ (bd - 1) := by positivity
  have hupper : a < (2 : ℚ) ^ ((bn : ℤ) - (bd : ℤ) + 1) := by
    rw [zpow_add_one₀ two, hk, ha_eq, div_lt_iff₀ hdq]
    have : (2 : ℚ) ^ bn / (2 : ℚ) ^ bd * 2 * (d : ℚ) ≥ (2 : ℚ) ^ bn := by
      rw [ge_iff_le, div_mul_eq_mul_div, div_mul_eq_mul_div, le_div_iff₀ hpd]
      rw [hbd2]
      nlinarith [hpn1, h3, hbn2, mul_pos hpn1 hpd1, pow_pos (by norm_num : (0:ℚ) < 2) bn]
    linarith
  have hlower : (2 : ℚ) ^ ((bn : ℤ) - (bd : ℤ) - 1) ≤ a := by
    rw [zpow_sub_one₀ two, hk, ha_eq, le_div_iff₀ hdq]
    have : (2 : ℚ) ^ bn / (2 : ℚ) ^ bd * 2⁻¹ * (d : ℚ) ≤ (2 : ℚ) ^ (bn - 1) := by
      rw [hbn2]
      have e : 2 * (2 : ℚ) ^ (bn - 1) / (2 : ℚ) ^ bd * 2⁻¹ * (d : ℚ) =
          (2 : ℚ) ^ (bn - 1) * ((d : ℚ) / (2 : ℚ) ^ bd) := by
        field_simp
        ring
      rw [e]
      have : (d : ℚ) / (2 : ℚ) ^ bd ≤ 1 := by
        rw [div_le_one hpd]
        exact le_of_lt h4
      nlinarith [hpn1]
    linarith
  unfold F64.floorLog2
  simp only
  split_ifs with hle
  · exact ⟨hle, hupper⟩
  · refine ⟨hlower, ?_⟩
    rw [sub_add_cancel]
    exact lt_of_not_le hle

/-- `F64.nearestEven` is within one half of its argument, and even when the
argument is half way between two integers. -/
theorem nearestEven_bounds (q : ℚ) :
    |((F64.nearestEven q : ℤ) : ℚ) - q| ≤ 1 / 2 ∧
      (|((F64.nearestEven q : ℤ) : ℚ) - q| = 1 / 2 → F64.nearestEven q % 2 = 0) := by
  have hfl : ((⌊q⌋ : ℤ) : ℚ) ≤ q := Int.floor_le q
  have hlt : q < ((⌊q⌋ : ℤ) : ℚ) + 1 := Int.lt_floor_add_one q
  unfold F64.nearestEven
  simp only
  split_ifs with h1 h2 h3
  · have e : |((⌊q⌋ : ℤ) : ℚ) - q| = q - ((⌊q⌋ : ℤ) : ℚ) := by
      rw [abs_sub_comm, abs_of_nonneg (by linarith)]
    rw [e]
    exact ⟨by linarith, fun h => absurd h (by linarith)⟩
  · have e : |(((⌊q⌋ + 1 : ℤ)) : ℚ) - q| = ((⌊q⌋ : ℤ) : ℚ) + 1 - q := by
      push_cast
      rw [abs_of_nonneg (by linarith)]
    rw [e]
    exact ⟨by linarith, fun h => absurd h (by linarith)⟩
  · have e : |((⌊q⌋ : ℤ) : ℚ) - q| = q - ((⌊q⌋ : ℤ) : ℚ) := by
      rw [abs_sub_comm, abs_of_nonneg (by linarith)]
    rw [e]
    exact ⟨by linarith, fun _ => h3⟩
  · have e : |(((⌊q⌋ + 1 : ℤ)) : ℚ) - q| = ((⌊q⌋ : ℤ) : ℚ) + 1 - q := by
      push_cast
      rw [abs_of_nonneg (by linarith)]
    rw [e]
    exact ⟨by linarith, fun _ => by omega⟩

/-- A finite result of `F64.round` is a `float64` value, an integer
significand of at most 53 bits times a power of two not below `2 ^ (-1074)`,
of magnitude below `2 ^ 1024`, and it lies within half a unit in the last
place of the number rounded. -/
theorem round_finite (q r : ℚ) (h : F64.round q = .finite r) :
    ∃ m e : ℤ, -1074 ≤ e ∧ |m| ≤ 2 ^ 53 ∧ r = (m : ℚ) * (2 : ℚ) ^ e ∧
      |r - q| ≤ (2 : ℚ) ^ e / 2 ∧ |r| < (2 : ℚ) ^ (1024 : ℤ) := by
  unfold F64.round at h
  by_cases hq : q = 0
  · rw [if_pos hq] at h
    have hr : r = 0 := by
      have := F64.finite.inj h
      exact this.symm
    subst hq
    subst hr
    refine ⟨0, -1074, le_rfl, by norm_num, by simp, ?_, by positivity⟩
    simp only [sub_self, abs_zero]
    positivity
  · rw [if_neg hq] at h
    simp only at h
    set e : ℤ := max (F64.floorLog2 |q| - 52) (-1074) with he
    set s : ℤ := F64.nearestEven (|q| / (2 : ℚ) ^ e) with hs
    have habs : 0 < |q| := abs_pos.mpr hq
    have hpe : (0 : ℚ) < (2 : ℚ) ^ e := by positivity
    have two : (2 : ℚ) ≠ 0 := by norm_num
    obtain ⟨-, hup⟩ := floorLog2_bounds |q| habs
    have hnear := (nearestEven_bounds (|q| / (2 : ℚ) ^ e)).1
    rw [← hs] at hnear
    have hx0 : 0 ≤ |q| / (2 : ℚ) ^ e := by positivity
    have hx53 : |q| / (2 : ℚ) ^ e < 2 ^ 53 := by
      rw [div_lt_iff₀ hpe]
      have hle : (2 : ℚ) ^ (F64.floorLog2 |q| - 52) ≤ (2 : ℚ) ^ e :=
        zpow_le_zpow_right₀ (by norm_num) (le_max_left _ _)
      have hsplit : (2 : ℚ) ^ (F64.floorLog2 |q| + 1) =
          2 ^ 53 * (2 : ℚ) ^ (F64.floorLog2 |q| - 52) := by
        have e1 : F64.floorLog2 |q| + 1 = 53 + (F64.floorLog2 |q| - 52) := by ring
        rw [e1, zpow_add₀ two]
        norm_num
      rw [hsplit] at hup
      nlinarith
    have hsq := abs_le.mp hnear
    have hs0 : (0 : ℤ) ≤ s := by
      have : (-1 : ℚ) < (s : ℚ) := by linarith [hsq.1]
      have : (-1 : ℤ) < s := by exact_mod_cast this
      omega
    have hs53 : s ≤ 2 ^ 53 := by
      have : (s : ℚ) < 2 ^ 53 + 1 := by linarith [hsq.2]
      have : s < 2 ^ 53 + 1 := by exact_mod_cast this
      omega
    have hdist : |(s : ℚ) * (2 : ℚ) ^ e - (|q|)| ≤ (2 : ℚ) ^ e / 2 := by
      have e1 : (s : ℚ) * (2 : ℚ) ^ e - |q| = ((s : ℚ) - |q| / (2 : ℚ) ^ e) * (2 : ℚ) ^ e := by
        field_simp
      rw [e1, abs_mul, abs_of_pos hpe]
      nlinarith
    by_cases hover : (2 : ℚ) ^ (1024 : ℤ) ≤ (s : ℚ) * (2 : ℚ) ^ e
    · rw [if_pos hover] at h
      split_ifs at h
    · rw [if_neg hover] at h
      have hr := (F64.finite.inj h).symm
      have hmag0 : 0 ≤ (s : ℚ) * (2 : ℚ) ^ e := by
        have : (0 : ℚ) ≤ (s : ℚ) := by exact_mod_cast hs0
        positivity
      by_cases hpos : 0 < q
      · rw [if_pos hpos] at hr
        refine ⟨s, e, le_max_right _ _, ?_, hr, ?_, ?_⟩
        · rw [abs_of_nonneg hs0]; exact hs53
        · rw [hr, ← abs_of_pos hpos]; exact hdist
        · rw [hr, abs_of_nonneg hmag0]; exact lt_of_not_le hover
      · rw [if_neg hpos] at hr
        have hneg : q < 0 := lt_of_le_of_ne (not_lt.mp hpos) hq
        refine ⟨-s, e, le_max_right _ _, ?_, ?_, ?_, ?_⟩
        · rw [abs_neg, abs_of_nonneg hs0]; exact hs53
        · rw [hr]; push_cast; ring
        · rw [hr]
          have e2 : -((s : ℚ) * (2 : ℚ) ^ e) - q = -((s : ℚ) * (2 : ℚ) ^ e - |q|) := by
            rw [abs_of_neg hneg]; ring
          rw [e2, abs_neg]
          exact hdist
        · rw [hr, abs_neg, abs_of_nonneg hmag0]; exact lt_of_not_le hover

/-- Checks of `F64` against known `float64` facts: the values of the literals
`0.1` and of `0.1 + 0.2`, the largest finite value and the overflow beyond it,
the smallest positive value and the underflow below it, `1e16 + 1 == 1e16`
(a tie, rounded to the even significand), `1e16 + 3 == 1e16 + 4`, and the
infinities and NaN produced by `2 ^ 1023 * 50`, `Inf - Inf` and `0 / 0`. -/
theorem F64_known_values :
    F64.round (1 / 10) = .finite (3602879701896397 / 2 ^ 55) ∧
      F64.add (F64.round (1 / 10)) (F64.round (2 / 10)) = .finite (5404319552844596 / 2 ^ 54) ∧
      F64.round ((2 ^ 53 - 1) * 2 ^ 971) = .finite ((2 ^ 53 - 1) * 2 ^ 971) ∧
      F64.round ((2 ^ 53 - 1) * 2 ^ 971 + 2 ^ 970) = .posInf ∧
      F64.round (1 / 2 ^ 1074) = .finite (1 / 2 ^ 1074) ∧
      F64.round (1 / 2 ^ 1075) = .finite 0 ∧
      F64.add (.finite 10000000000000000) (.finite 1) = .finite 10000000000000000 ∧
      F64.add (.finite 10000000000000000) (.finite 3) = .finite 10000000000000004 ∧
      F64.div (.finite 90) (F64.ofNat 3) = .finite 30 ∧
      F64.mul (.finite (2 ^ 1023)) (.finite 50) = .posInf ∧
      F64.div .posInf (.finite 100) = .posInf ∧
      F64.sub (.finite 0) .posInf = .negInf ∧
      F64.add .negInf .posInf = .nan ∧
      F64.div (.finite 0) (F64.ofNat 0) = .nan ∧
      F64.notEqual .nan .nan = true ∧
      F64.less .nan (.finite 0) = false ∧
      F64.greater .nan (.finite 0) = false := by
  decide!

/-! ## C3 and C6 over `float64`: the EXACT check compares a rounded sum -/

theorem float_CreateExpense_exact (heap : Float64.Heap) (total : F64) (paidBy : Option User)
    (splits : List Addr) (metadata : Option ExpenseMetadata) :
    Float64.CreateExpense heap "EXACT" total paidBy splits metadata =
      if F64.notEqual total (Float64.sumExactAmount heap splits) = true then (heap, none)
      else (heap, some (.ExactExpense total paidBy splits metadata)) := by
  simp [Float64.CreateExpense]

theorem float_foldl_exact (heap : Float64.Heap) (splits : List Addr)
    (hexact : ∀ a ∈ splits, (heap a).isExactSplit = true) :
    ∀ acc : F64,
      splits.foldl
          (fun sumSplitAmount a =>
            match heap a with
            | .ExactSplit _ amount => F64.add sumSplitAmount amount
            | _ => sumSplitAmount)
          acc =
        splits.foldl (fun sumSplitAmount a => F64.add sumSplitAmount (heap a).GetAmount) acc := by
  induction splits with
  | nil => intro acc; rfl
  | cons a rest ih =>
    intro acc
    have ha := hexact a (List.mem_cons_self a rest)
    have hrest : ∀ b ∈ rest, (heap b).isExactSplit = true :=
      fun b hb => hexact b (List.mem_cons_of_mem a hb)
    simp only [List.foldl_cons]
    cases hs : heap a with
    | EqualSplit u amt => simp [hs, Float64.Split.isExactSplit] at ha
    | ExactSplit u amt => exact ih hrest _
    | PercentSplit u pc amt => simp [hs, Float64.Split.isExactSplit] at ha

/-- For a list of `ExactSplit` values the sum the code computes is the
declared amounts added one after the other, in the order of the list, each
addition rounded. -/
theorem float_sumExactAmount_of_exact (heap : Float64.Heap) (splits : List Addr)
    (hexact : ∀ a ∈ splits, (heap a).isExactSplit = true) :
    Float64.sumExactAmount heap splits =
      splits.foldl (fun sumSplitAmount a => F64.add sumSplitAmount (heap a).GetAmount)
        (.finite 0) :=
  float_foldl_exact heap splits hexact _

theorem float_AddExpense_rejected {em : Float64.ExpenseManager} {heap : Float64.Heap}
    {expenseType : String} {amount : F64} {paidBy : String} {splits : List Addr}
    {metadata : Option ExpenseMetadata}
    (h : Float64.CreateExpense heap expenseType amount (GoMap.read em.UserMap paidBy) splits
      metadata = (heap, none)) :
    Float64.AddExpense em heap expenseType amount paidBy splits metadata =
      { em := em, heap := heap, status := .done } := by
  unfold Float64.AddExpense
  rw [h]

/-- C3, as stated, fails on `float64` amounts: on the manager with Alice, Bob
and Charlie registered, an EXACT expense of total 1e16 paid by Alice with
`ExactSplit` values of 1e16 for Alice and 1 for Bob has declared amounts that
add up to 1e16 + 1, which is not the total; but the sum the code computes is
1e16, the call is accepted, the expense is appended to Expenses and the ledger
is written. -/
theorem exact_mismatch_lost_in_rounding :
    (∀ a ∈ [0, 1], (Float64.sampleHeap a).isExactSplit = true) ∧
      Float64.declaredSum Float64.sampleHeap [0, 1] = 10000000000000001 ∧
      Float64.declaredSum Float64.sampleHeap [0, 1] ≠ 10000000000000000 ∧
      Float64.sumExactAmount Float64.sampleHeap [0, 1] = .finite 10000000000000000 ∧
      Float64.threeUsers.Expenses = [] ∧
      Float64.roundedExact.em.Expenses =
        [.ExactExpense (.finite 10000000000000000) (some alice) [0, 1]
          (some { Name := "Cruise" })] ∧
      Float64.threeUsers.BalanceSheet = [("1", []), ("2", []), ("3", [])] ∧
      Float64.roundedExact.em.BalanceSheet =
        [("1", [("1", .finite 0), ("2", .finite (-1))]), ("2", [("1", .finite 1)]), ("3", [])] ∧
      Float64.roundedExact.status = Status.done := by
  decide!

/-- C3 (amended): in every state and for every payer id, an EXACT expense
whose splits are `ExactSplit` values is refused by `CreateExpense` when the
`float64` sum of the declared amounts, added one after the other from 0.0 in
the order of the list, compares unequal (`!=`) to the total, and `AddExpense`
then leaves the manager (BalanceSheet, Expenses, UserMap) and the split
objects as they were. -/
theorem exact_rounded_sum_mismatch_rejected (em : Float64.ExpenseManager) (heap : Float64.Heap)
    (total : F64) (paidBy : String) (splits : List Addr) (metadata : Option ExpenseMetadata)
    (hexact : ∀ a ∈ splits, (heap a).isExactSplit = true)
    (hsum : F64.notEqual total
      (splits.foldl (fun sumSplitAmount a => F64.add sumSplitAmount (heap a).GetAmount)
        (.finite 0)) = true) :
    (Float64.CreateExpense heap "EXACT" total (GoMap.read em.UserMap paidBy) splits
        metadata).2 = none ∧
      (Float64.AddExpense em heap "EXACT" total paidBy splits metadata).em.BalanceSheet =
        em.BalanceSheet ∧
      (Float64.AddExpense em heap "EXACT" total paidBy splits metadata).em.Expenses =
        em.Expenses ∧
      (Float64.AddExpense em heap "EXACT" total paidBy splits metadata).em = em ∧
      (Float64.AddExpense em heap "EXACT" total paidBy splits metadata).heap = heap ∧
      (Float64.AddExpense em heap "EXACT" total paidBy splits metadata).status = Status.done := by
  have hc : Float64.CreateExpense heap "EXACT" total (GoMap.read em.UserMap paidBy) splits
      metadata = (heap, none) := by
    rw [float_CreateExpense_exact, float_sumExactAmount_of_exact heap splits hexact, if_pos hsum]
  rw [float_AddExpense_rejected hc, hc]
  exact ⟨rfl, rfl, rfl, rfl, rfl, rfl⟩

/-- Instance of `exact_rounded_sum_mismatch_rejected`: a total of 100 against
exact splits of 50, 50 and 50. -/
theorem exact_rounded_sum_mismatch_rejected_witness :
    (∀ a ∈ [7, 8, 9], (Float64.sampleHeap a).isExactSplit = true) ∧
      F64.notEqual (.finite 100)
        ([7, 8, 9].foldl
          (fun sumSplitAmount a => F64.add sumSplitAmount (Float64.sampleHeap a).GetAmount)
          (.finite 0)) = true ∧
      (Float64.AddExpense Float64.threeUsers Float64.sampleHeap "EXACT" (.finite 100) "2"
        [7, 8, 9] (some { Name := "Cruise" })).em = Float64.threeUsers :=
  ⟨by decide!, by decide!,
    (exact_rounded_sum_mismatch_rejected Float64.threeUsers Float64.sampleHeap (.finite 100) "2"
      [7, 8, 9] (some { Name := "Cruise" }) (by decide!) (by decide!)).2.2.2.1⟩

/-- C6, as stated, fails on `float64` amounts, in both directions:
`CreateExpense` returns an expense for the total 1e16 and `ExactSplit` values
of 1e16 and 1, whose declared amounts add up to 1e16 + 1; and it returns nil
for the total 1e16 + 2 and `ExactSplit` values of 1, 1e16 and 1, whose
declared amounts add up to that total (the code adds them in the order of the
list and gets 1e16). -/
theorem exact_acceptance_follows_rounded_sum :
    (∀ a ∈ [0, 1], (Float64.sampleHeap a).isExactSplit = true) ∧
      Float64.declaredSum Float64.sampleHeap [0, 1] ≠ 10000000000000000 ∧
      (Float64.CreateExpense Float64.sampleHeap "EXACT" (.finite 10000000000000000) (some alice)
          [0, 1] (some { Name := "Cruise" })).2 =
        some (.ExactExpense (.finite 10000000000000000) (some alice) [0, 1]
          (some { Name := "Cruise" })) ∧
      (∀ a ∈ [2, 3, 4], (Float64.sampleHeap a).isExactSplit = true) ∧
      Float64.declaredSum Float64.sampleHeap [2, 3, 4] = 10000000000000002 ∧
      F64.round 10000000000000002 = .finite 10000000000000002 ∧
      Float64.sumExactAmount Float64.sampleHeap [2, 3, 4] = .finite 10000000000000000 ∧
      (Float64.CreateExpense Float64.sampleHeap "EXACT" (.finite 10000000000000002) (some alice)
          [2, 3, 4] (some { Name := "Cruise" })).2 = none := by
  decide!

/-- C6 (amended): for every total and every list of `ExactSplit` values,
`CreateExpense("EXACT", total, ...)` returns an expense if and only if the
`float64` sum of the declared amounts, added one after the other from 0.0 in
the order of the list, compares equal (`==`) to `total`; no split object is
modified, so every resolved amount is the declared one; and the expense
returned is the `ExactExpense` with the given total, payer, splits and
metadata, for which `Validate` is true. -/
theorem exact_accepted_iff_rounded_sum (heap : Float64.Heap) (total : F64)
    (paidBy : Option User) (splits : List Addr) (metadata : Option ExpenseMetadata)
    (hexact : ∀ a ∈ splits, (heap a).isExactSplit = true) :
    ((Float64.CreateExpense heap "EXACT" total paidBy splits metadata).2 ≠ none ↔
        F64.equal total
          (splits.foldl (fun sumSplitAmount a => F64.add sumSplitAmount (heap a).GetAmount)
            (.finite 0)) = true) ∧
      (Float64.CreateExpense heap "EXACT" total paidBy splits metadata).1 = heap ∧
      (F64.equal total
          (splits.foldl (fun sumSplitAmount a => F64.add sumSplitAmount (heap a).GetAmount)
            (.finite 0)) = true →
        (Float64.CreateExpense heap "EXACT" total paidBy splits metadata).2 =
            some (.ExactExpense total paidBy splits metadata) ∧
          (Float64.Expense.ExactExpense total paidBy splits metadata).Validate heap = true) := by
  rw [float_CreateExpense_exact]
  simp only [Float64.Expense.Validate, float_sumExactAmount_of_exact heap splits hexact,
    F64.notEqual]
  cases h : F64.equal total
    (splits.foldl (fun sumSplitAmount a => F64.add sumSplitAmount (heap a).GetAmount)
      (.finite 0)) <;> simp

/-- Instance of `exact_accepted_iff_rounded_sum`: the `Cruise` expense of
`main`, 150 against exact splits of 50, 50 and 50. -/
theorem exact_accepted_iff_rounded_sum_witness :
    (∀ a ∈ [7, 8, 9], (Float64.sampleHeap a).isExactSplit = true) ∧
      F64.equal (.finite 150)
        ([7, 8, 9].foldl
          (fun sumSplitAmount a => F64.add sumSplitAmount (Float64.sampleHeap a).GetAmount)
          (.finite 0)) = true ∧
      (Float64.CreateExpense Float64.sampleHeap "EXACT" (.finite 150) (some bob) [7, 8, 9]
          (some { Name := "Cruise" })).2 =
        some (.ExactExpense (.finite 150) (some bob) [7, 8, 9] (some { Name := "Cruise" })) :=
  ⟨by decide!, by decide!,
    ((exact_accepted_iff_rounded_sum Float64.sampleHeap (.finite 150) (some bob) [7, 8, 9]
      (some { Name := "Cruise" }) (by decide!)).2.2 (by decide!)).1⟩

/-! ## C7, C13 and C16 over `float64`: overflow and NaN -/

/-- C13, as stated, fails on `float64` amounts. After a PERCENT expense of
total `2 ^ 1023` paid by Alice with 50 percent for Alice and no other split,
the row of Alice holds one entry, NaN, which is non-zero for the test
`amount != 0` of `ShowBalance`; `ShowBalance("1")` prints no line for it and
does not print `No balances` either. The same happens with an entry for
another user: after a PERCENT expense of `2 ^ 1023` paid by Alice with 50
percent for Bob and one paid by Bob with 50 percent for Alice, the row of
Alice holds NaN under the key of Bob, and `ShowBalance("1")` prints nothing. -/
theorem showBalance_prints_nothing_for_nan :
    Float64.hugePercentAlone.status = Status.done ∧
      GoMap.has Float64.hugePercentAlone.em.UserMap "1" = true ∧
      Float64.rowOf Float64.hugePercentAlone.em.BalanceSheet "1" = [("1", .nan)] ∧
      F64.notEqual .nan (.finite 0) = true ∧
      Float64.ShowBalance Float64.hugePercentAlone.em "1"
        (Float64.rowOf Float64.hugePercentAlone.em.BalanceSheet "1") = some [] ∧
      Float64.hugePercentBothWays.status = Status.done ∧
      GoMap.has Float64.hugePercentBothWays.em.UserMap "1" = true ∧
      Float64.rowOf Float64.hugePercentBothWays.em.BalanceSheet "1" = [("2", .nan)] ∧
      Float64.ShowBalance Float64.hugePercentBothWays.em "1"
        (Float64.rowOf Float64.hugePercentBothWays.em.BalanceSheet "1") = some [] := by
  decide!

end Splitwise
